import Mathlib

/-!
# deeptrade: exchange gateway, trade cache and market-data tasks

A shallow embedding of the request pipeline of `binance/client.go`,
`binance/errors.go` and `binance/futures_client.go`: the error taxonomy and the
two conversion tables, the canonical query string, the request signer, the
token-bucket limiter, `doRequest` and the retry loop `retryRequest`
(namespace `Binance`); of the trade cache of `task/trade_flow/cache.go`
(namespace `Tradeflow`); and of `GetMarketData`, `GetPositionInfo` and the
polling loop of `task/market_data.go` and `task/position.go` (namespace `Task`).

Conventions of the embedding.

* Go `int`, `int64` and `time.Duration` values are integers; where the source
  multiplies or adds them the result is reduced by `wrap64` (two's complement,
  64 bits).
* A Go `map[string]string` is a list of key/value pairs with pairwise distinct
  keys; the order of the list stands for the (unspecified) iteration order.
  A nil map is `none`.
* Library calls whose code is outside the repository (HMAC-SHA256,
  `json.Unmarshal`, `http.NewRequest`, the HTTP round trip, the clock) are
  fields of an environment `Env`.
-/

namespace Binance

/-! ## errors.go -/

/-- The error kinds of `errors.go`, in the order of the `iota` block. -/
inductive ErrorCode where
  | ErrCodeUnknown
  | ErrCodeInvalidRequest
  | ErrCodeInvalidJSON
  | ErrCodeInvalidSymbol
  | ErrCodeInvalidInterval
  | ErrCodeInvalidOrderType
  | ErrCodeInvalidTimeInForce
  | ErrCodeInvalidSide
  | ErrCodeInvalidQuantity
  | ErrCodeInvalidPrice
  | ErrCodeInvalidTimestamp
  | ErrCodeDisconnected
  | ErrCodeUnauthorized
  | ErrCodeTooManyRequests
  | ErrCodeInternalError
  | ErrCodeServiceUnavailable
  | ErrCodeUnknownOrder
  | ErrCodeOrderRejected
  | ErrCodeCancelRejected
  | ErrCodeNoSuchOrder
  | ErrCodeInsufficientFunds
  | ErrCodeAccountInactive
  | ErrCodeDuplicateOrder
  deriving DecidableEq, Repr

open ErrorCode

/-- The struct `Error`. -/
structure Error where
  Code : ErrorCode
  Message : String
  Details : String
  Raw : String
  deriving DecidableEq, Repr

/-- The constructor `NewError`. -/
def NewError (code : ErrorCode) (message details raw : String) : Error :=
  { Code := code, Message := message, Details := details, Raw := raw }

/-- The struct `APIError`; `Raw` carries the tag `json:"-"`, so decoding never fills it. -/
structure APIError where
  Code : Int
  Message : String
  Raw : String
  deriving DecidableEq, Repr

/-- The constructor `NewAPIError`. -/
def NewAPIError (code : Int) (message raw : String) : APIError :=
  { Code := code, Message := message, Raw := raw }

/-- The table `ConvertAPIError`: exchange error code to `Error`. -/
def ConvertAPIError (apiErr : APIError) : Error :=
  match apiErr.Code with
  | -1021 => NewError ErrCodeInvalidTimestamp "无效的时间戳" "时间戳与服务器时间相差过大" apiErr.Raw
  | -1100 => NewError ErrCodeInvalidJSON "非法字符" "请求中包含非法字符" apiErr.Raw
  | -1101 => NewError ErrCodeInvalidRequest "字符过多" "请求参数字符过多" apiErr.Raw
  | -1102 => NewError ErrCodeInvalidRequest "必选参数缺失" "请求缺少必选参数" apiErr.Raw
  | -1103 => NewError ErrCodeInvalidRequest "未知参数" "请求包含未知参数" apiErr.Raw
  | -1104 => NewError ErrCodeInvalidRequest "参数过多" "请求参数过多" apiErr.Raw
  | -1105 => NewError ErrCodeInvalidRequest "参数值异常" "参数值不在预期范围内" apiErr.Raw
  | -1112 => NewError ErrCodeInvalidRequest "参数为空" "参数不能为空" apiErr.Raw
  | -1114 => NewError ErrCodeInvalidJSON "无效的JSON" "JSON格式错误" apiErr.Raw
  | -1121 => NewError ErrCodeInvalidSymbol "无效的交易对" "交易对不存在" apiErr.Raw
  | -1120 => NewError ErrCodeInvalidInterval "无效的时间间隔" "K线时间间隔无效" apiErr.Raw
  | -1116 => NewError ErrCodeInvalidOrderType "无效的订单类型" "订单类型无效" apiErr.Raw
  | -1115 => NewError ErrCodeInvalidSide "无效的买卖方向" "订单买卖方向无效" apiErr.Raw
  | -1111 => NewError ErrCodeInvalidQuantity "无效的数量" "订单数量无效" apiErr.Raw
  | -1110 => NewError ErrCodeInvalidPrice "无效的价格" "订单价格无效" apiErr.Raw
  | -1000 => NewError ErrCodeUnknown "未知错误" "发生未知错误" apiErr.Raw
  | -1001 => NewError ErrCodeDisconnected "断开连接" "内部错误;无法处理请求" apiErr.Raw
  | -1002 => NewError ErrCodeUnauthorized "未授权" "无权访问该命令" apiErr.Raw
  | -1003 => NewError ErrCodeTooManyRequests "请求过多" "请求次数过多，超过速率限制" apiErr.Raw
  | -1006 => NewError ErrCodeServiceUnavailable "服务不可用" "服务当前不可用" apiErr.Raw
  | -1007 => NewError ErrCodeInternalError "超时" "等待超时" apiErr.Raw
  | -1013 => NewError ErrCodeInvalidQuantity "无效的数量" "数量无效" apiErr.Raw
  | -1015 => NewError ErrCodeUnauthorized "无效的API密钥" "API密钥无效" apiErr.Raw
  | -1022 => NewError ErrCodeInvalidRequest "签名无效" "该请求的签名无效" apiErr.Raw
  | -1106 => NewError ErrCodeInvalidRequest "参数重复" "参数已指定" apiErr.Raw
  | -2010 => NewError ErrCodeUnknownOrder "订单不存在" "订单不存在" apiErr.Raw
  | -2011 => NewError ErrCodeUnknownOrder "订单已取消" "订单已被取消" apiErr.Raw
  | -2013 => NewError ErrCodeNoSuchOrder "无此订单" "订单不存在" apiErr.Raw
  | -2014 => NewError ErrCodeInvalidRequest "错误的API密钥权限" "API密钥权限错误" apiErr.Raw
  | -2015 => NewError ErrCodeInvalidRequest "无效的API密钥格式" "API密钥格式错误" apiErr.Raw
  | -2016 => NewError ErrCodeAccountInactive "账户不活跃" "账户未激活" apiErr.Raw
  | -2019 => NewError ErrCodeInvalidRequest "不允许交易" "不允许交易" apiErr.Raw
  | -2021 => NewError ErrCodeOrderRejected "订单被拒绝" "订单被拒绝" apiErr.Raw
  | -2022 => NewError ErrCodeCancelRejected "取消订单被拒绝" "取消订单被拒绝" apiErr.Raw
  | -2012 => NewError ErrCodeInsufficientFunds "余额不足" "账户余额不足" apiErr.Raw
  | -2018 => NewError ErrCodeCancelRejected "取消订单失败" "余额不足，无法取消订单" apiErr.Raw
  | _ => NewError ErrCodeUnknown "未知API错误" apiErr.Message apiErr.Raw

/-- The table `ConvertHTTPError`: HTTP status to `Error`, keeping the response text. -/
def ConvertHTTPError (statusCode : Int) (response : String) : Error :=
  match statusCode with
  | 400 => NewError ErrCodeInvalidRequest "请求无效" "HTTP 400 Bad Request" response
  | 401 => NewError ErrCodeUnauthorized "未授权" "HTTP 401 Unauthorized" response
  | 403 => NewError ErrCodeUnauthorized "禁止访问" "HTTP 403 Forbidden" response
  | 429 => NewError ErrCodeTooManyRequests "请求过多" "HTTP 429 Too Many Requests" response
  | 500 => NewError ErrCodeInternalError "内部错误" "HTTP 500 Internal Server Error" response
  | 502 => NewError ErrCodeServiceUnavailable "网关错误" "HTTP 502 Bad Gateway" response
  | 503 => NewError ErrCodeServiceUnavailable "服务不可用" "HTTP 503 Service Unavailable" response
  | 504 => NewError ErrCodeServiceUnavailable "网关超时" "HTTP 504 Gateway Timeout" response
  | _ => NewError ErrCodeUnknown "未知HTTP错误" ("HTTP " ++ toString statusCode) response

/-- A value of the Go interface `error`: either a `*Error` of this package or
an error of some other dynamic type. -/
inductive GoError where
  | binance (e : Error)
  | foreign (msg : String)
  deriving DecidableEq, Repr

/-- The predicate `IsAuthError`. -/
def IsAuthError (err : GoError) : Bool :=
  match err with
  | .binance binanceErr =>
    binanceErr.Code = ErrCodeUnauthorized ||
    binanceErr.Code = ErrCodeInvalidTimestamp ||
    binanceErr.Code = ErrCodeAccountInactive
  | .foreign _ => false

/-! ## Machine integers and strings -/

/-- Reduction of an integer to the signed 64-bit range (what Go keeps of an
`int64`, `int` or `time.Duration` result). -/
def wrap64 (x : Int) : Int := (x + 2 ^ 63) % 2 ^ 64 - 2 ^ 63

/-- The constant `time.Millisecond`, in nanoseconds. -/
def Millisecond : Int := 1000000

/-- The UTF-8 bytes of a string, as numbers below 256. -/
def utf8Bytes (s : String) : List Nat :=
  s.toList.flatMap (fun ch => (String.utf8EncodeChar ch).map UInt8.toNat)

/-- The library predicate `strings.HasPrefix`. -/
def HasPrefix (s pre : String) : Bool := pre.toList.isPrefixOf s.toList

/-- Go's order on strings (byte-wise, which on UTF-8 text is the order of the
code-point sequences). -/
def strLE (a b : String) : Prop := a.toList ≤ b.toList

instance : DecidableRel strLE := fun a b => inferInstanceAs (Decidable (a.toList ≤ b.toList))

instance strLE_total : IsTotal String strLE := ⟨fun a b => le_total a.toList b.toList⟩

instance strLE_trans : IsTrans String strLE :=
  ⟨fun a b c (h1 : a.toList ≤ b.toList) (h2 : b.toList ≤ c.toList) => le_trans h1 h2⟩

instance strLE_antisymm : IsAntisymm String strLE :=
  ⟨fun _ _ (h1 : _ ≤ _) (h2 : _ ≤ _) => String.ext (le_antisymm h1 h2)⟩

/-- The library call `sort.Strings`: the ascending rearrangement of the slice
(for a total order the sorted rearrangement does not depend on the algorithm). -/
def sortStrings (l : List String) : List String := l.insertionSort strLE

/-- The test `shouldEscape(c, encodeQueryComponent)` of `net/url`. -/
def shouldEscape (c : Nat) : Bool :=
  if (97 ≤ c ∧ c ≤ 122) ∨ (65 ≤ c ∧ c ≤ 90) ∨ (48 ≤ c ∧ c ≤ 57) then false
  else if c = 45 ∨ c = 95 ∨ c = 46 ∨ c = 126 then false
  else true

/-- The digit table `upperhex` of `net/url`. -/
def upperhex (n : Nat) : Char :=
  ['0', '1', '2', '3', '4', '5', '6', '7', '8', '9', 'A', 'B', 'C', 'D', 'E', 'F'].getD n '0'

/-- One byte of `url.QueryEscape`: a space becomes `+`, any other byte that
must be escaped becomes `%XX`, the rest is kept. -/
def escapeByte (c : Nat) : List Char :=
  if shouldEscape c then
    if c = 32 then ['+'] else ['%', upperhex (c / 16), upperhex (c % 16)]
  else [Char.ofNat c]

/-- The library function `url.QueryEscape`. -/
def QueryEscape (s : String) : String := String.mk ((utf8Bytes s).flatMap escapeByte)

/-- The library function `strings.Join`. -/
def Join : List String → String → String
  | [], _ => ""
  | [a], _ => a
  | a :: b :: t, sep => a ++ sep ++ Join (b :: t) sep

/-! ## Go maps -/

/-- A `map[string]string`: key/value pairs, in iteration order. -/
abbrev GoMap := List (String × String)

namespace GoMap

/-- The keys of a map, in iteration order. -/
def keys (m : GoMap) : List String := m.map Prod.fst

/-- Well-formedness: no key occurs twice. -/
def WF (m : GoMap) : Prop := (keys m).Nodup

instance (m : GoMap) : Decidable (WF m) := inferInstanceAs (Decidable (keys m).Nodup)

/-- The index expression `m[k]`: the value stored under `k`, the empty string when
`k` is absent. -/
def index : GoMap → String → String
  | [], _ => ""
  | (k', v) :: t, k => if k' = k then v else index t k

/-- The assignment `m[k] = v`: overwrite in place, or add the key. -/
def assign : GoMap → String → String → GoMap
  | [], k, v => [(k, v)]
  | (k', v') :: t, k, v => if k' = k then (k, v) :: t else (k', v') :: assign t k v

/-- The loop `for k, v := range src { dst[k] = v }`. -/
def copyInto (dst src : GoMap) : GoMap :=
  src.foldl (fun d kv => assign d kv.1 kv.2) dst

end GoMap

/-! ## client.go -/

/-- The struct `ClientConfig` (types.go). -/
structure ClientConfig where
  APIKey : String
  SecretKey : String
  BaseURL : String
  StreamURL : String
  FuturesBaseURL : String
  FuturesStreamURL : String
  Timeout : Int
  Debug : Bool
  MaxRetries : Int
  RateLimitRateLimit : Int
  RateLimitInterval : Int
  RecvWindow : Int
  RetryDelay : Int
  RetryBackoff : Int
  ProxyURL : String
  ProxyUser : String
  ProxyPass : String
  deriving Repr

/-- The check `validateClientConfig`; `none` is the nil error. -/
def validateClientConfig (config : ClientConfig) : Option Error :=
  if config.APIKey = "" then
    some (NewError ErrCodeInvalidRequest "配置无效" "API密钥不能为空" "")
  else if config.SecretKey = "" then
    some (NewError ErrCodeInvalidRequest "配置无效" "密钥不能为空" "")
  else if config.Timeout ≤ 0 then
    some (NewError ErrCodeInvalidRequest "配置无效" "超时时间必须大于0" "")
  else if config.RecvWindow < 0 ∨ config.RecvWindow > 60000 then
    some (NewError ErrCodeInvalidRequest "配置无效" "接收窗口必须在0-60000毫秒之间" "")
  else if config.MaxRetries < 0 then
    some (NewError ErrCodeInvalidRequest "配置无效" "最大重试次数不能为负数" "")
  else none

/-- The method `buildQueryString` (its receiver is not used). -/
def buildQueryString (params : GoMap) : String :=
  let keys := (GoMap.keys params).filter (fun k => ! (HasPrefix k "_"))
  let keys := sortStrings keys
  let parts := keys.filterMap (fun key =>
    let value := GoMap.index params key
    if value ≠ "" then some (key ++ "=" ++ QueryEscape value) else none)
  Join parts "&"

/-- The method `sign`; `hmacSha256Hex key msg` is
`hex.EncodeToString` of the HMAC-SHA256 of `msg` under `key`. -/
def sign (hmacSha256Hex : String → String → String) (c : ClientConfig) (params : String) :
    String :=
  if c.SecretKey = "" then "" else hmacSha256Hex c.SecretKey params

/-- Lines 196-210 of `addAuthParams`: the copy of the caller's map with `apiKey`,
`timestamp` and `recvWindow` set; `now` is the reading of `time.Now()` in
`UnixNano`. -/
def authParamsUnsigned (c : ClientConfig) (now : Int) (params : GoMap) : GoMap :=
  let authParams := GoMap.copyInto [] params
  let authParams := if c.APIKey ≠ "" then GoMap.assign authParams "apiKey" c.APIKey else authParams
  let timestamp := now.tdiv Millisecond
  let authParams := GoMap.assign authParams "timestamp" (toString timestamp)
  if c.RecvWindow > 0 then GoMap.assign authParams "recvWindow" (toString c.RecvWindow)
  else authParams

/-- The string handed to `sign` inside `addAuthParams` (line 214). -/
def signedPayload (c : ClientConfig) (now : Int) (params : GoMap) : String :=
  buildQueryString (authParamsUnsigned c now params)

/-- The guard of `addAuthParams` (line 191). -/
def authAdded (params : GoMap) : Bool := GoMap.index params "_auth_added" = "true"

/-- Lines 213-220 of `addAuthParams`: the copy with the signature and the sentinel
set. -/
def signedParams (hmacSha256Hex : String → String → String) (c : ClientConfig) (now : Int)
    (params : GoMap) : GoMap :=
  let authParams := authParamsUnsigned c now params
  let authParams :=
    if c.SecretKey ≠ "" then
      let queryString := buildQueryString authParams
      let signature := sign hmacSha256Hex c queryString
      GoMap.assign authParams "signature" signature
    else authParams
  GoMap.assign authParams "_auth_added" "true"

/-- The method `addAuthParams`; the result is the caller's map after the call. -/
def addAuthParams (hmacSha256Hex : String → String → String) (c : ClientConfig) (now : Int)
    (params : GoMap) : GoMap :=
  if authAdded params then params
  else GoMap.copyInto params (signedParams hmacSha256Hex c now params)

/-- The type `RequestRateLimit`; `lastTime` is a clock reading in nanoseconds. -/
structure RequestRateLimit where
  rateLimit : Int
  interval : Int
  tokens : Int
  lastTime : Int
  deriving DecidableEq, Repr

/-- The constructor `NewRequestRateLimit`, called at clock reading `now`. -/
def NewRequestRateLimit (rateLimit interval : Int) (now : Int) : RequestRateLimit :=
  { rateLimit := rateLimit, interval := interval, tokens := rateLimit, lastTime := now }

/-- Lines 57-73 of `Wait`, the refill step at clock reading `now`; `none` is the
run-time panic of an integer division by zero. The difference of the two clock
readings is taken as it is (`Time.Sub` saturates only beyond 292 years). -/
def refill (r : RequestRateLimit) (now : Int) : Option RequestRateLimit :=
  let elapsed := (now - r.lastTime).tdiv Millisecond
  if elapsed ≥ r.interval then
    some { r with tokens := r.rateLimit, lastTime := now }
  else if r.interval = 0 then none
  else
    let tokensToAdd := wrap64 ((wrap64 (elapsed * r.rateLimit)).tdiv r.interval)
    if tokensToAdd > 0 then
      let tokens := wrap64 (r.tokens + tokensToAdd)
      let tokens := if tokens > r.rateLimit then r.rateLimit else tokens
      some { r with tokens := tokens, lastTime := now }
    else some r

/-- The method `Wait`, entered at clock reading `now`. The result is the limiter
after the call and the duration handed to `time.Sleep`, if the call slept;
`afterSleep` is the clock reading taken after that sleep. -/
def Wait (r : RequestRateLimit) (now afterSleep : Int) : Option (RequestRateLimit × Option Int) :=
  match refill r now with
  | none => none
  | some r =>
    if r.tokens ≤ 0 then
      let waitTime := wrap64 (r.interval * Millisecond)
      some ({ r with tokens := r.rateLimit, lastTime := afterSleep }, some waitTime)
    else
      some ({ r with tokens := wrap64 (r.tokens - 1) }, none)

/-! ## futures_client.go -/

/-- A request handed to `httpClient.Do`. -/
structure HttpRequest where
  method : String
  url : String
  body : Option String
  header : List (String × String)
  deriving DecidableEq, Repr

/-- What `httpClient.Do` followed by `io.ReadAll` yields. -/
inductive Transport where
  | doFailed (msg : String)
  | readFailed (msg : String)
  | response (statusCode : Int) (body : String)
  deriving DecidableEq, Repr

/-- The surroundings of one run: library functions and the outside world.
* `hmacSha256Hex key msg`: hex of the HMAC-SHA256 of `msg` under `key`;
* `unmarshalAPIError body`: `json.Unmarshal(body, &apiErr)`, `none` when it
  returns an error, otherwise the decoded fields `code` and `msg`;
* `newRequestError method url`: the error of `http.NewRequest`, if any;
* `now k`: the `k`-th reading of `time.Now()`, in nanoseconds since the epoch;
* `roundTrip k req`: the outcome of the `k`-th call of `httpClient.Do`. -/
structure Env where
  hmacSha256Hex : String → String → String
  unmarshalAPIError : String → Option (Int × String)
  newRequestError : String → String → Option String
  now : Nat → Int
  roundTrip : Nat → HttpRequest → Transport

/-- The mutable state around a client: how often the clock was read and `Do` was
called, the limiter, the sleeps of the limiter and the requests sent so far. -/
structure World where
  nowCount : Nat
  doCount : Nat
  rateLimit : RequestRateLimit
  sleeps : List Int
  sent : List HttpRequest
  deriving DecidableEq, Repr

/-- What a call returns: `(body, nil)`, `(nil, err)`, or a panic that unwinds
through the caller. -/
inductive Reply where
  | ok (body : String)
  | fail (err : GoError)
  | crash
  deriving DecidableEq, Repr

/-- The library call `url.Values.Encode` on the form built from `params`. -/
def formEncode (params : GoMap) : String :=
  Join ((sortStrings (GoMap.keys params)).map (fun k =>
    QueryEscape k ++ "=" ++ QueryEscape (GoMap.index params k))) "&"

/-- Lines 251-262 of `doRequest`: the verdict on a response that was read. -/
def classifyResponse (env : Env) (statusCode : Int) (body : String) : Reply :=
  let apiErr : Option APIError :=
    match env.unmarshalAPIError body with
    | some (code, msg) => some { Code := code, Message := msg, Raw := "" }
    | none => none
  match apiErr with
  | some apiErr =>
    if apiErr.Code ≠ 0 then .fail (.binance (ConvertAPIError apiErr))
    else if statusCode < 200 ∨ statusCode ≥ 300 then
      .fail (.binance (ConvertHTTPError statusCode body))
    else .ok body
  | none =>
    if statusCode < 200 ∨ statusCode ≥ 300 then
      .fail (.binance (ConvertHTTPError statusCode body))
    else .ok body

/-- Lines 183-188 of `doRequest`: the map the request is built from, the
caller's map after the call, and how many clock readings were taken. -/
def authStep (env : Env) (c : ClientConfig) (params : Option GoMap) (needAuth : Bool)
    (nowCount : Nat) : Option GoMap × Option GoMap × Nat :=
  if needAuth then
    match params with
    | none =>
      (some (addAuthParams env.hmacSha256Hex c (env.now nowCount) []), none, nowCount + 1)
    | some m =>
      let m1 := addAuthParams env.hmacSha256Hex c (env.now nowCount) m
      (some m1, some m1, if authAdded m then nowCount else nowCount + 1)
  else (params, params, nowCount)

/-- Lines 190-220 of `doRequest`: URL, body and `Content-Type` of the request. -/
def buildRequest (c : ClientConfig) (method endpoint : String) (params : Option GoMap)
    (needAuth : Bool) : String × Option String × List (String × String) :=
  let fullURL := c.BaseURL ++ endpoint
  if method = "GET" ∨ method = "DELETE" then
    match params with
    | some p =>
      let queryString := buildQueryString p
      (if queryString ≠ "" then fullURL ++ "?" ++ queryString else fullURL, none, [])
    | none => (fullURL, none, [])
  else if needAuth then
    let queryString := buildQueryString (params.getD [])
    (if queryString ≠ "" then fullURL ++ "?" ++ queryString else fullURL, none, [])
  else
    (fullURL, some (formEncode (params.getD [])),
      [("Content-Type", "application/x-www-form-urlencoded")])

/-- Lines 190-230 of `doRequest`: the request with its headers. -/
def requestFor (c : ClientConfig) (method endpoint : String) (params : Option GoMap)
    (needAuth : Bool) : HttpRequest :=
  let (fullURL, body, contentType) := buildRequest c method endpoint params needAuth
  { method := method, url := fullURL, body := body,
    header := contentType ++ [("User-Agent", "deeptrade/binance-go")] ++
      (if c.APIKey ≠ "" then [("X-MBX-APIKEY", c.APIKey)] else []) }

/-- The method `doRequest`. Besides the reply it yields the world and the
caller's map after the call. -/
def doRequest (env : Env) (c : ClientConfig) (method endpoint : String)
    (params : Option GoMap) (needAuth : Bool) (w : World) : Reply × World × Option GoMap :=
  match Wait w.rateLimit (env.now w.nowCount) (env.now (w.nowCount + 1)) with
  | none => (.crash, w, params)
  | some (rl, slept) =>
    let w := { w with rateLimit := rl, sleeps := w.sleeps ++ slept.toList,
                      nowCount := w.nowCount + (if slept.isSome then 2 else 1) }
    let (reqParams, callerParams, nowCount) := authStep env c params needAuth w.nowCount
    let w := { w with nowCount := nowCount }
    let req := requestFor c method endpoint reqParams needAuth
    match env.newRequestError method req.url with
    | some msg =>
      (.fail (.binance (NewError ErrCodeInvalidRequest "创建请求失败" msg "")), w, callerParams)
    | none =>
      let k := w.doCount
      let w := { w with doCount := w.doCount + 1, sent := w.sent ++ [req] }
      match env.roundTrip k req with
      | .doFailed msg =>
        (.fail (.binance (NewError ErrCodeDisconnected "请求失败" msg "")), w, callerParams)
      | .readFailed msg =>
        (.fail (.binance (NewError ErrCodeInternalError "读取响应失败" msg "")), w, callerParams)
      | .response statusCode body => (classifyResponse env statusCode body, w, callerParams)

/-- Lines 286-295 of `retryRequest`: the errors after which the loop breaks. -/
def noRetry (err : GoError) : Bool :=
  match err with
  | .binance binanceErr =>
    binanceErr.Code = ErrCodeInvalidRequest ||
    binanceErr.Code = ErrCodeInvalidSymbol ||
    binanceErr.Code = ErrCodeInvalidJSON ||
    binanceErr.Code = ErrCodeUnauthorized ||
    binanceErr.Code = ErrCodeAccountInactive
  | .foreign _ => false

/-- Lines 272-275 of `retryRequest`: the duration slept before attempt number
`attempt` (counted from 0), in nanoseconds. -/
def backoffDelay (c : ClientConfig) (attempt : Int) : Int :=
  (List.range (attempt - 1).toNat).foldl (fun delay _ => wrap64 (delay * c.RetryBackoff))
    (wrap64 (c.RetryDelay * Millisecond))

/-- What the retry loop does, in order. -/
inductive RetryEvent where
  | sleep (d : Int)
  | attempt (r : Reply)
  deriving DecidableEq, Repr

/-- The outcome of `retryRequest`: the returned pair `(body, err)`, whether a
panic unwound instead, the state after the call, and the trace of the loop. -/
structure RetryResult (σ : Type) where
  body : Option String
  err : Option GoError
  crashed : Bool
  state : σ
  trace : List RetryEvent

/-- The loop of `retryRequest` over an arbitrary `doRequest` acting on a state
`σ`. The first argument counts the iterations still allowed by the loop test
`attempt <= MaxRetries` (the counter itself is not reduced to 64 bits: it would
take 2^63 iterations to make `attempt++` wrap); `lastErr` is the loop variable of
that name. -/
def retryLoop {σ : Type} (c : ClientConfig) (doRequest : σ → Reply × σ) :
    Nat → Int → σ → Option GoError → RetryResult σ
  | 0, _, s, lastErr =>
    { body := none, err := lastErr, crashed := false, state := s, trace := [] }
  | n + 1, attempt, s, _ =>
    let slept := if attempt > 0 then [RetryEvent.sleep (backoffDelay c attempt)] else []
    match doRequest s with
    | (.ok body, s1) =>
      { body := some body, err := none, crashed := false, state := s1,
        trace := slept ++ [.attempt (.ok body)] }
    | (.crash, s1) =>
      { body := none, err := none, crashed := true, state := s1,
        trace := slept ++ [.attempt .crash] }
    | (.fail err, s1) =>
      if noRetry err then
        { body := none, err := some err, crashed := false, state := s1,
          trace := slept ++ [.attempt (.fail err)] }
      else
        let r := retryLoop c doRequest n (attempt + 1) s1 (some err)
        { r with trace := slept ++ [.attempt (.fail err)] ++ r.trace }

/-- The method `retryRequest` over an arbitrary `doRequest`. -/
def retryRequestWith {σ : Type} (c : ClientConfig) (doRequest : σ → Reply × σ) (s : σ) :
    RetryResult σ :=
  retryLoop c doRequest (c.MaxRetries + 1).toNat 0 s none

/-- The call `c.doRequest(method, endpoint, params, needAuth)` of line 279, as a step
on the pair of the world and the caller's parameter map. -/
def doRequestStep (env : Env) (c : ClientConfig) (method endpoint : String) (needAuth : Bool)
    (s : World × Option GoMap) : Reply × World × Option GoMap :=
  doRequest env c method endpoint s.2 needAuth s.1

/-- The method `retryRequest` of `FuturesClient`; the state is the world and the
caller's parameter map. -/
def retryRequest (env : Env) (c : ClientConfig) (method endpoint : String)
    (params : Option GoMap) (needAuth : Bool) (w : World) : RetryResult (World × Option GoMap) :=
  retryRequestWith c (doRequestStep env c method endpoint needAuth) (w, params)

/-! ## Vocabulary of the statements -/

/-- The fourteen kinds listed for the classification of exchange responses. -/
def fourteenKinds : List ErrorCode :=
  [ErrCodeInvalidRequest, ErrCodeInvalidSymbol, ErrCodeInvalidJSON, ErrCodeInvalidTimestamp,
   ErrCodeUnauthorized, ErrCodeTooManyRequests, ErrCodeInternalError, ErrCodeServiceUnavailable,
   ErrCodeUnknownOrder, ErrCodeOrderRejected, ErrCodeCancelRejected, ErrCodeInsufficientFunds,
   ErrCodeAccountInactive, ErrCodeUnknown]

/-- The further kinds that `ConvertAPIError` produces. -/
def furtherAPIKinds : List ErrorCode :=
  [ErrCodeInvalidInterval, ErrCodeInvalidOrderType, ErrCodeInvalidSide, ErrCodeInvalidQuantity,
   ErrCodeInvalidPrice, ErrCodeDisconnected, ErrCodeNoSuchOrder]

/-- The state in which the `k`-th successive call of `doRequest` starts (`k` from 0). -/
def stateBefore {σ : Type} (doRequest : σ → Reply × σ) (s : σ) (k : Nat) : σ :=
  (fun t => (doRequest t).2)^[k] s

/-- The reply of the `k`-th successive call of `doRequest` (`k` from 0). -/
def replyAt {σ : Type} (doRequest : σ → Reply × σ) (s : σ) (k : Nat) : Reply :=
  (doRequest (stateBefore doRequest s k)).1

/-- The replies of the attempts recorded in a trace, in order. -/
def attemptsOf (tr : List RetryEvent) : List Reply :=
  tr.filterMap (fun ev => match ev with
    | .attempt r => some r
    | .sleep _ => none)

/-- The durations of the sleeps recorded in a trace, in order. -/
def sleepsOf (tr : List RetryEvent) : List Int :=
  tr.filterMap (fun ev => match ev with
    | .sleep d => some d
    | .attempt _ => none)

/-- The `key=value` part of `buildQueryString` for a key (lines 243-248). -/
def queryPart (params : GoMap) (key : String) : Option String :=
  if GoMap.index params key ≠ "" then some (key ++ "=" ++ QueryEscape (GoMap.index params key))
  else none

/-- The call returned what the reply `last` carries: `(body, nil)` for a success,
`(nil, err)` for a failure, and a panic for a panic. -/
def returnsReply {σ : Type} (r : RetryResult σ) (last : Reply) : Prop :=
  match last with
  | .ok body => r.body = some body ∧ r.err = none ∧ r.crashed = false
  | .fail err => r.body = none ∧ r.err = some err ∧ r.crashed = false
  | .crash => r.crashed = true

/-- An event that the loop continues after: a sleep, or an attempt that failed
with an error outside the no-retry list. -/
def passedOver (ev : RetryEvent) : Prop :=
  (∃ d, ev = .sleep d) ∨ (∃ e, ev = .attempt (.fail e) ∧ noRetry e = false)

/-- The events of iteration `i` of the loop: the back-off sleep, except before
the first attempt, and the attempt. -/
def eventsAt {σ : Type} (c : ClientConfig) (f : σ → Reply × σ) (s : σ) (a i : Nat) :
    List RetryEvent :=
  (if ((a + i : Nat) : Int) > 0 then [RetryEvent.sleep (backoffDelay c ((a + i : Nat) : Int))]
    else []) ++ [RetryEvent.attempt (replyAt f s i)]

/-! ## Inputs for examples -/

/-- A configuration as `NewFuturesClientFromConfig` builds it, for examples. -/
def sampleConfig (maxRetries retryDelay retryBackoff recvWindow : Int) : ClientConfig :=
  { APIKey := "key", SecretKey := "secret", BaseURL := "https://fapi.binance.com",
    StreamURL := "", FuturesBaseURL := "", FuturesStreamURL := "", Timeout := 10, Debug := false,
    MaxRetries := maxRetries, RateLimitRateLimit := 1200, RateLimitInterval := 60000,
    RecvWindow := recvWindow, RetryDelay := retryDelay, RetryBackoff := retryBackoff,
    ProxyURL := "", ProxyUser := "", ProxyPass := "" }

/-- A stand-in for HMAC-SHA256 in examples (the theorems hold for every function). -/
def sampleHmac (key msg : String) : String :=
  "mac" ++ toString ((key ++ msg).toList.foldl (fun h ch => (h * 31 + ch.toNat) % 1000000007) 7)

/-- An environment for examples: the clock advances by 7 ms per reading, the
`k`-th request is answered by `answer k`, and `decoded` is what `json.Unmarshal`
makes of an answer. -/
def sampleEnv (decoded : Option (Int × String)) (answer : Nat → Transport) : Env :=
  { hmacSha256Hex := sampleHmac, unmarshalAPIError := fun _ => decoded,
    newRequestError := fun _ _ => none,
    now := fun k => 1700000000000000000 + 7000000 * k,
    roundTrip := fun k _ => answer k }

/-- A world for examples: a fresh limiter of 1200 requests per minute. -/
def sampleWorld : World :=
  { nowCount := 0, doCount := 0, rateLimit := NewRequestRateLimit 1200 60000 1700000000000000000,
    sleeps := [], sent := [] }

end Binance

namespace Binance

/-! ## Runs of the limiter -/

/-- Successive calls of `Wait`, one per pair of clock readings (the reading at
entry and the reading after a possible sleep); the result is the limiter after the
last call and, for every call, the duration slept, if any. -/
def waitAll (r : RequestRateLimit) : List (Int × Int) → Option (RequestRateLimit × List (Option Int))
  | [] => some (r, [])
  | (now, afterSleep) :: rest =>
    match Wait r now afterSleep with
    | none => none
    | some (r1, slept) =>
      match waitAll r1 rest with
      | none => none
      | some (r2, sleeps) => some (r2, slept :: sleeps)

end Binance

namespace Tradeflow

/-! ## task/trade_flow/cache.go -/

/-- The struct `binance.RecentTrade`. -/
structure RecentTrade where
  ID : Int
  Price : String
  Qty : String
  QuoteQty : String
  Time : Int
  IsBuyerMaker : Bool
  IsBestMatch : Bool
  deriving DecidableEq, Repr

/-- The field `dataMap` of `TradeFlow`, a `map[int64]binance.RecentTrade`: the
entries in iteration order. -/
abbrev TradeMap := List (Int × RecentTrade)

namespace TradeMap

/-- The keys of the map, in iteration order. -/
def keys (m : TradeMap) : List Int := m.map Prod.fst

/-- The values of the map, in iteration order. -/
def values (m : TradeMap) : List RecentTrade := m.map Prod.snd

/-- Well-formedness of a cache: no id occurs twice, and every trade is stored under
its own id (all writes are `dataMap[v.ID] = v`). -/
def WF (m : TradeMap) : Prop := (keys m).Nodup ∧ ∀ kv ∈ m, kv.2.ID = kv.1

instance (m : TradeMap) : Decidable (WF m) :=
  inferInstanceAs (Decidable ((keys m).Nodup ∧ ∀ kv ∈ m, kv.2.ID = kv.1))

/-- The index expression `v, ok := m[k]`. -/
def lookup : TradeMap → Int → Option RecentTrade
  | [], _ => none
  | (k', v) :: t, k => if k' = k then some v else lookup t k

/-- The assignment `m[k] = v`: overwrite in place, or add the key. -/
def assign : TradeMap → Int → RecentTrade → TradeMap
  | [], k, v => [(k, v)]
  | (k', v') :: t, k, v => if k' = k then (k, v) :: t else (k', v') :: assign t k v

end TradeMap

/-- The library call `sort.Slice(s, less)`: a function of the comparison and of
the slice. -/
abbrev SliceSorter := (RecentTrade → RecentTrade → Bool) → List RecentTrade → List RecentTrade

/-- The comparison `trades[i].Time > trades[j].Time` (newest first). -/
def newestFirst (a b : RecentTrade) : Bool := a.Time > b.Time

/-- The comparison `result[i].Time < result[j].Time` (oldest first). -/
def oldestFirst (a b : RecentTrade) : Bool := a.Time < b.Time

/-- What the code relies on from `sort.Slice` for the two comparisons it uses: the
result is a rearrangement of the slice in which no later element is `less` than an
earlier one. The order among trades of equal time is left open. -/
def IsSliceSort (sortSlice : SliceSorter) : Prop :=
  ∀ l : List RecentTrade,
    (sortSlice newestFirst l).Perm l ∧
    (sortSlice newestFirst l).Pairwise (fun a b => a.Time ≥ b.Time) ∧
    (sortSlice oldestFirst l).Perm l ∧
    (sortSlice oldestFirst l).Pairwise (fun a b => a.Time ≤ b.Time)

/-- An instance of `sort.Slice` for examples: insertion sort. -/
def insertionSortSlice : SliceSorter :=
  fun less l => l.insertionSort (fun a b => less b a = false)

/-- Line 32-34 of `AddRecentTrade`: the merge `tf.dataMap[v.ID] = v` over the batch. -/
def mergeTrades (dataMap : TradeMap) (data : List RecentTrade) : TradeMap :=
  data.foldl (fun m v => TradeMap.assign m v.ID v) dataMap

/-- The method `AddRecentTrade`: the cache after the call. -/
def AddRecentTrade (sortSlice : SliceSorter) (dataMap : TradeMap) (data : List RecentTrade) :
    TradeMap :=
  let size := 10000
  let dataMap := mergeTrades dataMap data
  if dataMap.length < size then dataMap
  else
    let trades := TradeMap.values dataMap
    let trades := sortSlice newestFirst trades
    let newdata := (trades.take size).foldl (fun m t => TradeMap.assign m t.ID t) []
    newdata

/-- The constant `time.Minute`, in nanoseconds. -/
def Minute : Int := 60000000000

/-- The method `getRecentTradesByDuration`; `now` is the reading of `time.Now()` in
`UnixNano`, and the instant `now - duration` is one that `UnixNano` represents (years
1678 to 2262), so that the subtraction is exact. -/
def getRecentTradesByDuration (sortSlice : SliceSorter) (dataMap : TradeMap) (now : Int)
    (duration : Int) : List RecentTrade :=
  let thresholdTime := (now - duration).tdiv Binance.Millisecond
  let trades := (TradeMap.values dataMap).filter (fun trade => trade.Time ≥ thresholdTime)
  sortSlice newestFirst trades

/-- The method `GetRecentTradesLast5Minutes`. -/
def GetRecentTradesLast5Minutes (sortSlice : SliceSorter) (dataMap : TradeMap) (now : Int) :
    List RecentTrade :=
  let result := getRecentTradesByDuration sortSlice dataMap now (5 * Minute)
  sortSlice oldestFirst result

/-- The method `GetRecentTradesLast10Minutes`. -/
def GetRecentTradesLast10Minutes (sortSlice : SliceSorter) (dataMap : TradeMap) (now : Int) :
    List RecentTrade :=
  let result := getRecentTradesByDuration sortSlice dataMap now (10 * Minute)
  sortSlice oldestFirst result

/-- The method `GetRecentTradesLast20Minutes`. -/
def GetRecentTradesLast20Minutes (sortSlice : SliceSorter) (dataMap : TradeMap) (now : Int) :
    List RecentTrade :=
  let result := getRecentTradesByDuration sortSlice dataMap now (20 * Minute)
  sortSlice oldestFirst result

/-- A trade with the given id and time, for examples. -/
def sampleTrade (id time : Int) : RecentTrade :=
  { ID := id, Price := "2500.10", Qty := "0.5", QuoteQty := "1250.05", Time := time,
    IsBuyerMaker := false, IsBestMatch := true }

end Tradeflow

namespace Task

/-! ## Floating-point numbers

`strconv.ParseFloat(s, 64)` yields a `float64`. Lean's `Float` does not reduce in
proofs, so a `float64` is kept as its IEEE 754 binary64 fields, on which the
comparisons and the negation used by the code are exact. -/

/-- A `float64`: sign bit, biased exponent (below 2048) and fraction (below `2^52`). -/
structure F64 where
  sign : Bool
  exponent : Nat
  fraction : Nat
  deriving DecidableEq, Repr

namespace F64

/-- The constant `0`. -/
def zero : F64 := { sign := false, exponent := 0, fraction := 0 }

/-- Not-a-number: exponent all ones and a non-zero fraction. -/
def isNaN (x : F64) : Bool := x.exponent == 2047 && x.fraction != 0

/-- The position of a number that is not NaN on the number line: the magnitude bits,
negated under the sign bit (so `-0` and `+0` coincide). -/
def key (x : F64) : Int :=
  let mag : Int := x.exponent * 2 ^ 52 + x.fraction
  if x.sign then -mag else mag

/-- Go's `x < y` on `float64`: false when either side is NaN. -/
def lt (x y : F64) : Bool := !x.isNaN && !y.isNaN && decide (x.key < y.key)

/-- Go's `x > y` on `float64`. -/
def gt (x y : F64) : Bool := lt y x

/-- Go's `x != y` on `float64`: true when either side is NaN. -/
def ne (x y : F64) : Bool := x.isNaN || y.isNaN || decide (x.key ≠ y.key)

/-- Go's unary minus: the sign bit flipped. -/
def neg (x : F64) : F64 := { x with sign := !x.sign }

end F64

/-! ## binance types read by package `task` -/

/-- The type `binance.Position` (the string and integer fields the package reads or
prints; `PositionSide` is a string type). -/
structure Position where
  Symbol : String
  PositionAmt : String
  EntryPrice : String
  MarkPrice : String
  UnRealizedProfit : String
  PositionSide : String
  UpdateTime : Int
  deriving DecidableEq, Repr

/-- The constant `binance.PositionSideBoth`. -/
def PositionSideBoth : String := "BOTH"
/-- The constant `binance.PositionSideLong`. -/
def PositionSideLong : String := "LONG"
/-- The constant `binance.PositionSideShort`. -/
def PositionSideShort : String := "SHORT"

/-- The type `PositionInfo` of `types.go`; `Duration` is a `time.Duration` in
nanoseconds. -/
structure PositionInfo where
  HasLong : Bool
  HasShort : Bool
  LongAmt : F64
  ShortAmt : F64
  NetAmt : F64
  IsDualSide : Bool
  Duration : Int
  UnRealizedProfit : String
  deriving DecidableEq, Repr

/-- The method `Time.Sub` on two instants given in nanoseconds since the epoch: the
difference, saturated to the range of `time.Duration`. -/
def timeSub (t u : Int) : Int :=
  let d := t - u
  if d < -(2 ^ 63) then -(2 ^ 63) else if d > 2 ^ 63 - 1 then 2 ^ 63 - 1 else d

/-- The body of the loop of `GetPositionInfo` for the position at index `i`.
`parseFloat s` is `strconv.ParseFloat(s, 64)`, `none` when it returns an error;
`clock i` is the reading of `time.Now()` taken in iteration `i`, in nanoseconds. -/
def positionStep (parseFloat : String → Option F64) (clock : Nat → Int) (info : PositionInfo)
    (i : Nat) (pos : Position) : PositionInfo :=
  match parseFloat pos.PositionAmt with
  | none => info
  | some amt =>
    let amt := if F64.lt amt F64.zero then F64.neg amt else amt
    let info :=
      if pos.PositionSide = PositionSideLong ∧ F64.gt amt F64.zero = true then
        { info with HasLong := true, LongAmt := amt }
      else info
    let info :=
      if pos.PositionSide = PositionSideShort ∧ F64.gt amt F64.zero = true then
        { info with HasShort := true, ShortAmt := amt }
      else info
    if F64.gt amt F64.zero then
      let positionTime := (pos.UpdateTime.tdiv 1000) * 1000000000
      let now := clock i
      let duration := timeSub now positionTime
      { info with Duration := duration, UnRealizedProfit := pos.UnRealizedProfit }
    else info

/-- The loop of `GetPositionInfo` from index `i` on. -/
def positionLoop (parseFloat : String → Option F64) (clock : Nat → Int) :
    Nat → PositionInfo → List Position → PositionInfo
  | _, info, [] => info
  | i, info, pos :: rest =>
    positionLoop parseFloat clock (i + 1) (positionStep parseFloat clock info i pos) rest

/-- The function `GetPositionInfo`; a nil slice is the empty list. -/
def GetPositionInfo (parseFloat : String → Option F64) (clock : Nat → Int)
    (positions : List Position) : PositionInfo :=
  let info : PositionInfo :=
    { HasLong := false, HasShort := false, LongAmt := F64.zero, ShortAmt := F64.zero,
      NetAmt := F64.zero, IsDualSide := true, Duration := 0, UnRealizedProfit := "" }
  positionLoop parseFloat clock 0 info positions

/-! ## market_data.go -/

/-- The outcome of one source fetch, a Go pair `(value, err)`: `ok v` when `err` is
nil, `failed e` when the fetch returned the error `e` (and a nil value). -/
inductive Fetch (α : Type) where
  | ok (v : α)
  | failed (err : String)
  deriving DecidableEq, Repr

/-- A pointer variable that a fetch goroutine assigns only on success: nil otherwise. -/
def Fetch.ptr {α : Type} : Fetch α → Option α
  | .ok v => some v
  | .failed _ => none

/-- A slice variable that a fetch goroutine assigns only on success: nil (the empty
list) otherwise. -/
def Fetch.slice {α : Type} : Fetch (List α) → List α
  | .ok v => v
  | .failed _ => []

/-- The type `binance.FuturesTicker` (its first fields; `LastPrice` is the one read). -/
structure FuturesTicker where
  Symbol : String
  PriceChange : String
  PriceChangePercent : String
  WeightedAvgPrice : String
  LastPrice : String
  deriving DecidableEq, Repr

set_option linter.dupNamespace false

/-- The type `binance.MarkPrice`. -/
structure MarkPrice where
  Symbol : String
  MarkPrice : String
  IndexPrice : String
  EstSettlePrice : String
  LastFundingRate : String
  NextFundingTime : Int
  InterestRate : String
  Time : Int
  deriving DecidableEq, Repr

/-- A decoded value of a binance type whose fields `GetMarketData` never reads,
identified by the JSON text it was decoded from. -/
structure Decoded where
  json : String
  deriving DecidableEq, Repr

/-- The type `binance.Kline`. -/
abbrev Kline := Decoded
/-- The type `binance.Depth`. -/
abbrev Depth := Decoded
/-- The type `binance.BookTicker`. -/
abbrev BookTicker := Decoded
/-- The type `binance.FuturesAccountInfo`. -/
abbrev FuturesAccountInfo := Decoded
/-- The type `binance.FundingRateHistory`. -/
abbrev FundingRateHistory := Decoded
/-- The type `binance.OpenInterest`. -/
abbrev OpenInterest := Decoded
/-- The type `binance.Order`. -/
abbrev Order := Decoded

/-- The type `MarketData` of `types.go`: a nil pointer is `none`, a nil slice the
empty list; `PositionInfo` always points to the value built by `GetPositionInfo`. -/
structure MarketData where
  Ticker : Option FuturesTicker
  Klines3m : List Kline
  Klines1m : List Kline
  OrderBook : Option Depth
  BookTicker : Option Task.BookTicker
  Positions : List Position
  Account : Option FuturesAccountInfo
  MarkPrice : String
  FundingRate : Option FundingRateHistory
  OpenInterest : Option Task.OpenInterest
  OrderHistory : List Order
  OpenOrders : List Order
  MarkPriceDetail : Option Task.MarkPrice
  FundingRateHistorys : List FundingRateHistory
  PositionInfo : Task.PositionInfo
  deriving DecidableEq, Repr

/-- What the twelve source fetches of one `GetMarketData` call return, in the order in
which their goroutines are launched. -/
structure Fetches where
  ticker : Fetch FuturesTicker
  klines : Fetch (List Kline)
  depth : Fetch Depth
  positions : Fetch (List Position)
  account : Fetch FuturesAccountInfo
  markPrice : Fetch MarkPrice
  fundingRate : Fetch FundingRateHistory
  fundingRateHistory : Fetch (List FundingRateHistory)
  openInterest : Fetch OpenInterest
  orderHistory : Fetch (List Order)
  bookTicker : Fetch BookTicker
  openOrders : Fetch (List Order)
  deriving DecidableEq, Repr

/-- How a call of `GetMarketData` ends: `return nil, err`, a run-time panic (nil
pointer dereference), or `return data, nil`. -/
inductive Outcome where
  | failed (err : String)
  | panicked
  | returned (data : MarketData)
  deriving DecidableEq, Repr

/-- The function `GetMarketData`. `clientErr` is the error of
`binance.GetFuturesClient()`, if any. Each goroutine writes one variable of its own
and only when its fetch succeeded, so after `wg.Wait()` the twelve variables are the
`ptr`/`slice` of the fetch outcomes, whatever the schedule; the collected errors are
only logged, and the thirteenth goroutine, `tradeflow.FetchRecentTrade()`, writes
none of these variables. The struct literal evaluates `markPrice.MarkPrice` (line 259) and the
final log evaluates `ticker.LastPrice` (line 269), both through pointers that are
nil when the fetch failed. -/
def GetMarketData (parseFloat : String → Option F64) (clock : Nat → Int)
    (clientErr : Option String) (f : Fetches) : Outcome :=
  match clientErr with
  | some err => .failed err
  | none =>
    let ticker := f.ticker.ptr
    let klines3m := f.klines.slice
    let orderBook := f.depth.ptr
    let positions := f.positions.slice
    let account := f.account.ptr
    let markPrice := f.markPrice.ptr
    let fundingRate := f.fundingRate.ptr
    let openInterest := f.openInterest.ptr
    let orderHistory := f.orderHistory.slice
    let openOrders := f.openOrders.slice
    let fundingRateHistorys := f.fundingRateHistory.slice
    let bookTicker := f.bookTicker.ptr
    match markPrice with
    | none => .panicked
    | some mp =>
      let data : MarketData :=
        { Ticker := ticker, Klines3m := klines3m, Klines1m := [], OrderBook := orderBook,
          BookTicker := bookTicker, Positions := positions, Account := account,
          MarkPrice := mp.MarkPrice, FundingRate := fundingRate,
          OpenInterest := openInterest, OrderHistory := orderHistory,
          OpenOrders := openOrders, MarkPriceDetail := markPrice,
          FundingRateHistorys := fundingRateHistorys,
          PositionInfo := GetPositionInfo parseFloat clock positions }
      match ticker with
      | none => .panicked
      | some _ => .returned data

/-! ## position.go and quantitative_trading.go: the position poller -/

/-- The type `PositionWithTime`; `recordTime` in nanoseconds since the epoch. -/
structure PositionWithTime where
  Position : Position
  recordTime : Int
  deriving DecidableEq, Repr

/-- The type `PositionCache`. -/
structure PositionCache where
  list : List PositionWithTime
  deriving DecidableEq, Repr

/-- The package variables the poller works on. A channel is the number under which
it was made; `positionStopChan = none` is the nil channel; `closed` lists the
channels closed so far and `made` counts the channels made so far. `offSystem` is
the variable of `quantitative_trading.go`, and `setOffSystemCalls` counts the calls
of `setOffSystem` (a counter added for the statements about that callback). -/
structure Globals where
  positionQueue : List PositionCache
  positionStopChan : Option Nat
  closed : List Nat
  made : Nat
  offSystem : Bool
  setOffSystemCalls : Nat
  deriving DecidableEq, Repr

/-- The function `setOffSystem`. -/
def setOffSystem (g : Globals) (ps : PositionInfo) : Globals :=
  let g := { g with setOffSystemCalls := g.setOffSystemCalls + 1 }
  if ps.HasLong || ps.HasShort then { g with offSystem := false }
  else { g with offSystem := true }

/-- Where the polling goroutine stands after the body of one iteration: it returned
(lines 361-366), it reached the `select` (line 390), or it panicked on `close` of a
nil or closed channel. -/
inductive LoopNext where
  | returned
  | atSelect
  | panicked
  deriving DecidableEq, Repr

/-- The records appended to the history in one iteration; `recordClock i` is the
reading of `time.Now()` for the position at index `i`. -/
def withTimes (recordClock : Nat → Int) : Nat → List Position → List PositionWithTime
  | _, [] => []
  | i, p :: rest =>
    { Position := p, recordTime := recordClock i } :: withTimes recordClock (i + 1) rest

/-- Lines 352-382 of the goroutine of `StartFetchPosition`: one iteration of the loop
from the fetch to the release of the mutex. `fetch` is what `client.GetPositions`
returned; on an error the code only logs it and goes on with the nil slice. The part
from `positionQueueMutex.Lock()` on runs under the mutex, so no `Start` or `Close`
interleaves with it. -/
def pollIteration (parseFloat : String → Option F64) (clock recordClock : Nat → Int)
    (g : Globals) (fetch : Fetch (List Position)) : Globals × LoopNext :=
  let pos := fetch.slice
  let posinfo := GetPositionInfo parseFloat clock pos
  if !posinfo.HasLong && !posinfo.HasShort then
    match g.positionStopChan with
    | none => (g, .panicked)
    | some c =>
      if c ∈ g.closed then (g, .panicked)
      else
        let g := { g with closed := c :: g.closed }
        let g := { g with positionStopChan := none }
        let g := setOffSystem g posinfo
        (g, .returned)
  else
    let poswt := withTimes recordClock 0 pos
    let positionQueue := g.positionQueue ++ [{ list := poswt }]
    let positionQueue := if positionQueue.length > 15 then positionQueue.drop 1 else positionQueue
    ({ g with positionQueue := positionQueue }, .atSelect)

/-! ### Sample inputs -/

/-- A sample oracle for `strconv.ParseFloat` on the few strings the examples use:
`"0.5"`, `"-0.5"`, `"0"`, `"0.000"` and `"NaN"` parse, everything else is taken as a
syntax error. -/
def sampleParseFloat (s : String) : Option F64 :=
  if s = "0.5" then some { sign := false, exponent := 1022, fraction := 0 }
  else if s = "-0.5" then some { sign := true, exponent := 1022, fraction := 0 }
  else if s = "0" ∨ s = "0.000" then some F64.zero
  else if s = "NaN" then some { sign := false, exponent := 2047, fraction := 2 ^ 51 }
  else none

/-- A sample clock: `17 * 10^17` ns plus one millisecond per reading. -/
def sampleClock (k : Nat) : Int := 1700000000000000000 + 1000000 * k

/-- A sample position of `ETHUSDT`. -/
def samplePosition (side amt : String) : Position :=
  { Symbol := "ETHUSDT", PositionAmt := amt, EntryPrice := "2500.00", MarkPrice := "2510.00",
    UnRealizedProfit := "5.00", PositionSide := side, UpdateTime := 1699999000000 }

/-- A sample ticker. -/
def sampleTicker : FuturesTicker :=
  { Symbol := "ETHUSDT", PriceChange := "12.5", PriceChangePercent := "0.5",
    WeightedAvgPrice := "2505.00", LastPrice := "2510.10" }

/-- A sample mark price. -/
def sampleMarkPrice : MarkPrice :=
  { Symbol := "ETHUSDT", MarkPrice := "2510.00", IndexPrice := "2509.90",
    EstSettlePrice := "2509.95", LastFundingRate := "0.0001",
    NextFundingTime := 1700006400000, InterestRate := "0.0001", Time := 1700000000000 }

/-- Sample fetch outcomes: every source succeeds, one long position of 0.5. -/
def sampleFetches : Fetches :=
  { ticker := .ok sampleTicker, klines := .ok [{ json := "[1700000000000]" }],
    depth := .ok { json := "depth" }, positions := .ok [samplePosition "LONG" "0.5"],
    account := .ok { json := "account" }, markPrice := .ok sampleMarkPrice,
    fundingRate := .ok { json := "rate" }, fundingRateHistory := .ok [{ json := "rate0" }],
    openInterest := .ok { json := "oi" }, orderHistory := .ok [],
    bookTicker := .ok { json := "book" }, openOrders := .ok [] }

/-- Sample package variables of a running poller: channel 0 open, two snapshots held. -/
def sampleGlobals : Globals :=
  { positionQueue := [{ list := [] }, { list := [] }], positionStopChan := some 0, closed := [],
    made := 1, offSystem := false, setOffSystemCalls := 0 }

end Task

namespace Binance

/-! ## The parameter maps of the client -/

/-- The keys that the code writes into a parameter map: the literals of the request
methods of `futures_client.go`, in the order of their first occurrence, and the four
keys `apiKey`, `timestamp`, `recvWindow` and `signature` set by `addAuthParams`. -/
def requestKeys : List String :=
  ["symbol", "limit", "interval", "startTime", "endTime", "leverage", "marginType",
   "dualSidePosition", "side", "type", "quantity", "price", "timeInForce", "stopPrice",
   "positionSide", "reduceOnly", "closePosition", "workingType", "orderId",
   "origClientOrderId", "incomeType", "period",
   "apiKey", "timestamp", "recvWindow", "signature"]

/-- The maps that reach `buildQueryString`. The functions that take a parameter map
(`doRequest`, `retryRequest`, `addAuthParams`, `buildQueryString`) are unexported,
so every such map is built by the package itself: no key occurs twice, and every key
is one of `requestKeys` or the sentinel `_auth_added`, whose only assignment (line
220) gives it the value `"true"`. -/
def Receivable (m : GoMap) : Prop :=
  GoMap.WF m ∧
    ∀ k ∈ GoMap.keys m, k ∈ requestKeys ∨ (k = "_auth_added" ∧ GoMap.index m k = "true")

instance (m : GoMap) : Decidable (Receivable m) :=
  inferInstanceAs (Decidable (GoMap.WF m ∧
    ∀ k ∈ GoMap.keys m, k ∈ requestKeys ∨ (k = "_auth_added" ∧ GoMap.index m k = "true")))

/-! ## Construction of a client -/

/-- The type `FuturesClient`: the configuration and the limiter (the HTTP client is
the field `roundTrip` of the environment). -/
structure FuturesClient where
  clientConfig : ClientConfig
  rateLimit : RequestRateLimit

/-- How `NewFuturesClientFromClientConfig` returns: `(nil, err)` or `(client, nil)`. -/
inductive NewClientResult where
  | failed (err : Error)
  | built (client : FuturesClient)

/-- The constructor `NewFuturesClientFromClientConfig`, called at clock reading
`now`. -/
def NewFuturesClientFromClientConfig (config : ClientConfig) (now : Int) : NewClientResult :=
  match validateClientConfig config with
  | some err => .failed err
  | none =>
    .built { clientConfig := config,
             rateLimit := NewRequestRateLimit config.RateLimitRateLimit config.RateLimitInterval now }

/-! ## The steps of `Wait` -/

/-- Whether a call of `Wait` entered at clock reading `now` reaches the division by
`r.interval` of line 65: it does in the `else` branch of the test
`elapsed >= int64(r.interval)`. -/
def reachesDivision (r : RequestRateLimit) (now : Int) : Bool :=
  let elapsed := (now - r.lastTime).tdiv Millisecond
  !decide (elapsed ≥ r.interval)

/-- Lines 57-76 of `Wait`: the refill step and the test `r.tokens <= 0`. The result
is the limiter as the step leaves it and the outcome of the test; `none` is the
panic of a division by zero. -/
def waitCheck (r : RequestRateLimit) (now : Int) : Option (RequestRateLimit × Bool) :=
  match refill r now with
  | none => none
  | some r => some (r, decide (r.tokens ≤ 0))

/-- Lines 77-83 of `Wait`, run on the limiter as it is when the caller gets there:
after a test that found no token, the sleep and the reset of lines 77-80; after a
test that found one, the decrement of line 82. -/
def waitCommit (r : RequestRateLimit) (exhausted : Bool) (afterSleep : Int) :
    RequestRateLimit × Option Int :=
  if exhausted then
    let waitTime := wrap64 (r.interval * Millisecond)
    ({ r with tokens := r.rateLimit, lastTime := afterSleep }, some waitTime)
  else
    ({ r with tokens := wrap64 (r.tokens - 1) }, none)

/-- A step of one of several goroutines that call `Wait` on the same limiter. The
type `RequestRateLimit` has no lock and `doRequest` takes none around
`c.rateLimit.Wait()`, so the two halves of a call are separate steps. -/
inductive WaitEvent where
  | check (caller : Nat) (now : Int)
  | commit (caller : Nat) (afterSleep : Int)
  deriving DecidableEq, Repr

/-- The shared limiter, the callers that are between the two halves of `Wait` (with
the outcome of their test), and the calls that returned, in order, with the
duration each slept. -/
structure SharedLimiter where
  limiter : RequestRateLimit
  pending : List (Nat × Bool)
  returned : List (Nat × Option Int)
  deriving DecidableEq, Repr

/-- One step of the callers of a shared limiter; `none` when the limiter panics or
the step is not the caller's next one. -/
def stepWait (s : SharedLimiter) : WaitEvent → Option SharedLimiter
  | .check caller now =>
    if (s.pending.lookup caller).isSome then none
    else
      match waitCheck s.limiter now with
      | none => none
      | some (r, exhausted) =>
        some { s with limiter := r, pending := s.pending ++ [(caller, exhausted)] }
  | .commit caller afterSleep =>
    match s.pending.lookup caller with
    | none => none
    | some exhausted =>
      let (r, slept) := waitCommit s.limiter exhausted afterSleep
      some { limiter := r, pending := s.pending.filter (fun p => p.1 ≠ caller),
             returned := s.returned ++ [(caller, slept)] }

/-- A schedule of steps, run from left to right. -/
def runWait (s : SharedLimiter) : List WaitEvent → Option SharedLimiter
  | [] => some s
  | e :: rest =>
    match stepWait s e with
    | none => none
    | some s1 => runWait s1 rest

end Binance

namespace Task

/-! ## position.go: the second position check -/

/-- The function `HasRealPosition`; `parseFloat` as in `GetPositionInfo`. -/
def HasRealPosition (parseFloat : String → Option F64) : List Position → Bool
  | [] => false
  | pos :: rest =>
    match parseFloat pos.PositionAmt with
    | some positionAmt =>
      if F64.ne positionAmt F64.zero then true else HasRealPosition parseFloat rest
    | none => HasRealPosition parseFloat rest

/-! ## position.go: starting, stopping and running the polling loop -/

/-- The function `CloseFetchPosition`; `none` is the panic of `close` on a closed
channel. -/
def CloseFetchPosition (g : Globals) : Option Globals :=
  match g.positionStopChan with
  | some c =>
    if c ∈ g.closed then none
    else
      some { g with closed := c :: g.closed, positionStopChan := none, positionQueue := [] }
  | none => some { g with positionQueue := [] }

/-- Lines 342-349 of `StartFetchPosition`: the package variables after the call and
whether the goroutine of line 350 is started. -/
def StartFetchPosition (g : Globals) : Globals × Bool :=
  match g.positionStopChan with
  | some _ => (g, false)
  | none =>
    ({ g with positionQueue := [], positionStopChan := some g.made, made := g.made + 1 }, true)

/-- What one iteration of the loop takes from outside: the result of
`client.GetPositions` and the clock readings of `GetPositionInfo` and of the
records. -/
structure IterationInput where
  fetch : Fetch (List Position)
  clock : Nat → Int
  recordClock : Nat → Int

/-- The snapshot that an iteration appends to the history. -/
def snapshotOf (input : IterationInput) : PositionCache :=
  { list := withTimes input.recordClock 0 input.fetch.slice }

/-- Successive iterations of one polling loop, each `select` of which ends by the
timer: the run stops at the first iteration that does not reach the `select`. -/
def pollRun (parseFloat : String → Option F64) : Globals → List IterationInput → Globals × LoopNext
  | g, [] => (g, .atSelect)
  | g, input :: rest =>
    match pollIteration parseFloat input.clock input.recordClock g input.fetch with
    | (g1, .atSelect) => pollRun parseFloat g1 rest
    | (g1, next) => (g1, next)

/-- The last `n` elements of a list. -/
def lastN {α : Type} (n : Nat) (l : List α) : List α := l.drop (l.length - n)

/-- Where a goroutine started by `StartFetchPosition` stands: in the call
`client.GetPositions` (from line 352), past the unlock of line 382, in the `select`
of line 390 (whose channel operand `positionStopChan` was evaluated on entry),
returned, or stopped by a panic. -/
inductive LoopPc where
  | fetching
  | unlocked
  | selecting (ch : Option Nat)
  | returned
  | panicked
  deriving DecidableEq, Repr

/-- A loop that can still start a fetch: one that has not returned and is not
sitting in a `select` whose stop channel is closed. -/
def LoopPc.live (g : Globals) : LoopPc → Bool
  | .fetching => true
  | .unlocked => true
  | .selecting (some c) => !decide (c ∈ g.closed)
  | .selecting none => true
  | .returned => false
  | .panicked => false

/-- The package variables together with the polling goroutines started so far;
`crashed` is set when a goroutine panicked (which ends the program). -/
structure Poller where
  globals : Globals
  loops : List LoopPc
  crashed : Bool
  deriving DecidableEq, Repr

/-- The program before the first call: every package variable has its zero value. -/
def Poller.init : Poller :=
  { globals := { positionQueue := [], positionStopChan := none, closed := [], made := 0,
                 offSystem := false, setOffSystemCalls := 0 },
    loops := [], crashed := false }

/-- The number of live polling loops. -/
def Poller.liveLoops (p : Poller) : Nat := (p.loops.filter (LoopPc.live p.globals)).length

/-- What can happen next: a call of `StartFetchPosition` or `CloseFetchPosition` by
another goroutine, or a step of the polling goroutine number `i`: its fetch returns
and lines 353-382 run under the mutex (`fetched`), it enters the `select`
(`enterSelect`), the `select` takes the receive from the stop channel
(`stopCase`), or it takes the timer after three minutes (`tickCase`). -/
inductive PollerEvent where
  | start
  | close
  | fetched (i : Nat) (input : IterationInput)
  | enterSelect (i : Nat)
  | stopCase (i : Nat)
  | tickCase (i : Nat)

/-- One step of the program; `none` when the step is not possible in the state. A
receive from a nil channel or from an open channel on which nothing is sent never
completes, so `stopCase` needs a closed channel. -/
def Poller.step (parseFloat : String → Option F64) (p : Poller) : PollerEvent → Option Poller
  | .start =>
    if p.crashed then none
    else
      let (g, spawned) := StartFetchPosition p.globals
      some { p with globals := g, loops := if spawned then p.loops ++ [.fetching] else p.loops }
  | .close =>
    if p.crashed then none
    else
      match CloseFetchPosition p.globals with
      | none => some { p with crashed := true }
      | some g => some { p with globals := g }
  | .fetched i input =>
    if p.crashed then none
    else if p.loops.get? i = some .fetching then
      match pollIteration parseFloat input.clock input.recordClock p.globals input.fetch with
      | (g, .returned) => some { p with globals := g, loops := p.loops.set i .returned }
      | (g, .atSelect) => some { p with globals := g, loops := p.loops.set i .unlocked }
      | (g, .panicked) =>
        some { globals := g, loops := p.loops.set i .panicked, crashed := true }
    else none
  | .enterSelect i =>
    if p.crashed then none
    else if p.loops.get? i = some .unlocked then
      some { p with loops := p.loops.set i (.selecting p.globals.positionStopChan) }
    else none
  | .stopCase i =>
    if p.crashed then none
    else
      match p.loops.get? i with
      | some (.selecting (some c)) =>
        if c ∈ p.globals.closed then some { p with loops := p.loops.set i .returned } else none
      | _ => none
  | .tickCase i =>
    if p.crashed then none
    else
      match p.loops.get? i with
      | some (.selecting _) => some { p with loops := p.loops.set i .fetching }
      | _ => none

/-- A sequence of steps, run from left to right. -/
def Poller.run (parseFloat : String → Option F64) (p : Poller) : List PollerEvent → Option Poller
  | [] => some p
  | e :: rest =>
    match Poller.step parseFloat p e with
    | none => none
    | some p1 => Poller.run parseFloat p1 rest

/-- An iteration input for examples: the fetch returned one position. -/
def sampleInput (side amt : String) : IterationInput :=
  { fetch := .ok [samplePosition side amt], clock := sampleClock, recordClock := sampleClock }

/-- An iteration input for examples: the fetch returned no position. -/
def sampleEmptyInput : IterationInput :=
  { fetch := .ok [], clock := sampleClock, recordClock := sampleClock }

end Task

namespace Binance

open ErrorCode

/-! ## The conversion tables -/

theorem convertAPIError_code_mem (apiErr : APIError) :
    (ConvertAPIError apiErr).Code ∈ fourteenKinds ++ furtherAPIKinds := by
  unfold ConvertAPIError
  split <;> simp [NewError, fourteenKinds, furtherAPIKinds]

theorem convertHTTPError_code_mem (statusCode : Int) (response : String) :
    (ConvertHTTPError statusCode response).Code ∈ fourteenKinds := by
  unfold ConvertHTTPError
  split <;> simp [NewError, fourteenKinds]

theorem convertAPIError_raw (apiErr : APIError) : (ConvertAPIError apiErr).Raw = apiErr.Raw := by
  unfold ConvertAPIError
  split <;> rfl

theorem convertHTTPError_raw (statusCode : Int) (response : String) :
    (ConvertHTTPError statusCode response).Raw = response := by
  unfold ConvertHTTPError
  split <;> rfl

/-! ## Machine arithmetic -/

theorem wrap64_modEq (x : Int) : wrap64 x ≡ x [ZMOD 2 ^ 64] := by
  unfold wrap64
  have h : (x + 2 ^ 63) % 2 ^ 64 ≡ x + 2 ^ 63 [ZMOD 2 ^ 64] := Int.mod_modEq _ _
  have h2 := h.sub_right (2 ^ 63)
  simpa using h2

theorem wrap64_congr {x y : Int} (h : x ≡ y [ZMOD 2 ^ 64]) : wrap64 x = wrap64 y := by
  unfold wrap64
  have h2 : (x + 2 ^ 63) % 2 ^ 64 = (y + 2 ^ 63) % 2 ^ 64 := h.add_right (2 ^ 63)
  rw [h2]

theorem wrap64_mul_left (x y : Int) : wrap64 (wrap64 x * y) = wrap64 (x * y) :=
  wrap64_congr ((wrap64_modEq x).mul_right y)

theorem wrap64_of_fits {x : Int} (h1 : -2 ^ 63 ≤ x) (h2 : x < 2 ^ 63) : wrap64 x = x := by
  unfold wrap64
  rw [Int.emod_eq_of_lt (by omega) (by omega)]
  omega

theorem backoff_fold (x b : Int) (j : Nat) :
    (List.range j).foldl (fun delay _ => wrap64 (delay * b)) (wrap64 x) = wrap64 (x * b ^ j) := by
  induction j with
  | zero => simp
  | succ j ih =>
    rw [List.range_succ, List.foldl_append, ih]
    simp only [List.foldl_cons, List.foldl_nil]
    rw [wrap64_mul_left, pow_succ, mul_assoc]

theorem backoffDelay_eq (c : ClientConfig) (i : Nat) :
    backoffDelay c ((i + 1 : Nat) : Int) = wrap64 (c.RetryDelay * Millisecond * c.RetryBackoff ^ i) := by
  unfold backoffDelay
  have h : (((i + 1 : Nat) : Int) - 1).toNat = i := by omega
  rw [h, backoff_fold]

/-! ## The retry loop -/

theorem stateBefore_succ {σ : Type} (f : σ → Reply × σ) (s : σ) (k : Nat) :
    stateBefore f s (k + 1) = stateBefore f (f s).2 k := by
  simp [stateBefore, Function.iterate_succ_apply]

theorem replyAt_zero {σ : Type} (f : σ → Reply × σ) (s : σ) : replyAt f s 0 = (f s).1 := by
  simp [replyAt, stateBefore]

theorem replyAt_succ {σ : Type} (f : σ → Reply × σ) (s : σ) (k : Nat) :
    replyAt f s (k + 1) = replyAt f (f s).2 k := by
  simp [replyAt, stateBefore_succ]

theorem retryLoop_all_retryable {σ : Type} (c : ClientConfig) (f : σ → Reply × σ) :
    ∀ (n a : Nat) (s : σ) (lastErr : Option GoError),
      (∀ k, k < n → ∃ e, replyAt f s k = .fail e ∧ noRetry e = false) →
      (retryLoop c f n a s lastErr).trace = (List.range n).flatMap (eventsAt c f s a) ∧
      (retryLoop c f n a s lastErr).body = none ∧
      (retryLoop c f n a s lastErr).crashed = false ∧
      (retryLoop c f n a s lastErr).state = stateBefore f s n ∧
      (0 < n → ∃ e, replyAt f s (n - 1) = .fail e ∧ (retryLoop c f n a s lastErr).err = some e) := by
  intro n
  induction n with
  | zero => intro a s lastErr _; simp [retryLoop, stateBefore]
  | succ n ih =>
    intro a s lastErr h
    obtain ⟨e, he, hne⟩ := h 0 (Nat.succ_pos n)
    rw [replyAt_zero] at he
    have hrest : ∀ k, k < n → ∃ e, replyAt f (f s).2 k = .fail e ∧ noRetry e = false := by
      intro k hk
      have := h (k + 1) (Nat.succ_lt_succ hk)
      rwa [replyAt_succ] at this
    have hIH := ih (a + 1) (f s).2 (some e) hrest
    simp only [Nat.cast_add, Nat.cast_one] at hIH
    have hstep : retryLoop c f (n + 1) a s lastErr =
        { retryLoop c f n ((a : Int) + 1) (f s).2 (some e) with
          trace := (if (a : Int) > 0 then [RetryEvent.sleep (backoffDelay c a)] else []) ++
            [RetryEvent.attempt (.fail e)] ++ (retryLoop c f n ((a : Int) + 1) (f s).2 (some e)).trace } := by
      rw [retryLoop]
      rcases hfs : f s with ⟨r, s1⟩
      rw [hfs] at he
      simp only at he
      subst he
      simp [hne]
    rw [hstep]
    obtain ⟨h1, h2, h3, h4, h5⟩ := hIH
    refine ⟨?_, h2, h3, ?_, ?_⟩
    · simp only [h1, List.range_succ_eq_map, List.flatMap_cons, List.flatMap_map]
      congr 1
      · simp [eventsAt, replyAt_zero, he]
      · apply List.flatMap_congr
        intro i _
        simp [eventsAt, replyAt_succ, Nat.add_assoc, Nat.add_comm 1 i]
    · simp [h4, stateBefore_succ]
    · intro _
      rcases Nat.eq_zero_or_pos n with hn | hn
      · subst hn
        refine ⟨e, ?_, ?_⟩
        · simp [replyAt_zero, he]
        · simp [retryLoop]
      · obtain ⟨e2, he2, herr⟩ := h5 hn
        refine ⟨e2, ?_, herr⟩
        have : n + 1 - 1 = (n - 1) + 1 := by omega
        rw [this, replyAt_succ]
        exact he2

theorem retryLoop_shape {σ : Type} (c : ClientConfig) (f : σ → Reply × σ) :
    ∀ (n : Nat) (a : Int) (s : σ) (lastErr : Option GoError),
      ∃ init last, (retryLoop c f (n + 1) a s lastErr).trace = init ++ [.attempt last] ∧
        (∀ ev ∈ init, passedOver ev) ∧ returnsReply (retryLoop c f (n + 1) a s lastErr) last := by
  intro n
  induction n with
  | zero =>
    intro a s lastErr
    rw [retryLoop]
    rcases hfs : f s with ⟨r, s1⟩
    have hsl : ∀ ev ∈ (if a > 0 then [RetryEvent.sleep (backoffDelay c a)] else []), passedOver ev := by
      intro ev hev
      split at hev
      · simp at hev; exact Or.inl ⟨_, hev⟩
      · simp at hev
    cases r with
    | ok body => exact ⟨_, .ok body, rfl, hsl, by simp [returnsReply]⟩
    | crash => exact ⟨_, .crash, rfl, hsl, by simp [returnsReply]⟩
    | fail err =>
      by_cases hnr : noRetry err = true
      · simp only [hnr, if_true]
        exact ⟨_, .fail err, rfl, hsl, by simp [returnsReply]⟩
      · simp only [hnr]
        refine ⟨_, .fail err, ?_, hsl, ?_⟩
        · simp [retryLoop]
        · simp [returnsReply, retryLoop]
  | succ n ih =>
    intro a s lastErr
    rw [retryLoop]
    rcases hfs : f s with ⟨r, s1⟩
    have hsl : ∀ ev ∈ (if a > 0 then [RetryEvent.sleep (backoffDelay c a)] else []), passedOver ev := by
      intro ev hev
      split at hev
      · simp at hev; exact Or.inl ⟨_, hev⟩
      · simp at hev
    cases r with
    | ok body => exact ⟨_, .ok body, rfl, hsl, by simp [returnsReply]⟩
    | crash => exact ⟨_, .crash, rfl, hsl, by simp [returnsReply]⟩
    | fail err =>
      by_cases hnr : noRetry err = true
      · simp only [hnr, if_true]
        exact ⟨_, .fail err, rfl, hsl, by simp [returnsReply]⟩
      · simp only [hnr]
        obtain ⟨init, last, ht, hinit, hret⟩ := ih (a + 1) s1 (some err)
        refine ⟨(if a > 0 then [RetryEvent.sleep (backoffDelay c a)] else []) ++
          [.attempt (.fail err)] ++ init, last, ?_, ?_, ?_⟩
        · simp [ht]
        · intro ev hev
          simp only [List.mem_append, List.mem_singleton] at hev
          rcases hev with (hev | hev) | hev
          · exact hsl ev hev
          · exact Or.inr ⟨err, hev, by simpa using hnr⟩
          · exact hinit ev hev
        · cases last <;> simpa [returnsReply] using hret

theorem attemptsOf_append (t1 t2 : List RetryEvent) :
    attemptsOf (t1 ++ t2) = attemptsOf t1 ++ attemptsOf t2 := by
  simp [attemptsOf]

theorem retryLoop_attempts {σ : Type} (c : ClientConfig) (f : σ → Reply × σ) :
    ∀ (n : Nat) (a : Int) (s : σ) (lastErr : Option GoError),
      attemptsOf (retryLoop c f n a s lastErr).trace =
        (List.range (attemptsOf (retryLoop c f n a s lastErr).trace).length).map (replyAt f s) := by
  intro n
  induction n with
  | zero => intro a s lastErr; simp [retryLoop, attemptsOf]
  | succ n ih =>
    intro a s lastErr
    have hsl : attemptsOf (if a > 0 then [RetryEvent.sleep (backoffDelay c a)] else []) = [] := by
      split <;> simp [attemptsOf]
    rw [retryLoop]
    rcases hfs : f s with ⟨r, s1⟩
    have h0 : replyAt f s 0 = r := by rw [replyAt_zero, hfs]
    have hs1 : s1 = (f s).2 := by rw [hfs]
    cases r with
    | ok body =>
      simp only [attemptsOf_append, hsl, List.nil_append]
      simp [attemptsOf, h0, List.range_succ]
    | crash =>
      simp only [attemptsOf_append, hsl, List.nil_append]
      simp [attemptsOf, h0, List.range_succ]
    | fail err =>
      by_cases hnr : noRetry err = true
      · simp only [hnr, if_true, attemptsOf_append, hsl, List.nil_append]
        simp [attemptsOf, h0, List.range_succ]
      · simp only [hnr, Bool.false_eq_true, if_false]
        have hih := ih (a + 1) s1 (some err)
        simp only [attemptsOf_append, hsl, List.nil_append]
        have hone : attemptsOf [RetryEvent.attempt (Reply.fail err)] = [Reply.fail err] := by
          simp [attemptsOf]
        rw [hone, List.singleton_append, List.length_cons, List.range_succ_eq_map, List.map_cons,
          List.map_map, h0]
        congr 1
        rw [hih]
        simp only [List.length_map, List.length_range]
        apply List.map_congr_left
        intro i _
        simp [replyAt_succ, hs1]

theorem append_cons_eq_append_singleton {α : Type} {pre post init : List α} {x y : α}
    (h : pre ++ x :: post = init ++ [y]) (hx : x ∉ init) : post = [] ∧ x = y ∧ pre = init := by
  rw [List.append_eq_append_iff] at h
  rcases h with ⟨a', h1, h2⟩ | ⟨c', h1, h2⟩
  · cases a' with
    | nil =>
      simp at h2
      simp at h1
      exact ⟨h2.2, h2.1, h1.symm⟩
    | cons z a'' =>
      simp at h2
      exfalso
      apply hx
      rw [h1, h2.1]
      simp
  · cases c' with
    | nil =>
      simp at h2
      simp at h1
      exact ⟨h2.2, h2.1.symm, h1⟩
    | cons z c'' =>
      simp at h2

theorem retryLoop_last_of_noRetry {σ : Type} (c : ClientConfig) (f : σ → Reply × σ)
    (n : Nat) (a : Int) (s : σ) (lastErr : Option GoError) (pre post : List RetryEvent)
    (e : GoError) (htrace : (retryLoop c f n a s lastErr).trace = pre ++ .attempt (.fail e) :: post)
    (he : noRetry e = true) :
    post = [] ∧ returnsReply (retryLoop c f n a s lastErr) (.fail e) := by
  cases n with
  | zero => simp [retryLoop] at htrace
  | succ n =>
    obtain ⟨init, last, ht, hinit, hret⟩ := retryLoop_shape c f n a s lastErr
    rw [ht] at htrace
    have hx : RetryEvent.attempt (.fail e) ∉ init := by
      intro hmem
      rcases hinit _ hmem with ⟨d, hd⟩ | ⟨e2, he2, hne⟩
      · cases hd
      · cases he2
        rw [he] at hne
        cases hne
    obtain ⟨h1, h2, _⟩ := append_cons_eq_append_singleton htrace.symm hx
    cases h2
    exact ⟨h1, hret⟩

theorem noRetry_iff (b : Error) :
    noRetry (.binance b) = true ↔
      (b.Code = ErrCodeInvalidRequest ∨ b.Code = ErrCodeInvalidSymbol ∨
        b.Code = ErrCodeInvalidJSON ∨ b.Code = ErrCodeUnauthorized ∨
        b.Code = ErrCodeAccountInactive) := by
  simp [noRetry, or_assoc]

theorem sleepsOf_append (t1 t2 : List RetryEvent) :
    sleepsOf (t1 ++ t2) = sleepsOf t1 ++ sleepsOf t2 := by
  simp [sleepsOf]

theorem attemptsOf_schedule (g : Nat → Int) (r : Nat → Reply) (n : Nat) :
    attemptsOf ((List.range n).flatMap (fun i => [.sleep (g i), .attempt (r (i + 1))])) =
      (List.range n).map (fun i => r (i + 1)) := by
  induction n with
  | zero => simp [attemptsOf]
  | succ n ih =>
    rw [List.range_succ, List.flatMap_append, attemptsOf_append, ih]
    simp [attemptsOf]

theorem sleepsOf_schedule (g : Nat → Int) (r : Nat → Reply) (n : Nat) :
    sleepsOf ((List.range n).flatMap (fun i => [.sleep (g i), .attempt (r (i + 1))])) =
      (List.range n).map g := by
  induction n with
  | zero => simp [sleepsOf]
  | succ n ih =>
    rw [List.range_succ, List.flatMap_append, sleepsOf_append, ih]
    simp [sleepsOf]

/-- C1 (amended). When every attempt fails with an error outside the no-retry list
and `MaxRetries = n`, `retryRequest` makes exactly `n + 1` calls of `doRequest`; the
duration slept before the `k`-th retry is `RetryDelay * time.Millisecond *
RetryBackoff ^ (k - 1)` reduced to 64 bits, which is exactly
`RetryDelay * RetryBackoff ^ (k - 1)` milliseconds whenever that number of
nanoseconds fits an `int64`; the call returns a nil body and the error of the last
attempt. -/
theorem retryRequest_backoff_schedule {σ : Type} (c : ClientConfig)
    (doRequest : σ → Reply × σ) (s : σ) (n : Nat)
    (hn : c.MaxRetries = (n : Int))
    (hfail : ∀ k, k ≤ n → ∃ e, replyAt doRequest s k = .fail e ∧ noRetry e = false) :
    (retryRequestWith c doRequest s).trace =
        .attempt (replyAt doRequest s 0) :: (List.range n).flatMap (fun i =>
          [.sleep (wrap64 (c.RetryDelay * Millisecond * c.RetryBackoff ^ i)),
           .attempt (replyAt doRequest s (i + 1))]) ∧
      (attemptsOf (retryRequestWith c doRequest s).trace).length = n + 1 ∧
      sleepsOf (retryRequestWith c doRequest s).trace =
        (List.range n).map (fun i => wrap64 (c.RetryDelay * Millisecond * c.RetryBackoff ^ i)) ∧
      (∀ i, i < n → -2 ^ 63 ≤ c.RetryDelay * Millisecond * c.RetryBackoff ^ i →
        c.RetryDelay * Millisecond * c.RetryBackoff ^ i < 2 ^ 63 →
        (sleepsOf (retryRequestWith c doRequest s).trace)[i]? =
          some (c.RetryDelay * c.RetryBackoff ^ i * Millisecond)) ∧
      (retryRequestWith c doRequest s).body = none ∧
      (retryRequestWith c doRequest s).crashed = false ∧
      (∃ e, replyAt doRequest s n = .fail e ∧ (retryRequestWith c doRequest s).err = some e) := by
  have hfuel : (c.MaxRetries + 1).toNat = n + 1 := by omega
  have hall := retryLoop_all_retryable c doRequest (n + 1) 0 s none
    (fun k hk => hfail k (Nat.lt_succ_iff.mp hk))
  simp only [Nat.cast_zero] at hall
  obtain ⟨h1, h2, h3, _, h5⟩ := hall
  have htrace : (retryRequestWith c doRequest s).trace =
      .attempt (replyAt doRequest s 0) :: (List.range n).flatMap (fun i =>
        [.sleep (wrap64 (c.RetryDelay * Millisecond * c.RetryBackoff ^ i)),
         .attempt (replyAt doRequest s (i + 1))]) := by
    unfold retryRequestWith
    rw [hfuel, h1, List.range_succ_eq_map, List.flatMap_cons, List.flatMap_map]
    have h0 : eventsAt c doRequest s 0 0 = [.attempt (replyAt doRequest s 0)] := by
      simp [eventsAt]
    rw [h0, List.singleton_append]
    congr 1
    apply List.flatMap_congr
    intro i _
    have hpos : (((i + 1 : Nat)) : Int) > 0 := by omega
    simp only [Function.comp, eventsAt, Nat.succ_eq_add_one, Nat.zero_add, backoffDelay_eq]
    rw [if_pos hpos]
    rfl
  have hsleeps : sleepsOf (retryRequestWith c doRequest s).trace =
      (List.range n).map (fun i => wrap64 (c.RetryDelay * Millisecond * c.RetryBackoff ^ i)) := by
    rw [htrace]
    have := sleepsOf_schedule (fun i => wrap64 (c.RetryDelay * Millisecond * c.RetryBackoff ^ i))
      (replyAt doRequest s) n
    rw [← this]
    simp [sleepsOf]
  refine ⟨htrace, ?_, hsleeps, ?_, ?_, ?_, ?_⟩
  · rw [htrace]
    have := attemptsOf_schedule (fun i => wrap64 (c.RetryDelay * Millisecond * c.RetryBackoff ^ i))
      (replyAt doRequest s) n
    have hcons : ∀ (r : Reply) (t : List RetryEvent),
        attemptsOf (.attempt r :: t) = r :: attemptsOf t := by
      intro r t; simp [attemptsOf]
    rw [hcons, this]
    simp
  · intro i hi hlo hhi
    rw [hsleeps]
    simp only [List.getElem?_map, List.getElem?_range hi, Option.map_some']
    rw [wrap64_of_fits hlo hhi]
    congr 1
    ring
  · unfold retryRequestWith; rw [hfuel]; exact h2
  · unfold retryRequestWith; rw [hfuel]; exact h3
  · unfold retryRequestWith; rw [hfuel]
    simpa using h5 (Nat.succ_pos n)

/-- C1 (witness). `MaxRetries = 2`, `RetryDelay = 1000`, `RetryBackoff = 2`, every
answer an HTTP 500: three attempts, separated by sleeps of 1000 ms and 2000 ms. -/
theorem retryRequest_backoff_schedule_witness :
    (sampleConfig 2 1000 2 5000).MaxRetries = ((2 : Nat) : Int) ∧
    (attemptsOf (retryRequest (sampleEnv none (fun _ => .response 500 "")) (sampleConfig 2 1000 2 5000)
      "GET" "/fapi/v1/ping" none false sampleWorld).trace).length = 2 + 1 ∧
    sleepsOf (retryRequest (sampleEnv none (fun _ => .response 500 "")) (sampleConfig 2 1000 2 5000)
      "GET" "/fapi/v1/ping" none false sampleWorld).trace = [1000 * Millisecond, 2000 * Millisecond] :=
  have h := retryRequest_backoff_schedule (sampleConfig 2 1000 2 5000)
    (doRequestStep (sampleEnv none (fun _ => .response 500 "")) (sampleConfig 2 1000 2 5000) "GET" "/fapi/v1/ping" false)
    (sampleWorld, none) 2 rfl
    (by
      intro k hk
      refine ⟨.binance (ConvertHTTPError 500 ""), ?_, by decide⟩
      interval_cases k <;> decide)
  ⟨rfl, h.2.1, h.2.2.1.trans (by decide)⟩

/-- C1 (counterexample). `MaxRetries = 1`, `RetryDelay = 10^13` ms, `RetryBackoff = 1`,
every answer an HTTP 500: the duration handed to `time.Sleep` before the retry is
`-8446744073709551616` ns, not `10^13` ms. -/
theorem retryRequest_backoff_overflow :
    (retryRequest (sampleEnv none (fun _ => .response 500 "")) (sampleConfig 1 10000000000000 1 5000)
        "GET" "/fapi/v1/ping" none false sampleWorld).trace =
      [.attempt (.fail (.binance (ConvertHTTPError 500 ""))), .sleep (-8446744073709551616),
       .attempt (.fail (.binance (ConvertHTTPError 500 "")))] ∧
    noRetry (.binance (ConvertHTTPError 500 "")) = false ∧
    sleepsOf (retryRequest (sampleEnv none (fun _ => .response 500 ""))
        (sampleConfig 1 10000000000000 1 5000) "GET" "/fapi/v1/ping" none false sampleWorld).trace ≠
      [(sampleConfig 1 10000000000000 1 5000).RetryDelay *
        (sampleConfig 1 10000000000000 1 5000).RetryBackoff ^ 0 * Millisecond] := by
  decide

/-- C2. With `MaxRetries >= 0`: an attempt of `retryRequest` that fails with kind
InvalidRequest, InvalidSymbol, InvalidJSON, Unauthorized or AccountInactive is the
last event of the run and its error is returned with a nil body; when the first
call of `doRequest` fails so, the run consists of that one attempt. -/
theorem retryRequest_stops_on_noRetry {σ : Type} (c : ClientConfig)
    (doRequest : σ → Reply × σ) (s : σ) (hM : 0 ≤ c.MaxRetries) :
    (∀ (pre post : List RetryEvent) (b : Error),
      (retryRequestWith c doRequest s).trace = pre ++ .attempt (.fail (.binance b)) :: post →
      (b.Code = ErrCodeInvalidRequest ∨ b.Code = ErrCodeInvalidSymbol ∨
        b.Code = ErrCodeInvalidJSON ∨ b.Code = ErrCodeUnauthorized ∨
        b.Code = ErrCodeAccountInactive) →
      post = [] ∧ returnsReply (retryRequestWith c doRequest s) (.fail (.binance b))) ∧
    (∀ b : Error, (doRequest s).1 = .fail (.binance b) →
      (b.Code = ErrCodeInvalidRequest ∨ b.Code = ErrCodeInvalidSymbol ∨
        b.Code = ErrCodeInvalidJSON ∨ b.Code = ErrCodeUnauthorized ∨
        b.Code = ErrCodeAccountInactive) →
      (retryRequestWith c doRequest s).trace = [.attempt (.fail (.binance b))] ∧
        returnsReply (retryRequestWith c doRequest s) (.fail (.binance b))) := by
  constructor
  · intro pre post b htrace hkind
    exact retryLoop_last_of_noRetry c doRequest _ _ s none pre post _ htrace
      ((noRetry_iff b).mpr hkind)
  · intro b hfirst hkind
    have hnr := (noRetry_iff b).mpr hkind
    obtain ⟨m, hm⟩ : ∃ m : Nat, (c.MaxRetries + 1).toNat = m + 1 := ⟨c.MaxRetries.toNat, by omega⟩
    unfold retryRequestWith
    rw [hm, retryLoop]
    rcases hfs : doRequest s with ⟨r, s1⟩
    rw [hfs] at hfirst
    simp only at hfirst
    subst hfirst
    simp [hnr, returnsReply]

/-- C2 (witness). `MaxRetries = 2` and an HTTP 400 answer: one attempt, its
InvalidRequest error returned. -/
theorem retryRequest_stops_on_noRetry_witness :
    0 ≤ (sampleConfig 2 1000 2 5000).MaxRetries ∧
    (retryRequest (sampleEnv none (fun _ => .response 400 "")) (sampleConfig 2 1000 2 5000)
      "GET" "/fapi/v1/ping" none false sampleWorld).trace =
        [.attempt (.fail (.binance (ConvertHTTPError 400 "")))] ∧
    returnsReply (retryRequest (sampleEnv none (fun _ => .response 400 "")) (sampleConfig 2 1000 2 5000)
      "GET" "/fapi/v1/ping" none false sampleWorld) (.fail (.binance (ConvertHTTPError 400 ""))) :=
  ⟨by decide,
    (retryRequest_stops_on_noRetry (sampleConfig 2 1000 2 5000)
      (doRequestStep (sampleEnv none (fun _ => .response 400 "")) (sampleConfig 2 1000 2 5000) "GET" "/fapi/v1/ping" false)
      (sampleWorld, none) (by decide)).2 (ConvertHTTPError 400 "") (by decide) (by decide)⟩

theorem attemptsOf_passedOver (init : List RetryEvent) (h : ∀ ev ∈ init, passedOver ev) :
    ∀ x ∈ attemptsOf init, ∃ e, x = Reply.fail e := by
  intro x hx
  simp only [attemptsOf, List.mem_filterMap] at hx
  obtain ⟨ev, hev, hx⟩ := hx
  rcases h ev hev with ⟨d, hd⟩ | ⟨e, he, _⟩
  · subst hd; simp at hx
  · subst he; simp at hx; exact ⟨e, hx.symm⟩

/-- C3. With `MaxRetries >= 0`, `retryRequest` returns the outcome of the last attempt
it made: the attempts of the run are the replies of the successive calls of
`doRequest`, every attempt before the last one failed, and the call returns the last
reply (its body and a nil error if it succeeded, a nil body and its error if it
failed). -/
theorem retryRequest_returns_last_attempt {σ : Type} (c : ClientConfig)
    (doRequest : σ → Reply × σ) (s : σ) (hM : 0 ≤ c.MaxRetries) :
    ∃ (pre : List Reply) (last : Reply),
      attemptsOf (retryRequestWith c doRequest s).trace = pre ++ [last] ∧
      attemptsOf (retryRequestWith c doRequest s).trace =
        (List.range (pre.length + 1)).map (replyAt doRequest s) ∧
      (∀ x ∈ pre, ∃ e, x = Reply.fail e) ∧
      returnsReply (retryRequestWith c doRequest s) last := by
  obtain ⟨m, hm⟩ : ∃ m : Nat, (c.MaxRetries + 1).toNat = m + 1 := ⟨c.MaxRetries.toNat, by omega⟩
  obtain ⟨init, last, ht, hinit, hret⟩ := retryLoop_shape c doRequest m 0 s none
  have hatt : attemptsOf (retryRequestWith c doRequest s).trace = attemptsOf init ++ [last] := by
    unfold retryRequestWith
    rw [hm, ht, attemptsOf_append]
    simp [attemptsOf]
  refine ⟨attemptsOf init, last, hatt, ?_, attemptsOf_passedOver init hinit, ?_⟩
  · have hlink := retryLoop_attempts c doRequest (m + 1) 0 s none
    have hlen : (attemptsOf (retryRequestWith c doRequest s).trace).length =
        (attemptsOf init).length + 1 := by rw [hatt]; simp
    unfold retryRequestWith at hlen ⊢
    rw [hm] at hlen ⊢
    rw [hlen] at hlink
    exact hlink
  · unfold retryRequestWith
    rw [hm]
    exact hret

/-- C3 (witness). `MaxRetries = 2`, answers HTTP 500, 503, 502: the error returned is
that of the third attempt. -/
theorem retryRequest_returns_last_attempt_witness :
    0 ≤ (sampleConfig 2 1000 2 5000).MaxRetries ∧
    (retryRequest (sampleEnv none (fun k => .response ([500, 503, 502].getD k 200) ""))
      (sampleConfig 2 1000 2 5000) "GET" "/fapi/v1/ping" none false sampleWorld).err =
        some (.binance (ConvertHTTPError 502 "")) ∧
    ∃ (pre : List Reply) (last : Reply),
      attemptsOf (retryRequestWith (sampleConfig 2 1000 2 5000)
        (doRequestStep (sampleEnv none (fun k => .response ([500, 503, 502].getD k 200) ""))
          (sampleConfig 2 1000 2 5000) "GET" "/fapi/v1/ping" false) (sampleWorld, none)).trace =
        pre ++ [last] ∧
      attemptsOf (retryRequestWith (sampleConfig 2 1000 2 5000)
        (doRequestStep (sampleEnv none (fun k => .response ([500, 503, 502].getD k 200) ""))
          (sampleConfig 2 1000 2 5000) "GET" "/fapi/v1/ping" false) (sampleWorld, none)).trace =
        (List.range (pre.length + 1)).map (replyAt
          (doRequestStep (sampleEnv none (fun k => .response ([500, 503, 502].getD k 200) ""))
            (sampleConfig 2 1000 2 5000) "GET" "/fapi/v1/ping" false) (sampleWorld, none)) ∧
      (∀ x ∈ pre, ∃ e, x = Reply.fail e) ∧
      returnsReply (retryRequestWith (sampleConfig 2 1000 2 5000)
        (doRequestStep (sampleEnv none (fun k => .response ([500, 503, 502].getD k 200) ""))
          (sampleConfig 2 1000 2 5000) "GET" "/fapi/v1/ping" false) (sampleWorld, none)) last :=
  ⟨by decide, by decide, retryRequest_returns_last_attempt _ _ _ (by decide)⟩

/-- C4 (amended). An attempt of `retryRequest` that fails with an error for which
`IsAuthError` holds and whose kind is not InvalidTimestamp (so Unauthorized or
AccountInactive) is the last event of the run, whatever `MaxRetries` is, and its
error is returned. -/
theorem retryRequest_stops_on_auth_error {σ : Type} (c : ClientConfig)
    (doRequest : σ → Reply × σ) (s : σ) (pre post : List RetryEvent) (e : GoError)
    (htrace : (retryRequestWith c doRequest s).trace = pre ++ .attempt (.fail e) :: post)
    (hauth : IsAuthError e = true)
    (hkind : ∀ b, e = .binance b → b.Code ≠ ErrCodeInvalidTimestamp) :
    post = [] ∧ returnsReply (retryRequestWith c doRequest s) (.fail e) := by
  have hnr : noRetry e = true := by
    cases e with
    | foreign msg => simp [IsAuthError] at hauth
    | binance b =>
      have hb := hkind b rfl
      simp only [IsAuthError, Bool.or_eq_true, decide_eq_true_eq] at hauth
      rw [noRetry_iff]
      rcases hauth with (h | h) | h
      · exact Or.inr (Or.inr (Or.inr (Or.inl h)))
      · exact absurd h hb
      · exact Or.inr (Or.inr (Or.inr (Or.inr h)))
  exact retryLoop_last_of_noRetry c doRequest _ _ s none pre post e htrace hnr

/-- C4 (witness). `MaxRetries = 2` and an HTTP 401 answer: the Unauthorized failure
is the only attempt. -/
theorem retryRequest_stops_on_auth_error_witness :
    (retryRequestWith (sampleConfig 2 1000 2 5000)
      (doRequestStep (sampleEnv none (fun _ => .response 401 "")) (sampleConfig 2 1000 2 5000)
        "GET" "/fapi/v2/account" true) (sampleWorld, some [])).trace =
      [] ++ .attempt (.fail (.binance (ConvertHTTPError 401 ""))) :: [] ∧
    IsAuthError (.binance (ConvertHTTPError 401 "")) = true ∧
    (([] : List RetryEvent) = [] ∧
      returnsReply (retryRequestWith (sampleConfig 2 1000 2 5000)
        (doRequestStep (sampleEnv none (fun _ => .response 401 "")) (sampleConfig 2 1000 2 5000)
          "GET" "/fapi/v2/account" true) (sampleWorld, some []))
        (.fail (.binance (ConvertHTTPError 401 "")))) :=
  ⟨by decide, by decide,
    retryRequest_stops_on_auth_error _ _ _ [] [] (.binance (ConvertHTTPError 401 ""))
      (by decide) (by decide) (by intro b hb; cases hb; decide)⟩

/-- C4 (counterexample). `MaxRetries = 1` and the exchange payload with code -1021:
the error is an auth error (kind InvalidTimestamp) and a second attempt follows. -/
theorem retryRequest_retries_invalid_timestamp :
    IsAuthError (.binance (ConvertAPIError (NewAPIError (-1021) "Timestamp outside recvWindow" "")))
      = true ∧
    (retryRequest (sampleEnv (some (-1021, "Timestamp outside recvWindow"))
        (fun _ => .response 400 "payload")) (sampleConfig 1 1000 2 5000)
        "GET" "/fapi/v2/account" (some []) true sampleWorld).trace =
      [.attempt (.fail (.binance
          (ConvertAPIError (NewAPIError (-1021) "Timestamp outside recvWindow" "")))),
       .sleep (1000 * Millisecond),
       .attempt (.fail (.binance
          (ConvertAPIError (NewAPIError (-1021) "Timestamp outside recvWindow" ""))))] := by
  decide

/-- C5 (amended). The kind of every error built by `ConvertAPIError` is one of the
fourteen listed kinds or one of InvalidInterval, InvalidOrderType, InvalidSide,
InvalidQuantity, InvalidPrice, Disconnected, NoSuchOrder; the kind of every error
built by `ConvertHTTPError` is one of the fourteen. -/
theorem convert_error_kinds :
    (∀ apiErr : APIError, (ConvertAPIError apiErr).Code ∈ fourteenKinds ++ furtherAPIKinds) ∧
    (∀ (statusCode : Int) (response : String),
      (ConvertHTTPError statusCode response).Code ∈ fourteenKinds) :=
  ⟨convertAPIError_code_mem, convertHTTPError_code_mem⟩

/-- C5 (counterexample). The exchange code -1120 is converted to kind InvalidInterval,
which is none of the fourteen. -/
theorem convertAPIError_outside_fourteen :
    (ConvertAPIError (NewAPIError (-1120) "Invalid interval." "")).Code = ErrCodeInvalidInterval ∧
    (ConvertAPIError (NewAPIError (-1120) "Invalid interval." "")).Code ∉ fourteenKinds := by
  decide

/-! ## Go maps -/

namespace GoMap

theorem mem_keys_iff (m : GoMap) (k : String) : k ∈ keys m ↔ ∃ v, (k, v) ∈ m := by
  simp [keys]

theorem index_of_not_mem (m : GoMap) (k : String) (h : k ∉ keys m) : index m k = "" := by
  induction m with
  | nil => rfl
  | cons p t ih =>
    obtain ⟨k', v'⟩ := p
    simp only [keys, List.map_cons, List.mem_cons, not_or] at h
    have hne : k' ≠ k := fun hk => h.1 hk.symm
    simp only [index, hne, if_false]
    exact ih h.2

theorem index_mem (m : GoMap) (k : String) (h : k ∈ keys m) : (k, index m k) ∈ m := by
  induction m with
  | nil => simp [keys] at h
  | cons p t ih =>
    obtain ⟨k', v'⟩ := p
    by_cases hk : k' = k
    · subst hk; simp [index]
    · simp only [keys, List.map_cons, List.mem_cons] at h
      rcases h with h | h
      · exact absurd h.symm hk
      · simp only [index, hk, if_false]
        exact List.mem_cons_of_mem _ (ih h)

theorem index_eq_of_mem (m : GoMap) (hwf : WF m) (k v : String) (h : (k, v) ∈ m) :
    index m k = v := by
  induction m with
  | nil => simp at h
  | cons p t ih =>
    obtain ⟨k', v'⟩ := p
    simp only [WF, keys, List.map_cons, List.nodup_cons] at hwf
    simp only [List.mem_cons, Prod.mk.injEq] at h
    rcases h with ⟨h1, h2⟩ | h
    · subst h1; subst h2; simp [index]
    · have hk : k' ≠ k := by
        intro hk
        subst hk
        exact hwf.1 ((mem_keys_iff t k').mpr ⟨v, h⟩)
      simp only [index, hk, if_false]
      exact ih hwf.2 h

theorem keys_assign (m : GoMap) (k v : String) :
    keys (assign m k v) = if k ∈ keys m then keys m else keys m ++ [k] := by
  induction m with
  | nil => simp [assign, keys]
  | cons p t ih =>
    obtain ⟨k', v'⟩ := p
    by_cases hk : k' = k
    · subst hk; simp [assign, keys]
    · have hk2 : ¬ k = k' := fun h => hk h.symm
      simp only [assign, hk, if_false]
      simp only [keys, List.map_cons, List.mem_cons, hk2, false_or] at ih ⊢
      rw [ih]
      split <;> simp

theorem mem_keys_assign (m : GoMap) (k v k' : String) :
    k' ∈ keys (assign m k v) ↔ k' = k ∨ k' ∈ keys m := by
  rw [keys_assign]
  split
  · constructor
    · exact Or.inr
    · rintro (h | h)
      · subst h; assumption
      · exact h
  · simp [or_comm]

theorem wf_assign (m : GoMap) (k v : String) (hwf : WF m) : WF (assign m k v) := by
  unfold WF at *
  rw [keys_assign]
  split
  · exact hwf
  · rename_i h
    exact List.Nodup.append hwf (List.nodup_singleton k) (by simpa using h)

theorem index_assign (m : GoMap) (k v k' : String) :
    index (assign m k v) k' = if k' = k then v else index m k' := by
  induction m with
  | nil =>
    by_cases h : k' = k
    · subst h; simp [assign, index]
    · have h2 : ¬ k = k' := fun e => h e.symm
      simp [assign, index, h, h2]
  | cons p t ih =>
    obtain ⟨k0, v0⟩ := p
    by_cases hk : k0 = k
    · subst hk
      by_cases h : k' = k0
      · subst h; simp [assign, index]
      · have h2 : ¬ k0 = k' := fun e => h e.symm
        simp [assign, index, h, h2]
    · simp only [assign, hk, if_false, index]
      rw [ih]
      by_cases h : k' = k
      · subst h; simp [hk]
      · simp [h]

theorem mem_keys_copyInto (src : GoMap) : ∀ (dst : GoMap) (k : String),
    k ∈ keys (copyInto dst src) ↔ k ∈ keys dst ∨ k ∈ keys src := by
  induction src with
  | nil => intro dst k; simp [copyInto, keys]
  | cons p t ih =>
    intro dst k
    obtain ⟨k0, v0⟩ := p
    have := ih (assign dst k0 v0) k
    simp only [copyInto, List.foldl_cons] at this ⊢
    rw [this, mem_keys_assign]
    simp only [keys, List.map_cons, List.mem_cons]
    tauto

theorem wf_copyInto (src : GoMap) : ∀ (dst : GoMap), WF dst → WF (copyInto dst src) := by
  induction src with
  | nil => intro dst h; exact h
  | cons p t ih =>
    intro dst h
    exact ih _ (wf_assign dst p.1 p.2 h)

theorem index_copyInto (src : GoMap) : ∀ (dst : GoMap) (k : String), WF src →
    index (copyInto dst src) k = if k ∈ keys src then index src k else index dst k := by
  induction src with
  | nil => intro dst k _; simp [copyInto, keys]
  | cons p t ih =>
    intro dst k hwf
    obtain ⟨k0, v0⟩ := p
    simp only [WF, keys, List.map_cons, List.nodup_cons] at hwf
    have := ih (assign dst k0 v0) k hwf.2
    simp only [copyInto, List.foldl_cons] at this ⊢
    rw [this, index_assign]
    simp only [keys, List.map_cons, List.mem_cons, index]
    by_cases hk : k = k0
    · subst hk
      have hnot : k ∉ List.map Prod.fst t := hwf.1
      simp [hnot]
    · have hk2 : ¬ k0 = k := fun e => hk e.symm
      by_cases hm : k ∈ List.map Prod.fst t <;> simp [hk, hk2, hm]

end GoMap

/-! ## The canonical query string -/

theorem sortStrings_perm (l : List String) : (sortStrings l).Perm l :=
  List.perm_insertionSort strLE l

theorem sortStrings_sorted (l : List String) : List.Sorted strLE (sortStrings l) :=
  List.sorted_insertionSort strLE l

theorem mem_sortStrings (l : List String) (k : String) : k ∈ sortStrings l ↔ k ∈ l :=
  (sortStrings_perm l).mem_iff

theorem sortStrings_eq_of_perm {l1 l2 : List String} (h : l1.Perm l2) :
    sortStrings l1 = sortStrings l2 :=
  List.eq_of_perm_of_sorted (((sortStrings_perm l1).trans h).trans (sortStrings_perm l2).symm)
    (sortStrings_sorted l1) (sortStrings_sorted l2)

theorem sortStrings_strict (l : List String) (hnd : l.Nodup) :
    (sortStrings l).Pairwise (fun a b => a.toList < b.toList) := by
  have hs : (sortStrings l).Pairwise strLE := sortStrings_sorted l
  have hn : (sortStrings l).Pairwise (fun a b => a ≠ b) := (sortStrings_perm l).nodup_iff.mpr hnd
  refine (hs.and hn).imp ?_
  intro a b hab
  have hle : a.toList ≤ b.toList := hab.1
  exact lt_of_le_of_ne hle (fun h => hab.2 (String.ext h))

/-- The keys that `buildQueryString` keeps (lines 230-239), sorted. -/
theorem mem_sorted_keys (params : GoMap) (k : String) :
    k ∈ sortStrings ((GoMap.keys params).filter (fun k => ! (HasPrefix k "_"))) ↔
      k ∈ GoMap.keys params ∧ HasPrefix k "_" = false := by
  rw [mem_sortStrings, List.mem_filter]
  simp

theorem buildQueryString_pairs (params : GoMap) (hwf : GoMap.WF params) :
    ∃ l : List (String × String),
      (∀ k v, (k, v) ∈ l ↔ ((k, v) ∈ params ∧ HasPrefix k "_" = false ∧ v ≠ "")) ∧
      l.Pairwise (fun a b => a.1.toList < b.1.toList) ∧
      buildQueryString params = Join (l.map (fun kv => kv.1 ++ "=" ++ QueryEscape kv.2)) "&" := by
  refine ⟨(sortStrings ((GoMap.keys params).filter (fun k => ! (HasPrefix k "_")))).filterMap
    (fun key => if GoMap.index params key ≠ "" then some (key, GoMap.index params key) else none),
    ?_, ?_, ?_⟩
  · intro k v
    simp only [List.mem_filterMap, mem_sorted_keys]
    constructor
    · rintro ⟨key, ⟨hkey, hpre⟩, hg⟩
      split at hg
      · rename_i hne
        simp only [Option.some.injEq, Prod.mk.injEq] at hg
        obtain ⟨h1, h2⟩ := hg
        subst h1; subst h2
        exact ⟨GoMap.index_mem params key hkey, hpre, hne⟩
      · cases hg
    · rintro ⟨hmem, hpre, hne⟩
      have hidx := GoMap.index_eq_of_mem params hwf k v hmem
      refine ⟨k, ⟨(GoMap.mem_keys_iff params k).mpr ⟨v, hmem⟩, hpre⟩, ?_⟩
      rw [hidx]
      simp [hne]
  · have hnd : ((GoMap.keys params).filter (fun k => ! (HasPrefix k "_"))).Nodup :=
      List.Nodup.filter _ hwf
    refine List.Pairwise.filterMap _ ?_ (sortStrings_strict _ hnd)
    intro a a' haa b hb b' hb'
    simp only [Option.mem_def] at hb hb'
    split at hb
    · split at hb'
      · cases hb; cases hb'; exact haa
      · cases hb'
    · cases hb
  · unfold buildQueryString
    simp only [List.map_filterMap]
    congr 1
    apply List.filterMap_congr
    intro key _
    split <;> simp_all

theorem sorted_keys_congr (m m' : GoMap) (hwf : GoMap.WF m) (hwf' : GoMap.WF m')
    (hk : ∀ k, k ∈ GoMap.keys m ↔ k ∈ GoMap.keys m') :
    sortStrings ((GoMap.keys m).filter (fun k => ! (HasPrefix k "_"))) =
      sortStrings ((GoMap.keys m').filter (fun k => ! (HasPrefix k "_"))) := by
  apply sortStrings_eq_of_perm
  rw [List.perm_ext_iff_of_nodup (List.Nodup.filter _ hwf) (List.Nodup.filter _ hwf')]
  intro k
  simp only [List.mem_filter, hk]

theorem buildQueryString_ext (m m' : GoMap) (hwf : GoMap.WF m) (hwf' : GoMap.WF m')
    (hk : ∀ k, k ∈ GoMap.keys m ↔ k ∈ GoMap.keys m')
    (hi : ∀ k, GoMap.index m k = GoMap.index m' k) :
    buildQueryString m = buildQueryString m' := by
  unfold buildQueryString
  simp only [sorted_keys_congr m m' hwf hwf' hk, hi]

theorem buildQueryString_same_pairs (m m' : GoMap) (hwf : GoMap.WF m) (hwf' : GoMap.WF m')
    (h : ∀ kv, kv ∈ m' ↔ kv ∈ m) : buildQueryString m' = buildQueryString m := by
  have hk : ∀ k, k ∈ GoMap.keys m' ↔ k ∈ GoMap.keys m := by
    intro k
    simp only [GoMap.mem_keys_iff, h]
  apply buildQueryString_ext m' m hwf' hwf hk
  intro k
  by_cases hmem : k ∈ GoMap.keys m
  · have h1 := GoMap.index_mem m k hmem
    exact GoMap.index_eq_of_mem m' hwf' k _ ((h _).mpr h1)
  · rw [GoMap.index_of_not_mem m k hmem, GoMap.index_of_not_mem m' k (fun h' => hmem ((hk k).mp h'))]

/-- C7. For a map with pairwise distinct keys, `buildQueryString` is the `&`-join of
`key=QueryEscape(value)` over exactly the entries whose key does not begin with an
underscore and whose value is not empty, in strictly ascending key order; two maps
with the same entries give the same string, whatever their iteration order; and the
map of symbol ETHUSDT, side BUY, timestamp 1700000000000 gives
`side=BUY&symbol=ETHUSDT&timestamp=1700000000000`. -/
theorem buildQueryString_canonical :
    (∀ params : GoMap, GoMap.WF params →
      (∃ l : List (String × String),
        (∀ k v, (k, v) ∈ l ↔ ((k, v) ∈ params ∧ HasPrefix k "_" = false ∧ v ≠ "")) ∧
        l.Pairwise (fun a b => a.1.toList < b.1.toList) ∧
        buildQueryString params =
          Join (l.map (fun kv => kv.1 ++ "=" ++ QueryEscape kv.2)) "&") ∧
      (∀ params' : GoMap, GoMap.WF params' → (∀ kv, kv ∈ params' ↔ kv ∈ params) →
        buildQueryString params' = buildQueryString params)) ∧
    buildQueryString [("symbol", "ETHUSDT"), ("side", "BUY"), ("timestamp", "1700000000000")] =
      "side=BUY&symbol=ETHUSDT&timestamp=1700000000000" :=
  ⟨fun params hwf => ⟨buildQueryString_pairs params hwf,
      fun params' hwf' h => buildQueryString_same_pairs params params' hwf hwf' h⟩,
    by decide⟩

/-- C7 (witness). The map of the example in another iteration order, with a
sentinel entry and an empty value added. -/
theorem buildQueryString_canonical_witness :
    GoMap.WF [("timestamp", "1700000000000"), ("_auth_added", "true"), ("side", "BUY"),
      ("price", ""), ("symbol", "ETH USDT")] ∧
    (∃ l : List (String × String),
      (∀ k v, (k, v) ∈ l ↔ ((k, v) ∈ ([("timestamp", "1700000000000"), ("_auth_added", "true"),
        ("side", "BUY"), ("price", ""), ("symbol", "ETH USDT")] : GoMap) ∧
        HasPrefix k "_" = false ∧ v ≠ "")) ∧
      l.Pairwise (fun a b => a.1.toList < b.1.toList) ∧
      buildQueryString [("timestamp", "1700000000000"), ("_auth_added", "true"), ("side", "BUY"),
        ("price", ""), ("symbol", "ETH USDT")] =
        Join (l.map (fun kv => kv.1 ++ "=" ++ QueryEscape kv.2)) "&") ∧
    buildQueryString [("timestamp", "1700000000000"), ("_auth_added", "true"), ("side", "BUY"),
        ("price", ""), ("symbol", "ETH USDT")] = "side=BUY&symbol=ETH+USDT&timestamp=1700000000000" :=
  ⟨by decide,
    (buildQueryString_canonical.1 [("timestamp", "1700000000000"), ("_auth_added", "true"),
      ("side", "BUY"), ("price", ""), ("symbol", "ETH USDT")] (by decide)).1,
    by decide⟩

/-! ## The signer -/

theorem wf_authParamsUnsigned (c : ClientConfig) (now : Int) (params : GoMap) :
    GoMap.WF (authParamsUnsigned c now params) := by
  have h0 : GoMap.WF (GoMap.copyInto [] params) :=
    GoMap.wf_copyInto params [] (by simp [GoMap.WF, GoMap.keys])
  unfold authParamsUnsigned
  simp only
  split <;> split <;> repeat (first | exact h0 | apply GoMap.wf_assign)

theorem mem_keys_authParamsUnsigned (c : ClientConfig) (now : Int) (params : GoMap) (k : String) :
    k ∈ GoMap.keys (authParamsUnsigned c now params) ↔
      k ∈ GoMap.keys params ∨ (k = "apiKey" ∧ c.APIKey ≠ "") ∨ k = "timestamp" ∨
        (k = "recvWindow" ∧ c.RecvWindow > 0) := by
  have h0 : ∀ k, k ∈ GoMap.keys (GoMap.copyInto [] params) ↔ k ∈ GoMap.keys params := by
    intro k; rw [GoMap.mem_keys_copyInto]; simp [GoMap.keys]
  unfold authParamsUnsigned
  simp only
  split <;> split <;> simp only [GoMap.mem_keys_assign, h0] <;> tauto

theorem index_authParamsUnsigned_of_wf (c : ClientConfig) (now : Int) (params : GoMap)
    (hwf : GoMap.WF params) (k : String) (h1 : k ≠ "apiKey") (h2 : k ≠ "timestamp")
    (h3 : k ≠ "recvWindow") :
    GoMap.index (authParamsUnsigned c now params) k = GoMap.index params k := by
  have h0 : GoMap.index (GoMap.copyInto [] params) k = GoMap.index params k := by
    rw [GoMap.index_copyInto params [] k hwf]
    split
    · rfl
    · rename_i h; rw [GoMap.index_of_not_mem params k h]; rfl
  unfold authParamsUnsigned
  simp only
  split <;> split <;> simp only [GoMap.index_assign, h1, h2, h3, if_false, h0]

theorem wf_signedParams (hmac : String → String → String) (c : ClientConfig) (now : Int)
    (params : GoMap) : GoMap.WF (signedParams hmac c now params) := by
  unfold signedParams
  apply GoMap.wf_assign
  split
  · exact GoMap.wf_assign _ _ _ (wf_authParamsUnsigned c now params)
  · exact wf_authParamsUnsigned c now params

theorem mem_keys_signedParams (hmac : String → String → String) (c : ClientConfig) (now : Int)
    (params : GoMap) (k : String) :
    k ∈ GoMap.keys (signedParams hmac c now params) ↔
      k = "_auth_added" ∨ (k = "signature" ∧ c.SecretKey ≠ "") ∨
        k ∈ GoMap.keys (authParamsUnsigned c now params) := by
  unfold signedParams
  split <;> simp only [GoMap.mem_keys_assign] <;> tauto

theorem addAuthParams_eq_copy (hmac : String → String → String) (c : ClientConfig) (now : Int)
    (params : GoMap) (h : authAdded params = false) :
    addAuthParams hmac c now params = GoMap.copyInto params (signedParams hmac c now params) := by
  simp [addAuthParams, h]

theorem mem_keys_addAuthParams (hmac : String → String → String) (c : ClientConfig) (now : Int)
    (params : GoMap) (h : authAdded params = false) (k : String) :
    k ∈ GoMap.keys (addAuthParams hmac c now params) ↔
      k ∈ GoMap.keys (signedParams hmac c now params) := by
  rw [addAuthParams_eq_copy hmac c now params h, GoMap.mem_keys_copyInto,
    mem_keys_signedParams, mem_keys_authParamsUnsigned]
  tauto

theorem index_addAuthParams (hmac : String → String → String) (c : ClientConfig) (now : Int)
    (params : GoMap) (h : authAdded params = false) (k : String) :
    GoMap.index (addAuthParams hmac c now params) k =
      GoMap.index (signedParams hmac c now params) k := by
  rw [addAuthParams_eq_copy hmac c now params h,
    GoMap.index_copyInto _ _ _ (wf_signedParams hmac c now params)]
  split
  · rfl
  · rename_i hk
    have hk2 : k ∉ GoMap.keys params := by
      intro hmem
      apply hk
      rw [mem_keys_signedParams, mem_keys_authParamsUnsigned]
      tauto
    rw [GoMap.index_of_not_mem _ _ hk, GoMap.index_of_not_mem _ _ hk2]

theorem authAdded_addAuthParams (hmac : String → String → String) (c : ClientConfig) (now : Int)
    (params : GoMap) : authAdded (addAuthParams hmac c now params) = true := by
  cases h : authAdded params with
  | true => simp [addAuthParams, h]
  | false =>
    unfold authAdded
    rw [index_addAuthParams hmac c now params h]
    simp [signedParams, GoMap.index_assign]

theorem addAuthParams_idempotent (hmac : String → String → String) (c : ClientConfig)
    (t1 t2 : Int) (m : GoMap) :
    addAuthParams hmac c t2 (addAuthParams hmac c t1 m) = addAuthParams hmac c t1 m := by
  have h := authAdded_addAuthParams hmac c t1 m
  generalize addAuthParams hmac c t1 m = m1 at h
  simp [addAuthParams, h]

theorem authAdded_of_absent (params : GoMap) (h : "_auth_added" ∉ GoMap.keys params) :
    authAdded params = false := by
  unfold authAdded
  rw [GoMap.index_of_not_mem params _ h]
  decide

theorem validateClientConfig_none (c : ClientConfig) (h : validateClientConfig c = none) :
    c.APIKey ≠ "" ∧ c.SecretKey ≠ "" ∧ 0 < c.Timeout ∧ 0 ≤ c.RecvWindow ∧
      c.RecvWindow ≤ 60000 ∧ 0 ≤ c.MaxRetries := by
  unfold validateClientConfig at h
  split at h
  · cases h
  · split at h
    · cases h
    · split at h
      · cases h
      · split at h
        · cases h
        · split at h
          · cases h
          · refine ⟨by assumption, by assumption, by omega, by omega, by omega, by omega⟩

theorem index_signedParams_signature (hmac : String → String → String) (c : ClientConfig)
    (now : Int) (params : GoMap) (hs : c.SecretKey ≠ "") :
    GoMap.index (signedParams hmac c now params) "signature" =
      hmac c.SecretKey (signedPayload c now params) := by
  simp [signedParams, hs, GoMap.index_assign, sign, signedPayload]

theorem index_authParamsUnsigned_timestamp (c : ClientConfig) (now : Int) (params : GoMap) :
    GoMap.index (authParamsUnsigned c now params) "timestamp" = toString (now.tdiv Millisecond) := by
  unfold authParamsUnsigned
  simp only
  split <;> simp [GoMap.index_assign]

theorem index_authParamsUnsigned_apiKey (c : ClientConfig) (now : Int) (params : GoMap)
    (h : c.APIKey ≠ "") :
    GoMap.index (authParamsUnsigned c now params) "apiKey" = c.APIKey := by
  unfold authParamsUnsigned
  simp only
  split <;> simp [GoMap.index_assign, h]

theorem index_authParamsUnsigned_recvWindow (c : ClientConfig) (now : Int) (params : GoMap)
    (h : c.RecvWindow > 0) :
    GoMap.index (authParamsUnsigned c now params) "recvWindow" = toString c.RecvWindow := by
  unfold authParamsUnsigned
  simp [GoMap.index_assign, h]

theorem index_signedParams_of_ne (hmac : String → String → String) (c : ClientConfig)
    (now : Int) (params : GoMap) (k : String) (h1 : k ≠ "signature") (h2 : k ≠ "_auth_added") :
    GoMap.index (signedParams hmac c now params) k =
      GoMap.index (authParamsUnsigned c now params) k := by
  unfold signedParams
  simp only
  split <;> simp [GoMap.index_assign, h1, h2]

/-- C10 (amended). For a configuration accepted by `validateClientConfig` and a map
without the sentinel, after `addAuthParams` the map has the keys `apiKey`,
`timestamp` and `signature`, and also `recvWindow` when `RecvWindow > 0`; the
timestamp is the call time in milliseconds, the signature is the HMAC of the signed
payload. When `RecvWindow = 0` (which the validation accepts) no `recvWindow` key
is added. -/
theorem addAuthParams_adds_keys (hmac : String → String → String) (c : ClientConfig)
    (now : Int) (params : GoMap) (hvalid : validateClientConfig c = none)
    (hfresh : "_auth_added" ∉ GoMap.keys params) :
    "apiKey" ∈ GoMap.keys (addAuthParams hmac c now params) ∧
    "timestamp" ∈ GoMap.keys (addAuthParams hmac c now params) ∧
    "signature" ∈ GoMap.keys (addAuthParams hmac c now params) ∧
    (c.RecvWindow > 0 → "recvWindow" ∈ GoMap.keys (addAuthParams hmac c now params)) ∧
    GoMap.index (addAuthParams hmac c now params) "apiKey" = c.APIKey ∧
    GoMap.index (addAuthParams hmac c now params) "timestamp" = toString (now.tdiv Millisecond) ∧
    GoMap.index (addAuthParams hmac c now params) "signature" =
      hmac c.SecretKey (signedPayload c now params) ∧
    (c.RecvWindow > 0 →
      GoMap.index (addAuthParams hmac c now params) "recvWindow" = toString c.RecvWindow) ∧
    (c.RecvWindow = 0 → "recvWindow" ∉ GoMap.keys params →
      "recvWindow" ∉ GoMap.keys (addAuthParams hmac c now params)) := by
  obtain ⟨hkey, hsecret, _, _, _, _⟩ := validateClientConfig_none c hvalid
  have hf := authAdded_of_absent params hfresh
  have hmem := mem_keys_addAuthParams hmac c now params hf
  have hidx := index_addAuthParams hmac c now params hf
  refine ⟨?_, ?_, ?_, ?_, ?_, ?_, ?_, ?_, ?_⟩
  · rw [hmem, mem_keys_signedParams, mem_keys_authParamsUnsigned]
    exact Or.inr (Or.inr (Or.inr (Or.inl ⟨rfl, hkey⟩)))
  · rw [hmem, mem_keys_signedParams, mem_keys_authParamsUnsigned]
    exact Or.inr (Or.inr (Or.inr (Or.inr (Or.inl rfl))))
  · rw [hmem, mem_keys_signedParams]
    exact Or.inr (Or.inl ⟨rfl, hsecret⟩)
  · intro hrw
    rw [hmem, mem_keys_signedParams, mem_keys_authParamsUnsigned]
    exact Or.inr (Or.inr (Or.inr (Or.inr (Or.inr ⟨rfl, hrw⟩))))
  · rw [hidx, index_signedParams_of_ne _ _ _ _ _ (by decide) (by decide),
      index_authParamsUnsigned_apiKey c now params hkey]
  · rw [hidx, index_signedParams_of_ne _ _ _ _ _ (by decide) (by decide),
      index_authParamsUnsigned_timestamp]
  · rw [hidx, index_signedParams_signature hmac c now params hsecret]
  · intro hrw
    rw [hidx, index_signedParams_of_ne _ _ _ _ _ (by decide) (by decide),
      index_authParamsUnsigned_recvWindow c now params hrw]
  · intro h0 hno
    rw [hmem, mem_keys_signedParams, mem_keys_authParamsUnsigned]
    intro h
    rcases h with h | h | h | h | h | h
    · exact absurd h (by decide)
    · exact absurd h.1 (by decide)
    · exact hno h
    · exact absurd h.1 (by decide)
    · exact absurd h (by decide)
    · omega

/-- C10 (witness). `RecvWindow = 5000`, the map of one symbol, call time
1700000000000123456 ns. -/
theorem addAuthParams_adds_keys_witness :
    validateClientConfig (sampleConfig 2 1000 2 5000) = none ∧
    "_auth_added" ∉ GoMap.keys [("symbol", "ETHUSDT")] ∧
    GoMap.index (addAuthParams sampleHmac (sampleConfig 2 1000 2 5000) 1700000000000123456
      [("symbol", "ETHUSDT")]) "timestamp" = "1700000000000" ∧
    GoMap.keys (addAuthParams sampleHmac (sampleConfig 2 1000 2 5000) 1700000000000123456
      [("symbol", "ETHUSDT")]) =
      ["symbol", "apiKey", "timestamp", "recvWindow", "signature", "_auth_added"] :=
  ⟨by decide, by decide,
    (addAuthParams_adds_keys sampleHmac (sampleConfig 2 1000 2 5000) 1700000000000123456
      [("symbol", "ETHUSDT")] (by decide) (by decide)).2.2.2.2.2.1.trans (by decide),
    by decide⟩

/-- C10 (counterexample). `RecvWindow = 0` passes `validateClientConfig`, and after
`addAuthParams` the map has no `recvWindow` key. -/
theorem addAuthParams_without_recvWindow :
    validateClientConfig (sampleConfig 2 1000 2 0) = none ∧
    "_auth_added" ∉ GoMap.keys [("symbol", "ETHUSDT")] ∧
    "recvWindow" ∉ GoMap.keys (addAuthParams sampleHmac (sampleConfig 2 1000 2 0)
      1700000000000123456 [("symbol", "ETHUSDT")]) ∧
    GoMap.keys (addAuthParams sampleHmac (sampleConfig 2 1000 2 0) 1700000000000123456
      [("symbol", "ETHUSDT")]) = ["symbol", "apiKey", "timestamp", "signature", "_auth_added"] := by
  decide

/-! ## Inserting the signature into the query string -/

theorem length_eq_zero_iff (s : String) : s.length = 0 ↔ s = "" := by
  constructor
  · intro h
    cases s with
    | mk data =>
      have hd : data = [] := List.length_eq_zero.mp h
      subst hd
      rfl
  · intro h; subst h; rfl

theorem Join_ne_empty (l : List String) (sep p : String) (hp : p ∈ l) (hne : p ≠ "") :
    Join l sep ≠ "" := by
  have hlen : ∀ l : List String, p ∈ l → p.length ≤ (Join l sep).length := by
    intro l
    induction l with
    | nil => intro h; cases h
    | cons a t ih =>
      intro h
      cases t with
      | nil =>
        simp only [List.mem_singleton] at h
        subst h
        simp [Join]
      | cons b t' =>
        simp only [Join, String.length_append]
        rcases List.mem_cons.mp h with h | h
        · subst h; omega
        · have := ih h
          omega
  intro h
  have h1 := hlen l hp
  rw [h] at h1
  have h2 : p.length = 0 := by simpa using h1
  exact hne ((length_eq_zero_iff p).mp h2)

theorem buildQueryString_eq (params : GoMap) :
    buildQueryString params =
      Join ((sortStrings ((GoMap.keys params).filter (fun k => ! (HasPrefix k "_")))).filterMap
        (queryPart params)) "&" := rfl

theorem buildQueryString_assign_hidden (m : GoMap) (u v : String) (hu : HasPrefix u "_" = true) :
    buildQueryString (GoMap.assign m u v) = buildQueryString m := by
  have hkeys : (GoMap.keys (GoMap.assign m u v)).filter (fun k => ! (HasPrefix k "_")) =
      (GoMap.keys m).filter (fun k => ! (HasPrefix k "_")) := by
    rw [GoMap.keys_assign]
    split
    · rfl
    · simp [List.filter_append, hu]
  rw [buildQueryString_eq, buildQueryString_eq, hkeys]
  congr 1
  apply List.filterMap_congr
  intro k hk
  have hk2 := (mem_sorted_keys m k).mp hk
  have hne : k ≠ u := by
    intro h
    subst h
    rw [hu] at hk2
    exact absurd hk2.2 (by decide)
  simp [queryPart, GoMap.index_assign, hne]

theorem buildQueryString_assign_new (m : GoMap) (s v : String)
    (hs : s ∉ GoMap.keys m) (hpre : HasPrefix s "_" = false) (hv : v ≠ "") :
    ∃ pre post : List String,
      buildQueryString m = Join (pre ++ post) "&" ∧
      buildQueryString (GoMap.assign m s v) = Join (pre ++ (s ++ "=" ++ QueryEscape v) :: post) "&" ∧
      (∀ p ∈ pre ++ post, ∃ k w, k ≠ s ∧ p = k ++ "=" ++ QueryEscape w) := by
  have hkeys : (GoMap.keys (GoMap.assign m s v)).filter (fun k => ! (HasPrefix k "_")) =
      (GoMap.keys m).filter (fun k => ! (HasPrefix k "_")) ++ [s] := by
    rw [GoMap.keys_assign, if_neg hs]
    simp [List.filter_append, hpre]
  have hsort : sortStrings ((GoMap.keys m).filter (fun k => ! (HasPrefix k "_")) ++ [s]) =
      List.orderedInsert strLE s
        (sortStrings ((GoMap.keys m).filter (fun k => ! (HasPrefix k "_")))) := by
    have hperm : ((GoMap.keys m).filter (fun k => ! (HasPrefix k "_")) ++ [s]).Perm
        (s :: (GoMap.keys m).filter (fun k => ! (HasPrefix k "_"))) := by
      simp [List.perm_append_comm]
    rw [sortStrings_eq_of_perm hperm]
    rfl
  have hsplit := List.orderedInsert_eq_take_drop strLE s
    (sortStrings ((GoMap.keys m).filter (fun k => ! (HasPrefix k "_"))))
  have hwhole := List.takeWhile_append_dropWhile (fun b => decide ¬ strLE s b)
    (sortStrings ((GoMap.keys m).filter (fun k => ! (HasPrefix k "_"))))
  generalize hT : List.takeWhile (fun b => decide ¬ strLE s b)
    (sortStrings ((GoMap.keys m).filter (fun k => ! (HasPrefix k "_")))) = T at hsplit hwhole
  generalize hD : List.dropWhile (fun b => decide ¬ strLE s b)
    (sortStrings ((GoMap.keys m).filter (fun k => ! (HasPrefix k "_")))) = D at hsplit hwhole
  have hmemTD : ∀ k, k ∈ T ++ D → k ∈ GoMap.keys m := by
    intro k hk
    rw [hwhole] at hk
    exact ((mem_sorted_keys m k).mp hk).1
  have hpart : ∀ k, k ∈ T ++ D → queryPart (GoMap.assign m s v) k = queryPart m k := by
    intro k hk
    have hne : k ≠ s := fun h => hs (h ▸ hmemTD k hk)
    simp [queryPart, GoMap.index_assign, hne]
  have hsv : queryPart (GoMap.assign m s v) s = some (s ++ "=" ++ QueryEscape v) := by
    simp [queryPart, GoMap.index_assign, hv]
  refine ⟨T.filterMap (queryPart m), D.filterMap (queryPart m), ?_, ?_, ?_⟩
  · rw [buildQueryString_eq, ← hwhole, List.filterMap_append]
  · have hcons : List.filterMap (queryPart (GoMap.assign m s v)) (s :: D) =
        (s ++ "=" ++ QueryEscape v) :: List.filterMap (queryPart (GoMap.assign m s v)) D := by
      simp [List.filterMap_cons, hsv]
    rw [buildQueryString_eq, hkeys, hsort, hsplit, List.filterMap_append, hcons]
    congr 2
    · apply List.filterMap_congr
      intro k hk
      exact hpart k (List.mem_append_left _ hk)
    · congr 1
      apply List.filterMap_congr
      intro k hk
      exact hpart k (List.mem_append_right _ hk)
  · intro p hp
    rw [← List.filterMap_append, List.mem_filterMap] at hp
    obtain ⟨k, hk, hq⟩ := hp
    have hne : k ≠ s := fun h => hs (h ▸ hmemTD k hk)
    unfold queryPart at hq
    split at hq
    · cases hq
      exact ⟨k, _, hne, rfl⟩
    · cases hq

theorem addAuthParams_query (hmac : String → String → String) (c : ClientConfig) (t : Int)
    (m : GoMap) (hwf : GoMap.WF m) (hfresh : "_auth_added" ∉ GoMap.keys m)
    (hnosig : "signature" ∉ GoMap.keys m) (hsecret : c.SecretKey ≠ "")
    (hne : hmac c.SecretKey (signedPayload c t m) ≠ "") :
    ∃ pre post : List String,
      signedPayload c t m = Join (pre ++ post) "&" ∧
      buildQueryString (addAuthParams hmac c t m) =
        Join (pre ++ ("signature=" ++ QueryEscape (hmac c.SecretKey (signedPayload c t m))) :: post)
          "&" ∧
      (∀ p ∈ pre ++ post, ∃ k w, k ≠ "signature" ∧ p = k ++ "=" ++ QueryEscape w) := by
  have hf := authAdded_of_absent m hfresh
  have h1 : buildQueryString (addAuthParams hmac c t m) =
      buildQueryString (signedParams hmac c t m) := by
    apply buildQueryString_ext
    · rw [addAuthParams_eq_copy hmac c t m hf]
      exact GoMap.wf_copyInto _ _ hwf
    · exact wf_signedParams hmac c t m
    · exact mem_keys_addAuthParams hmac c t m hf
    · exact index_addAuthParams hmac c t m hf
  have h2 : buildQueryString (signedParams hmac c t m) =
      buildQueryString (GoMap.assign (authParamsUnsigned c t m) "signature"
        (hmac c.SecretKey (signedPayload c t m))) := by
    unfold signedParams
    simp only [hsecret, ne_eq, not_false_eq_true, if_true, sign, if_false]
    rw [buildQueryString_assign_hidden _ _ _ (by decide)]
    rfl
  have hnot : "signature" ∉ GoMap.keys (authParamsUnsigned c t m) := by
    rw [mem_keys_authParamsUnsigned]
    intro h
    rcases h with h | h | h | h
    · exact hnosig h
    · exact absurd h.1 (by decide)
    · exact absurd h (by decide)
    · exact absurd h.1 (by decide)
  obtain ⟨pre, post, h3, h4, h5⟩ := buildQueryString_assign_new (authParamsUnsigned c t m)
    "signature" (hmac c.SecretKey (signedPayload c t m)) hnot (by decide) hne
  refine ⟨pre, post, h3, ?_, h5⟩
  rw [h1, h2, h4]
  have : "signature" ++ "=" ++ QueryEscape (hmac c.SecretKey (signedPayload c t m)) =
      "signature=" ++ QueryEscape (hmac c.SecretKey (signedPayload c t m)) := by
    rw [show ("signature=" : String) = "signature" ++ "=" from by decide]
  rw [this]

theorem doRequest_cases (env : Env) (c : ClientConfig) (method endpoint : String)
    (params : Option GoMap) (needAuth : Bool) (w : World) :
    doRequest env c method endpoint params needAuth w = (.crash, w, params) ∨
    ∃ (nc : Nat) (reply : Reply) (w1 : World),
      doRequest env c method endpoint params needAuth w =
        (reply, w1, (authStep env c params needAuth nc).2.1) ∧
      (w1.sent = w.sent ∨
        w1.sent = w.sent ++
          [requestFor c method endpoint (authStep env c params needAuth nc).1 needAuth]) := by
  unfold doRequest
  cases hW : Wait w.rateLimit (env.now w.nowCount) (env.now (w.nowCount + 1)) with
  | none => exact Or.inl rfl
  | some p =>
    obtain ⟨rl, slept⟩ := p
    right
    refine ⟨w.nowCount + (if slept.isSome then 2 else 1), ?_⟩
    simp only
    split
    · exact ⟨_, _, rfl, Or.inl rfl⟩
    · split
      · exact ⟨_, _, rfl, Or.inr rfl⟩
      · exact ⟨_, _, rfl, Or.inr rfl⟩
      · exact ⟨_, _, rfl, Or.inr rfl⟩

theorem append_ne_empty_left (a b : String) (ha : a ≠ "") : a ++ b ≠ "" := by
  intro h
  have hlen := congrArg String.length h
  rw [String.length_append] at hlen
  have h0 : a.length = 0 := by
    have : ("" : String).length = 0 := rfl
    omega
  exact ha ((length_eq_zero_iff a).mp h0)

theorem sampleHmac_ne_empty (key msg : String) : sampleHmac key msg ≠ "" := by
  unfold sampleHmac
  exact append_ne_empty_left _ _ (by decide)

set_option maxRecDepth 100000

theorem authStep_auth (env : Env) (c : ClientConfig) (params : Option GoMap) (nc : Nat) :
    (authStep env c params true nc).1 =
      some (addAuthParams env.hmacSha256Hex c (env.now nc) (params.getD [])) := by
  cases params <;> simp [authStep]

theorem authStep_auth_some (env : Env) (c : ClientConfig) (m : GoMap) (nc : Nat) :
    (authStep env c (some m) true nc).2.1 =
      some (addAuthParams env.hmacSha256Hex c (env.now nc) m) := by
  simp [authStep]

theorem requestFor_url_auth (c : ClientConfig) (method endpoint : String) (m : GoMap) :
    (requestFor c method endpoint (some m) true).url =
      if buildQueryString m ≠ "" then c.BaseURL ++ endpoint ++ "?" ++ buildQueryString m
      else c.BaseURL ++ endpoint := by
  unfold requestFor buildRequest
  by_cases h : method = "GET" ∨ method = "DELETE"
  · simp only [h, if_true]
  · simp only [h, if_false, if_true, Option.getD_some]

/-- C8. For a client with a validated configuration, an HMAC whose hex digest is
never empty, and a caller map (or a nil map) with pairwise distinct keys that
holds neither the sentinel nor a `signature` key: the URL of the request that an
authenticated `doRequest` sends, whatever the method, is base URL, endpoint, `?` and
the `&`-join of the parts of the signed payload with the single part
`signature=<hex>` inserted, where `<hex>` is the HMAC of that payload; the payload
is the string `addAuthParams` signed at the clock reading of the call. -/
theorem doRequest_query_is_signed_payload (env : Env) (c : ClientConfig)
    (method endpoint : String) (params : Option GoMap) (w : World) (req : HttpRequest)
    (hvalid : validateClientConfig c = none)
    (hhex : ∀ msg, env.hmacSha256Hex c.SecretKey msg ≠ "")
    (hparams : ∀ m, params = some m →
      GoMap.WF m ∧ "_auth_added" ∉ GoMap.keys m ∧ "signature" ∉ GoMap.keys m)
    (hsent : (doRequest env c method endpoint params true w).2.1.sent = w.sent ++ [req]) :
    ∃ (k : Nat) (pre post : List String),
      signedPayload c (env.now k) (params.getD []) = Join (pre ++ post) "&" ∧
      req.url = c.BaseURL ++ endpoint ++ "?" ++
        Join (pre ++ ("signature=" ++ QueryEscape (env.hmacSha256Hex c.SecretKey
          (signedPayload c (env.now k) (params.getD [])))) :: post) "&" ∧
      (∀ p ∈ pre ++ post, ∃ key v, key ≠ "signature" ∧ p = key ++ "=" ++ QueryEscape v) := by
  obtain ⟨_, hsecret, _, _, _, _⟩ := validateClientConfig_none c hvalid
  have hm : GoMap.WF (params.getD []) ∧ "_auth_added" ∉ GoMap.keys (params.getD []) ∧
      "signature" ∉ GoMap.keys (params.getD []) := by
    cases params with
    | none => simp [GoMap.WF, GoMap.keys]
    | some m => exact hparams m rfl
  rcases doRequest_cases env c method endpoint params true w with hc | ⟨nc, reply, w1, hd, hs⟩
  · rw [hc] at hsent
    simp at hsent
  · rw [hd] at hsent
    simp only at hsent
    rcases hs with hs | hs
    · rw [hs] at hsent
      simp at hsent
    · rw [hs] at hsent
      have hreq : req = requestFor c method endpoint (authStep env c params true nc).1 true := by
        have := List.append_cancel_left hsent
        simpa using this.symm
      obtain ⟨pre, post, h1, h2, h3⟩ := addAuthParams_query env.hmacSha256Hex c (env.now nc)
        (params.getD []) hm.1 hm.2.1 hm.2.2 hsecret (hhex _)
      refine ⟨nc, pre, post, h1, ?_, h3⟩
      rw [hreq, authStep_auth, requestFor_url_auth, h2]
      have hne : Join (pre ++ ("signature=" ++ QueryEscape (env.hmacSha256Hex c.SecretKey
          (signedPayload c (env.now nc) (params.getD [])))) :: post) "&" ≠ "" := by
        apply Join_ne_empty _ _ ("signature=" ++ QueryEscape (env.hmacSha256Hex c.SecretKey
          (signedPayload c (env.now nc) (params.getD []))))
        · simp
        · exact append_ne_empty_left _ _ (by decide)
      rw [if_pos hne]

/-- C8 (witness). A signed `POST` of `SetLeverage`. -/
theorem doRequest_query_is_signed_payload_witness :
    validateClientConfig (sampleConfig 2 1000 2 5000) = none ∧
    (doRequest (sampleEnv none (fun _ => .response 200 "ok")) (sampleConfig 2 1000 2 5000) "POST"
      "/fapi/v1/leverage" (some [("symbol", "ETHUSDT"), ("leverage", "5")]) true sampleWorld).2.1.sent =
      sampleWorld.sent ++ [requestFor (sampleConfig 2 1000 2 5000) "POST" "/fapi/v1/leverage"
        (some (addAuthParams sampleHmac (sampleConfig 2 1000 2 5000) 1700000000007000000
          [("symbol", "ETHUSDT"), ("leverage", "5")])) true] ∧
    (requestFor (sampleConfig 2 1000 2 5000) "POST" "/fapi/v1/leverage"
        (some (addAuthParams sampleHmac (sampleConfig 2 1000 2 5000) 1700000000007000000
          [("symbol", "ETHUSDT"), ("leverage", "5")])) true).url =
      "https://fapi.binance.com/fapi/v1/leverage?apiKey=key&leverage=5&recvWindow=5000&signature=mac372561548&symbol=ETHUSDT&timestamp=1700000000007" ∧
    signedPayload (sampleConfig 2 1000 2 5000) 1700000000007000000
        [("symbol", "ETHUSDT"), ("leverage", "5")] =
      "apiKey=key&leverage=5&recvWindow=5000&symbol=ETHUSDT&timestamp=1700000000007" ∧
    ∃ (k : Nat) (pre post : List String),
      signedPayload (sampleConfig 2 1000 2 5000) ((sampleEnv none (fun _ => .response 200 "ok")).now k)
        ((some [("symbol", "ETHUSDT"), ("leverage", "5")] : Option GoMap).getD []) =
        Join (pre ++ post) "&" ∧
      (requestFor (sampleConfig 2 1000 2 5000) "POST" "/fapi/v1/leverage"
        (some (addAuthParams sampleHmac (sampleConfig 2 1000 2 5000) 1700000000007000000
          [("symbol", "ETHUSDT"), ("leverage", "5")])) true).url =
        (sampleConfig 2 1000 2 5000).BaseURL ++ "/fapi/v1/leverage" ++ "?" ++
        Join (pre ++ ("signature=" ++ QueryEscape
          ((sampleEnv none (fun _ => .response 200 "ok")).hmacSha256Hex
            (sampleConfig 2 1000 2 5000).SecretKey
            (signedPayload (sampleConfig 2 1000 2 5000)
              ((sampleEnv none (fun _ => .response 200 "ok")).now k)
              ((some [("symbol", "ETHUSDT"), ("leverage", "5")] : Option GoMap).getD [])))) :: post)
          "&" ∧
      (∀ p ∈ pre ++ post, ∃ key v, key ≠ "signature" ∧ p = key ++ "=" ++ QueryEscape v) :=
  ⟨by decide, by decide, by decide, by decide,
    doRequest_query_is_signed_payload (sampleEnv none (fun _ => .response 200 "ok"))
      (sampleConfig 2 1000 2 5000) "POST" "/fapi/v1/leverage"
      (some [("symbol", "ETHUSDT"), ("leverage", "5")]) sampleWorld _
      (by decide)
      (fun msg => sampleHmac_ne_empty _ msg)
      (by intro m hm; cases hm; decide)
      (by decide)⟩

theorem doRequestStep_auth_some (env : Env) (c : ClientConfig) (method endpoint : String)
    (w : World) (m : GoMap) :
    doRequestStep env c method endpoint true (w, some m) = (.crash, w, some m) ∨
    ∃ (t : Int) (reply : Reply) (w1 : World) (j : Nat),
      doRequestStep env c method endpoint true (w, some m) =
        (reply, w1, some (addAuthParams env.hmacSha256Hex c t m)) ∧
      w1.sent = w.sent ++ List.replicate j
        (requestFor c method endpoint (some (addAuthParams env.hmacSha256Hex c t m)) true) := by
  unfold doRequestStep
  rcases doRequest_cases env c method endpoint (some m) true w with hc | ⟨nc, reply, w1, hd, hs⟩
  · exact Or.inl hc
  · right
    rw [authStep_auth_some] at hd
    rw [authStep_auth] at hs
    refine ⟨env.now nc, reply, w1, ?_⟩
    rcases hs with hs | hs
    · exact ⟨0, hd, by simpa using hs⟩
    · exact ⟨1, hd, by simpa using hs⟩

theorem retryLoop_same_request (env : Env) (c : ClientConfig) (method endpoint : String) :
    ∀ (n : Nat) (a : Int) (w : World) (m : GoMap) (lastErr : Option GoError),
      ∃ (k : Nat) (t : Int),
        (retryLoop c (doRequestStep env c method endpoint true) n a (w, some m) lastErr).state.1.sent =
          w.sent ++ List.replicate k
            (requestFor c method endpoint (some (addAuthParams env.hmacSha256Hex c t m)) true) := by
  intro n
  induction n with
  | zero =>
    intro a w m lastErr
    exact ⟨0, 0, by simp [retryLoop]⟩
  | succ n ih =>
    intro a w m lastErr
    rw [retryLoop]
    rcases doRequestStep_auth_some env c method endpoint w m with hc | ⟨t, reply, w1, j, hd, hs⟩
    · rw [hc]
      exact ⟨0, 0, by simp⟩
    · rw [hd]
      cases reply with
      | ok body => exact ⟨j, t, hs⟩
      | crash => exact ⟨j, t, hs⟩
      | fail err =>
        by_cases hnr : noRetry err = true
        · simp only [hnr, if_true]
          exact ⟨j, t, hs⟩
        · simp only [hnr, Bool.false_eq_true, if_false]
          obtain ⟨k, t2, hk⟩ := ih (a + 1) w1 (addAuthParams env.hmacSha256Hex c t m) (some err)
          rw [addAuthParams_idempotent] at hk
          refine ⟨j + k, t, ?_⟩
          rw [hk, hs, List.append_assoc, List.replicate_add]

/-- C9 (amended). `addAuthParams` is idempotent on a map: a second call, at any
time, returns the map of the first call unchanged. Hence all requests that one
`retryRequest` call with a non-nil parameter map sends are the same request, built
from the map as the first `addAuthParams` left it (same timestamp, same
signature). -/
theorem addAuthParams_idempotent_retry :
    (∀ (hmac : String → String → String) (c : ClientConfig) (t1 t2 : Int) (m : GoMap),
      addAuthParams hmac c t2 (addAuthParams hmac c t1 m) = addAuthParams hmac c t1 m) ∧
    (∀ (env : Env) (c : ClientConfig) (method endpoint : String) (m : GoMap) (w : World),
      ∃ (k : Nat) (t : Int),
        (retryRequest env c method endpoint (some m) true w).state.1.sent =
          w.sent ++ List.replicate k
            (requestFor c method endpoint (some (addAuthParams env.hmacSha256Hex c t m)) true)) :=
  ⟨addAuthParams_idempotent, fun env c method endpoint m w =>
    retryLoop_same_request env c method endpoint _ 0 w m none⟩

/-- C9 (counterexample). `GetPositionMode` passes a nil map: with `MaxRetries = 1` and an
HTTP 500 answer, the two attempts send different timestamps and signatures. -/
theorem retryRequest_nil_map_resigns :
    (retryRequest (sampleEnv none (fun _ => .response 500 "")) (sampleConfig 1 1000 2 5000) "GET"
      "/fapi/v1/positionSide/dual" none true sampleWorld).state.1.sent.map (fun r => r.url) =
      ["https://fapi.binance.com/fapi/v1/positionSide/dual?apiKey=key&recvWindow=5000&signature=mac566562742&timestamp=1700000000007",
       "https://fapi.binance.com/fapi/v1/positionSide/dual?apiKey=key&recvWindow=5000&signature=mac566562798&timestamp=1700000000021"] := by
  decide

/-! ## The verdict on a response -/

theorem classifyResponse_api_error (env : Env) (statusCode : Int) (body : String) (code : Int)
    (msg : String) (h : env.unmarshalAPIError body = some (code, msg)) (hc : code ≠ 0) :
    classifyResponse env statusCode body =
      .fail (.binance (ConvertAPIError { Code := code, Message := msg, Raw := "" })) ∧
    (ConvertAPIError { Code := code, Message := msg, Raw := "" }).Raw = "" := by
  constructor
  · simp [classifyResponse, h, hc]
  · rw [convertAPIError_raw]

theorem classifyResponse_http_error (env : Env) (statusCode : Int) (body : String)
    (h : ∀ code msg, env.unmarshalAPIError body = some (code, msg) → code = 0)
    (hs : statusCode < 200 ∨ statusCode ≥ 300) :
    classifyResponse env statusCode body = .fail (.binance (ConvertHTTPError statusCode body)) ∧
    (ConvertHTTPError statusCode body).Raw = body := by
  constructor
  · unfold classifyResponse
    cases hu : env.unmarshalAPIError body with
    | none => simp [hs]
    | some p =>
      obtain ⟨code, msg⟩ := p
      have := h code msg hu
      subst this
      simp [hs]
  · rw [convertHTTPError_raw]

/-- C6 (the code at the failing input). The exchange answers HTTP 400 with the error
payload of code -1121: `doRequest` returns the InvalidSymbol error with an empty
`Raw`, not with the body received. -/
theorem doRequest_api_error_raw_empty :
    (doRequest (sampleEnv (some (-1121, "Invalid symbol."))
        (fun _ => .response 400 "\x7b\"code\":-1121,\"msg\":\"Invalid symbol.\"\x7d"))
      (sampleConfig 2 1000 2 5000) "GET" "/fapi/v1/klines" (some [("symbol", "NOPE")]) false
      sampleWorld).1 =
      .fail (.binance (NewError ErrCodeInvalidSymbol "无效的交易对" "交易对不存在" "")) ∧
    (NewError ErrCodeInvalidSymbol "无效的交易对" "交易对不存在" "").Raw ≠
      "\x7b\"code\":-1121,\"msg\":\"Invalid symbol.\"\x7d" := by
  decide

end Binance

set_option maxRecDepth 100000

namespace Binance
open ErrorCode

/-! ## The limiter -/

theorem Wait_no_elapse (r : RequestRateLimit) (after : Int) (hI : 1 ≤ r.interval)
    (ht : 1 ≤ r.tokens) (hb : r.tokens < 2 ^ 63) :
    Wait r r.lastTime after = some ({ r with tokens := r.tokens - 1 }, none) := by
  have hre : refill r r.lastTime = some r := by
    unfold refill
    simp only [sub_self, Int.zero_tdiv, zero_mul]
    have h1 : ¬ (0 ≥ r.interval) := by omega
    have h2 : ¬ r.interval = 0 := by omega
    have h3 : ¬ (wrap64 ((wrap64 0).tdiv r.interval) > 0) := by
      have : wrap64 0 = 0 := by decide
      rw [this, Int.zero_tdiv, this]
      decide
    simp only [h1, h2, h3, if_false]
  unfold Wait
  rw [hre]
  have h4 : ¬ r.tokens ≤ 0 := by omega
  simp only [h4, if_false]
  rw [wrap64_of_fits (by omega) (by omega)]

theorem refill_no_elapse (r : RequestRateLimit) (hI : 1 ≤ r.interval) :
    refill r r.lastTime = some r := by
  unfold refill
  simp only [sub_self, Int.zero_tdiv, zero_mul]
  have h1 : ¬ (0 ≥ r.interval) := by omega
  have h2 : ¬ r.interval = 0 := by omega
  have h3 : ¬ (wrap64 ((wrap64 0).tdiv r.interval) > 0) := by
    have : wrap64 0 = 0 := by decide
    rw [this, Int.zero_tdiv, this]
    decide
  simp only [h1, h2, h3, if_false]

/-- A call of `Wait` that finds the bucket empty and no time elapsed sleeps the
interval and leaves the bucket full. -/
theorem Wait_exhausted (r : RequestRateLimit) (after : Int) (hI : 1 ≤ r.interval)
    (ht : r.tokens ≤ 0) :
    Wait r r.lastTime after =
      some ({ r with tokens := r.rateLimit, lastTime := after },
        some (wrap64 (r.interval * Millisecond))) := by
  unfold Wait
  rw [refill_no_elapse r hI]
  simp only [ht, if_true]

theorem waitAll_append (r : RequestRateLimit) (l1 l2 : List (Int × Int))
    (r1 : RequestRateLimit) (s1 : List (Option Int)) (h : waitAll r l1 = some (r1, s1)) :
    waitAll r (l1 ++ l2) =
      match waitAll r1 l2 with
      | none => none
      | some (r2, s2) => some (r2, s1 ++ s2) := by
  induction l1 generalizing r r1 s1 with
  | nil =>
    simp only [waitAll, Option.some.injEq, Prod.mk.injEq] at h
    obtain ⟨h1, h2⟩ := h
    subst h1; subst h2
    simp only [List.nil_append]
    cases waitAll r l2 with
    | none => rfl
    | some p => rfl
  | cons p t ih =>
    obtain ⟨now, after⟩ := p
    simp only [List.cons_append, waitAll] at h ⊢
    cases hW : Wait r now after with
    | none => rw [hW] at h; cases h
    | some q =>
      obtain ⟨ra, sl⟩ := q
      rw [hW] at h
      simp only at h ⊢
      cases hrest : waitAll ra t with
      | none => rw [hrest] at h; cases h
      | some q2 =>
        obtain ⟨rb, sb⟩ := q2
        rw [hrest] at h
        simp only [Option.some.injEq, Prod.mk.injEq] at h
        obtain ⟨h1, h2⟩ := h
        subst h1; subst h2
        rw [show t.append l2 = t ++ l2 from rfl, ih ra rb sb hrest]
        cases waitAll rb l2 with
        | none => rfl
        | some p => rfl

theorem waitAll_burst (I t0 : Int) (hI : 1 ≤ I) (c : Int) (hc : c < 2 ^ 63) :
    ∀ (k : Nat) (tok : Int), (k : Int) ≤ tok → tok ≤ c →
      waitAll { rateLimit := c, interval := I, tokens := tok, lastTime := t0 }
          (List.replicate k (t0, t0)) =
        some ({ rateLimit := c, interval := I, tokens := tok - k, lastTime := t0 },
          List.replicate k none) := by
  intro k
  induction k with
  | zero => intro tok _ _; simp [waitAll]
  | succ k ih =>
    intro tok hk htc
    have hw := Wait_no_elapse { rateLimit := c, interval := I, tokens := tok, lastTime := t0 } t0
      hI (by simp only; omega) (by simp only; omega)
    simp only at hw
    rw [List.replicate_succ, waitAll, hw]
    simp only
    rw [ih (tok - 1) (by omega) (by omega)]
    simp only [List.replicate_succ, Nat.cast_add, Nat.cast_one]
    congr 3
    omega

/-- C12 (amended). A limiter freshly built with capacity `n` (a Go `int`) and interval
`I >= 1`: `n` calls of `Wait` with no time elapsed return without sleeping, and the
next such call hands `time.Sleep` the duration `I * time.Millisecond` reduced to 64
bits, which is exactly `I` milliseconds whenever `I * 10^6 < 2^63`. -/
theorem wait_burst_then_sleep (n : Nat) (I t0 t1 : Int) (hc : (n : Int) < 2 ^ 63)
    (hI : 1 ≤ I) :
    waitAll (NewRequestRateLimit n I t0) (List.replicate n (t0, t0) ++ [(t0, t1)]) =
        some ({ rateLimit := n, interval := I, tokens := n, lastTime := t1 },
          List.replicate n none ++ [some (wrap64 (I * Millisecond))]) ∧
      (I * Millisecond < 2 ^ 63 → wrap64 (I * Millisecond) = I * Millisecond) := by
  constructor
  · have hb := waitAll_burst I t0 hI n hc n n (le_refl _) (le_refl _)
    unfold NewRequestRateLimit
    rw [waitAll_append _ _ _ _ _ hb]
    have hw := Wait_exhausted { rateLimit := n, interval := I, tokens := (n : Int) - n, lastTime := t0 }
      t1 hI (by simp)
    simp only at hw
    simp only [waitAll, hw]
  · intro h
    exact wrap64_of_fits (by unfold Millisecond; omega) h

/-- C12 (witness). Capacity 5, interval 1000: calls 1 to 5 do not sleep, call 6
sleeps 1000 ms. -/
theorem wait_burst_then_sleep_witness :
    ((5 : Nat) : Int) < 2 ^ 63 ∧ (1 : Int) ≤ 1000 ∧
    waitAll (NewRequestRateLimit 5 1000 0) (List.replicate 5 (0, 0) ++ [(0, 1000000000)]) =
      some ({ rateLimit := 5, interval := 1000, tokens := 5, lastTime := 1000000000 },
        [none, none, none, none, none, some (1000 * Millisecond)]) :=
  ⟨by decide, by decide,
    (wait_burst_then_sleep 5 1000 0 1000000000 (by decide) (by decide)).1.trans
      (by decide)⟩

/-- C12 (counterexample). Capacity 1, interval `10^13` ms: the second call hands
`time.Sleep` the duration `-8446744073709551616` ns, not `10^13` ms. -/
theorem wait_sleep_overflow :
    waitAll (NewRequestRateLimit 1 10000000000000 0) [(0, 0), (0, 0)] =
      some ({ rateLimit := 1, interval := 10000000000000, tokens := 1, lastTime := 0 },
        [none, some (-8446744073709551616)]) ∧
    (-8446744073709551616 : Int) ≠ 10000000000000 * Millisecond := by
  decide

/-- C13 (counterexample). Capacity 5, interval 1000, six calls of `Wait` with no time
elapsed between them: the sixth call sleeps the interval and leaves 5 tokens, not
`5 - 1 = 4`. -/
theorem wait_exhausted_leaves_full_bucket :
    waitAll (NewRequestRateLimit 5 1000 0) (List.replicate 5 (0, 0) ++ [(0, 1000000000)]) =
      some ({ rateLimit := 5, interval := 1000, tokens := 5, lastTime := 1000000000 },
        [none, none, none, none, none, some (1000 * Millisecond)]) ∧
    (5 : Int) ≠ 5 - 1 := by
  decide

theorem Wait_bounds (r : RequestRateLimit) (now after : Int) (hI : 1 ≤ r.interval)
    (hc1 : 1 ≤ r.rateLimit) (hc2 : r.rateLimit < 2 ^ 63) (ht : r.tokens ≤ r.rateLimit) :
    ∃ r1 slept, Wait r now after = some (r1, slept) ∧ 0 ≤ r1.tokens ∧
      r1.tokens ≤ r1.rateLimit ∧ r1.rateLimit = r.rateLimit ∧ r1.interval = r.interval := by
  have hre : ∃ r0, refill r now = some r0 ∧ r0.tokens ≤ r0.rateLimit ∧
      r0.rateLimit = r.rateLimit ∧ r0.interval = r.interval := by
    unfold refill
    simp only
    split
    · exact ⟨_, rfl, le_refl _, rfl, rfl⟩
    · split
      · omega
      · split
        · refine ⟨_, rfl, ?_, rfl, rfl⟩
          simp only
          split
          · exact le_refl _
          · omega
        · exact ⟨_, rfl, ht, rfl, rfl⟩
  obtain ⟨r0, h0, h1, h2, h3⟩ := hre
  unfold Wait
  rw [h0]
  simp only
  split
  · exact ⟨_, _, rfl, by simp only; omega, by simp only; omega, h2, h3⟩
  · refine ⟨_, _, rfl, ?_, ?_, h2, h3⟩
    · simp only
      rw [wrap64_of_fits (by omega) (by omega)]
      omega
    · simp only
      rw [wrap64_of_fits (by omega) (by omega)]
      omega

/-- C14. For a limiter built by `NewRequestRateLimit` with capacity `c >= 1` (a Go
`int`) and interval `I >= 1`, every sequence of `Wait` calls, at whatever clock
readings, runs without a panic and ends with `0 <= tokens <= capacity`. -/
theorem wait_tokens_bounded (c I t0 : Int) (hc1 : 1 ≤ c) (hc2 : c < 2 ^ 63) (hI : 1 ≤ I)
    (calls : List (Int × Int)) :
    ∃ r sleeps, waitAll (NewRequestRateLimit c I t0) calls = some (r, sleeps) ∧
      0 ≤ r.tokens ∧ r.tokens ≤ c ∧ r.rateLimit = c ∧ r.interval = I := by
  have key : ∀ (calls : List (Int × Int)) (r : RequestRateLimit), r.rateLimit = c →
      r.interval = I → 0 ≤ r.tokens → r.tokens ≤ c →
      ∃ r1 sleeps, waitAll r calls = some (r1, sleeps) ∧
        0 ≤ r1.tokens ∧ r1.tokens ≤ c ∧ r1.rateLimit = c ∧ r1.interval = I := by
    intro calls
    induction calls with
    | nil => intro r h1 h2 h3 h4; exact ⟨r, [], rfl, h3, h4, h1, h2⟩
    | cons p t ih =>
      intro r h1 h2 h3 h4
      obtain ⟨now, after⟩ := p
      obtain ⟨ra, sl, hW, ha1, ha2, ha3, ha4⟩ := Wait_bounds r now after (by omega) (by omega)
        (by omega) (by omega)
      obtain ⟨rb, sb, hrest, hb⟩ := ih ra (by omega) (by omega) ha1 (by omega)
      refine ⟨rb, sl :: sb, ?_, hb⟩
      simp only [waitAll, hW, hrest]
  exact key calls (NewRequestRateLimit c I t0) rfl rfl (by simp [NewRequestRateLimit]; omega)
    (by simp [NewRequestRateLimit])

/-- C14 (witness). Capacity 2, interval 1000, five calls at non-decreasing times. -/
theorem wait_tokens_bounded_witness :
    (1 : Int) ≤ 2 ∧ (2 : Int) < 2 ^ 63 ∧ (1 : Int) ≤ 1000 ∧
    ∃ r sleeps,
      waitAll (NewRequestRateLimit 2 1000 0)
        [(0, 0), (1000000, 1000000), (2000000, 1002000000), (1502000000, 1502000000),
          (3002000000, 3002000000)] = some (r, sleeps) ∧
      0 ≤ r.tokens ∧ r.tokens ≤ 2 ∧ r.rateLimit = 2 ∧ r.interval = 1000 :=
  ⟨by decide, by decide, by decide,
    wait_tokens_bounded 2 1000 0 (by decide) (by decide) (by decide) _⟩

end Binance

namespace Tradeflow
open Binance

/-! ## The trade cache -/

namespace TradeMap

theorem keys_assignTrade (m : TradeMap) (k : Int) (v : RecentTrade) :
    keys (assign m k v) = if k ∈ keys m then keys m else keys m ++ [k] := by
  induction m with
  | nil => simp [assign, keys]
  | cons p t ih =>
    obtain ⟨k', v'⟩ := p
    by_cases hk : k' = k
    · subst hk; simp [assign, keys]
    · have hk2 : ¬ k = k' := fun h => hk h.symm
      simp only [assign, hk, if_false]
      simp only [keys, List.map_cons, List.mem_cons, hk2, false_or] at ih ⊢
      rw [ih]
      split <;> simp

theorem mem_keys_assignTrade (m : TradeMap) (k : Int) (v : RecentTrade) (k' : Int) :
    k' ∈ keys (assign m k v) ↔ k' = k ∨ k' ∈ keys m := by
  rw [keys_assignTrade]
  split
  · constructor
    · exact Or.inr
    · rintro (h | h)
      · subst h; assumption
      · exact h
  · simp [or_comm]

theorem length_assign (m : TradeMap) (k : Int) (v : RecentTrade) :
    (assign m k v).length = if k ∈ keys m then m.length else m.length + 1 := by
  have h := congrArg List.length (keys_assignTrade m k v)
  have hl : ∀ m' : TradeMap, (keys m').length = m'.length := fun m' => by simp [keys]
  by_cases hk : k ∈ keys m
  · rw [if_pos hk] at h ⊢
    rw [hl, hl] at h
    exact h
  · rw [if_neg hk] at h ⊢
    rw [List.length_append, hl, hl] at h
    exact h

theorem assign_of_not_mem (m : TradeMap) (k : Int) (v : RecentTrade) (h : k ∉ keys m) :
    assign m k v = m ++ [(k, v)] := by
  induction m with
  | nil => rfl
  | cons p t ih =>
    obtain ⟨k', v'⟩ := p
    simp only [keys, List.map_cons, List.mem_cons, not_or] at h
    have hk : ¬ k' = k := fun e => h.1 e.symm
    simp only [assign, hk, if_false, List.cons_append]
    rw [ih h.2]

theorem mem_assign (m : TradeMap) (k : Int) (v : RecentTrade) (kv : Int × RecentTrade)
    (h : kv ∈ assign m k v) : kv = (k, v) ∨ kv ∈ m := by
  induction m with
  | nil => simp [assign] at h; exact Or.inl h
  | cons p t ih =>
    obtain ⟨k', v'⟩ := p
    by_cases hk : k' = k
    · subst hk
      simp only [assign, if_true, List.mem_cons] at h
      rcases h with h | h
      · exact Or.inl h
      · exact Or.inr (List.mem_cons_of_mem _ h)
    · simp only [assign, hk, if_false, List.mem_cons] at h
      rcases h with h | h
      · subst h
        exact Or.inr (List.mem_cons_self _ _)
      · rcases ih h with h1 | h1
        · exact Or.inl h1
        · exact Or.inr (List.mem_cons_of_mem _ h1)

theorem wf_assignTrade (m : TradeMap) (k : Int) (v : RecentTrade) (hwf : WF m) (hv : v.ID = k) :
    WF (assign m k v) := by
  constructor
  · rw [keys_assignTrade]
    split
    · exact hwf.1
    · rename_i h
      exact List.Nodup.append hwf.1 (List.nodup_singleton k) (by simpa using h)
  · intro kv hkv
    rcases mem_assign m k v kv hkv with h | h
    · subst h; exact hv
    · exact hwf.2 kv h

theorem lookup_assign (m : TradeMap) (k : Int) (v : RecentTrade) (k' : Int) :
    lookup (assign m k v) k' = if k' = k then some v else lookup m k' := by
  induction m with
  | nil =>
    by_cases h : k' = k
    · subst h; simp [assign, lookup]
    · have h2 : ¬ k = k' := fun e => h e.symm
      simp [assign, lookup, h, h2]
  | cons p t ih =>
    obtain ⟨k0, v0⟩ := p
    by_cases hk : k0 = k
    · subst hk
      by_cases h : k' = k0
      · subst h; simp [assign, lookup]
      · have h2 : ¬ k0 = k' := fun e => h e.symm
        simp [assign, lookup, h, h2]
    · simp only [assign, hk, if_false, lookup]
      rw [ih]
      by_cases h : k' = k
      · subst h; simp [hk]
      · simp [h]

theorem lookup_of_mem (m : TradeMap) (hnd : (keys m).Nodup) (k : Int) (v : RecentTrade)
    (h : (k, v) ∈ m) : lookup m k = some v := by
  induction m with
  | nil => simp at h
  | cons p t ih =>
    obtain ⟨k', v'⟩ := p
    simp only [keys, List.map_cons, List.nodup_cons] at hnd
    simp only [List.mem_cons, Prod.mk.injEq] at h
    rcases h with ⟨h1, h2⟩ | h
    · subst h1; subst h2; simp [lookup]
    · have hk : k' ≠ k := by
        intro hk
        subst hk
        exact hnd.1 (List.mem_map.mpr ⟨(k', v), h, rfl⟩)
      simp only [lookup, hk, if_false]
      exact ih hnd.2 h

/-- The values of a well-formed map carry pairwise distinct ids, which are its keys. -/
theorem ids_values (m : TradeMap) (hwf : WF m) : (values m).map (fun t => t.ID) = keys m := by
  unfold values keys
  rw [List.map_map]
  apply List.map_congr_left
  intro kv hkv
  exact hwf.2 kv hkv

/-- Storing trades with pairwise distinct ids into an empty map keeps them all, in
order. -/
theorem build_of_nodup (ts : List RecentTrade) :
    ∀ (m : TradeMap), ((keys m) ++ ts.map (fun t => t.ID)).Nodup →
      ts.foldl (fun m t => assign m t.ID t) m = m ++ ts.map (fun t => (t.ID, t)) := by
  induction ts with
  | nil => intro m _; simp
  | cons t rest ih =>
    intro m h
    have hnot : t.ID ∉ keys m := by
      intro hmem
      rw [List.nodup_append] at h
      exact h.2.2 hmem (by simp)
    rw [List.foldl_cons, assign_of_not_mem m t.ID t hnot]
    rw [ih]
    · simp
    · have hk : keys (m ++ [(t.ID, t)]) = keys m ++ [t.ID] := by simp [keys]
      rw [hk]
      simpa using h

theorem length_build_le (ts : List RecentTrade) :
    ∀ (m : TradeMap), (ts.foldl (fun m t => assign m t.ID t) m).length ≤ m.length + ts.length := by
  induction ts with
  | nil => intro m; simp
  | cons t rest ih =>
    intro m
    rw [List.foldl_cons]
    have h1 := ih (assign m t.ID t)
    have h2 : (assign m t.ID t).length ≤ m.length + 1 := by
      rw [length_assign]; split <;> omega
    simp only [List.length_cons]
    omega

end TradeMap

theorem wf_mergeTrades (data : List RecentTrade) :
    ∀ (m : TradeMap), TradeMap.WF m → TradeMap.WF (mergeTrades m data) := by
  induction data with
  | nil => intro m h; exact h
  | cons t rest ih =>
    intro m h
    exact ih _ (TradeMap.wf_assignTrade m t.ID t h rfl)

theorem mergeTrades_nil_of_nodup (data : List RecentTrade)
    (hnd : (data.map (fun t => t.ID)).Nodup) :
    mergeTrades [] data = data.map (fun t => (t.ID, t)) := by
  unfold mergeTrades
  rw [TradeMap.build_of_nodup data [] (by simpa [TradeMap.keys] using hnd)]
  simp

end Tradeflow

namespace Tradeflow
open Binance

/-- The compaction of `AddRecentTrade` (lines 40-58) on a well-formed map of at least
10000 entries: the first 10000 trades of the sorted slice, each under its id. -/
theorem AddRecentTrade_compact (sortSlice : SliceSorter) (hs : IsSliceSort sortSlice)
    (dataMap : TradeMap) (data : List RecentTrade) (hwf : TradeMap.WF dataMap)
    (hfull : 10000 ≤ (mergeTrades dataMap data).length) :
    AddRecentTrade sortSlice dataMap data =
      ((sortSlice newestFirst (TradeMap.values (mergeTrades dataMap data))).take 10000).map
        (fun t => (t.ID, t)) := by
  have hM := wf_mergeTrades data dataMap hwf
  have hperm := (hs (TradeMap.values (mergeTrades dataMap data))).1
  have hids : ((sortSlice newestFirst (TradeMap.values (mergeTrades dataMap data))).map
      (fun t => t.ID)).Nodup := by
    rw [(hperm.map _).nodup_iff, TradeMap.ids_values _ hM]
    exact hM.1
  have htake : (((sortSlice newestFirst (TradeMap.values (mergeTrades dataMap data))).take
      10000).map (fun t => t.ID)).Nodup := by
    rw [List.map_take]
    exact hids.sublist (List.take_sublist _ _)
  unfold AddRecentTrade
  simp only
  rw [if_neg (by omega)]
  rw [TradeMap.build_of_nodup _ [] (by simpa [TradeMap.keys] using htake)]
  simp

theorem length_sorted (sortSlice : SliceSorter) (hs : IsSliceSort sortSlice) (m : TradeMap) :
    (sortSlice newestFirst (TradeMap.values m)).length = m.length := by
  rw [(hs (TradeMap.values m)).1.length_eq]
  simp [TradeMap.values]

/-- C15. After `AddRecentTrade` the cache holds at most 10000 entries, whatever the
cache and the batch were; and for a `sort.Slice` that rearranges and orders, storing
10001 trades with pairwise distinct ids into an empty cache leaves exactly 10000
entries. -/
theorem addRecentTrade_size_bound :
    (∀ (sortSlice : SliceSorter) (dataMap : TradeMap) (data : List RecentTrade),
      (AddRecentTrade sortSlice dataMap data).length ≤ 10000) ∧
    (∀ (sortSlice : SliceSorter) (data : List RecentTrade), IsSliceSort sortSlice →
      data.length = 10001 → (data.map (fun t => t.ID)).Nodup →
      (AddRecentTrade sortSlice [] data).length = 10000) := by
  constructor
  · intro sortSlice dataMap data
    unfold AddRecentTrade
    simp only
    split
    · omega
    · have h := TradeMap.length_build_le
        ((sortSlice newestFirst (TradeMap.values (mergeTrades dataMap data))).take 10000) []
      have h2 : ((sortSlice newestFirst (TradeMap.values (mergeTrades dataMap data))).take
          10000).length ≤ 10000 := by
        rw [List.length_take]; omega
      simp only [List.length_nil] at h
      omega
  · intro sortSlice data hs hlen hnd
    have hm := mergeTrades_nil_of_nodup data hnd
    have hl : (mergeTrades [] data).length = 10001 := by rw [hm]; simpa using hlen
    rw [AddRecentTrade_compact sortSlice hs [] data (by simp [TradeMap.WF, TradeMap.keys])
      (by omega)]
    rw [List.length_map, List.length_take, length_sorted sortSlice hs, hl]
    rfl

end Tradeflow

namespace Tradeflow
open Binance

theorem insertionSortSlice_isSliceSort : IsSliceSort insertionSortSlice := by
  intro l
  have hT1 : IsTotal RecentTrade (fun a b => newestFirst b a = false) :=
    ⟨fun a b => by simp only [newestFirst, decide_eq_false_iff_not]; omega⟩
  have hR1 : IsTrans RecentTrade (fun a b => newestFirst b a = false) :=
    ⟨fun a b c => by simp only [newestFirst, decide_eq_false_iff_not]; omega⟩
  have hT2 : IsTotal RecentTrade (fun a b => oldestFirst b a = false) :=
    ⟨fun a b => by simp only [oldestFirst, decide_eq_false_iff_not]; omega⟩
  have hR2 : IsTrans RecentTrade (fun a b => oldestFirst b a = false) :=
    ⟨fun a b c => by simp only [oldestFirst, decide_eq_false_iff_not]; omega⟩
  refine ⟨List.perm_insertionSort _ l, ?_, List.perm_insertionSort _ l, ?_⟩
  · have h := List.sorted_insertionSort (fun a b => newestFirst b a = false) l
    refine List.Pairwise.imp ?_ h
    intro a b hab
    simp only [newestFirst, decide_eq_false_iff_not] at hab
    omega
  · have h := List.sorted_insertionSort (fun a b => oldestFirst b a = false) l
    refine List.Pairwise.imp ?_ h
    intro a b hab
    simp only [oldestFirst, decide_eq_false_iff_not] at hab
    omega

theorem sampleTrade_ids_nodup (n : Nat) :
    (((List.range n).map (fun i : Nat => sampleTrade i i)).map (fun t => t.ID)).Nodup := by
  rw [List.map_map]
  refine (List.nodup_range n).map ?_
  intro a b h
  simpa [sampleTrade] using h

/-- C15 (witness). The 10001 trades with ids 0 to 10000 into an empty cache. -/
theorem addRecentTrade_size_bound_witness :
    IsSliceSort insertionSortSlice ∧
    ((List.range 10001).map (fun i : Nat => sampleTrade i i)).length = 10001 ∧
    (((List.range 10001).map (fun i : Nat => sampleTrade i i)).map (fun t => t.ID)).Nodup ∧
    (AddRecentTrade insertionSortSlice []
      ((List.range 10001).map (fun i : Nat => sampleTrade i i))).length = 10000 :=
  ⟨insertionSortSlice_isSliceSort, by simp, sampleTrade_ids_nodup 10001,
    addRecentTrade_size_bound.2 insertionSortSlice _ insertionSortSlice_isSliceSort (by simp)
      (sampleTrade_ids_nodup 10001)⟩

/-- C16. Whenever `AddRecentTrade` compacts (the merged map is well formed and has at
least 10000 entries), the resulting cache has exactly 10000 entries, each of them an
entry of the merged map, and every retained trade is at least as new as every
discarded one. -/
theorem addRecentTrade_keeps_newest (sortSlice : SliceSorter) (hs : IsSliceSort sortSlice)
    (dataMap : TradeMap) (data : List RecentTrade) (hwf : TradeMap.WF dataMap)
    (hfull : 10000 ≤ (mergeTrades dataMap data).length) :
    (AddRecentTrade sortSlice dataMap data).length = 10000 ∧
    TradeMap.WF (AddRecentTrade sortSlice dataMap data) ∧
    (∀ kv ∈ AddRecentTrade sortSlice dataMap data, kv ∈ mergeTrades dataMap data) ∧
    (∀ kept ∈ AddRecentTrade sortSlice dataMap data, ∀ dropped ∈ mergeTrades dataMap data,
      dropped ∉ AddRecentTrade sortSlice dataMap data → kept.2.Time ≥ dropped.2.Time) := by
  have hM := wf_mergeTrades data dataMap hwf
  have hc := AddRecentTrade_compact sortSlice hs dataMap data hwf hfull
  obtain ⟨hperm, hdesc, _, _⟩ := hs (TradeMap.values (mergeTrades dataMap data))
  generalize hS : sortSlice newestFirst (TradeMap.values (mergeTrades dataMap data)) = S
    at hc hperm hdesc
  have hlenS : S.length = (mergeTrades dataMap data).length := by
    rw [hperm.length_eq]; simp [TradeMap.values]
  have hidsS : (S.map (fun t => t.ID)).Nodup := by
    rw [(hperm.map _).nodup_iff, TradeMap.ids_values _ hM]
    exact hM.1
  have hmemM : ∀ t, t ∈ S → (t.ID, t) ∈ mergeTrades dataMap data := by
    intro t ht
    have h1 : t ∈ TradeMap.values (mergeTrades dataMap data) := hperm.mem_iff.mp ht
    simp only [TradeMap.values, List.mem_map] at h1
    obtain ⟨kv, hkv, hkt⟩ := h1
    have hid := hM.2 kv hkv
    have : kv = (t.ID, t) := by
      rw [← hkt] at *
      exact Prod.ext hid.symm rfl
    rw [← this]
    exact hkv
  rw [hc]
  refine ⟨?_, ?_, ?_, ?_⟩
  · rw [List.length_map, List.length_take, hlenS]
    omega
  · constructor
    · have : TradeMap.keys ((S.take 10000).map (fun t => (t.ID, t))) =
          (S.take 10000).map (fun t => t.ID) := by
        simp only [TradeMap.keys, List.map_map]
        rfl
      rw [this, List.map_take]
      exact hidsS.sublist (List.take_sublist _ _)
    · intro kv hkv
      simp only [List.mem_map] at hkv
      obtain ⟨t, _, ht⟩ := hkv
      rw [← ht]
  · intro kv hkv
    simp only [List.mem_map] at hkv
    obtain ⟨t, ht, hkt⟩ := hkv
    rw [← hkt]
    exact hmemM t (List.mem_of_mem_take ht)
  · intro kept hkept dropped hdropped hnot
    simp only [List.mem_map] at hkept
    obtain ⟨t, ht, hkt⟩ := hkept
    have hd1 : dropped.2 ∈ S := by
      apply hperm.mem_iff.mpr
      simp only [TradeMap.values, List.mem_map]
      exact ⟨dropped, hdropped, rfl⟩
    have hdeq : (dropped.2.ID, dropped.2) = dropped := Prod.ext (hM.2 dropped hdropped) rfl
    have hd2 : dropped.2 ∉ S.take 10000 := by
      intro hin
      apply hnot
      simp only [List.mem_map]
      exact ⟨dropped.2, hin, hdeq⟩
    have hd3 : dropped.2 ∈ S.drop 10000 := by
      rw [← List.take_append_drop 10000 S, List.mem_append] at hd1
      rcases hd1 with h | h
      · exact absurd h hd2
      · exact h
    rw [← List.take_append_drop 10000 S, List.pairwise_append] at hdesc
    rw [← hkt]
    exact hdesc.2.2 t ht dropped.2 hd3

end Tradeflow

namespace Tradeflow
open Binance

theorem length_merge_samples (n : Nat) :
    (mergeTrades [] ((List.range n).map (fun i : Nat => sampleTrade i i))).length = n := by
  rw [mergeTrades_nil_of_nodup _ (sampleTrade_ids_nodup n)]
  simp

/-- C16 (witness). The 10001 trades with ids and times 0 to 10000 into an empty
cache. -/
theorem addRecentTrade_keeps_newest_witness :
    IsSliceSort insertionSortSlice ∧ TradeMap.WF [] ∧
    10000 ≤ (mergeTrades [] ((List.range 10001).map (fun i : Nat => sampleTrade i i))).length ∧
    (AddRecentTrade insertionSortSlice []
      ((List.range 10001).map (fun i : Nat => sampleTrade i i))).length = 10000 ∧
    (∀ kept ∈ AddRecentTrade insertionSortSlice []
        ((List.range 10001).map (fun i : Nat => sampleTrade i i)),
      ∀ dropped ∈ mergeTrades [] ((List.range 10001).map (fun i : Nat => sampleTrade i i)),
      dropped ∉ AddRecentTrade insertionSortSlice []
        ((List.range 10001).map (fun i : Nat => sampleTrade i i)) →
      kept.2.Time ≥ dropped.2.Time) :=
  have h := addRecentTrade_keeps_newest insertionSortSlice insertionSortSlice_isSliceSort []
    ((List.range 10001).map (fun i : Nat => sampleTrade i i)) (by decide)
    (by rw [length_merge_samples]; decide)
  ⟨insertionSortSlice_isSliceSort, by decide, by rw [length_merge_samples]; decide, h.1,
    h.2.2.2⟩

/-- C17. For a well-formed cache of at most 10000 entries (every cache that
`AddRecentTrade` leaves is one) and a trade `t` whose id is already cached,
`AddRecentTrade([t])` leaves the set of cached ids and the size unchanged, and the
entry under that id is `t` afterwards; a cache of exactly 10000 entries is
included. -/
theorem addRecentTrade_overwrites (sortSlice : SliceSorter) (hs : IsSliceSort sortSlice)
    (dataMap : TradeMap) (t : RecentTrade) (hwf : TradeMap.WF dataMap)
    (hcap : dataMap.length ≤ 10000) (hid : t.ID ∈ TradeMap.keys dataMap) :
    (∀ k, k ∈ TradeMap.keys (AddRecentTrade sortSlice dataMap [t]) ↔ k ∈ TradeMap.keys dataMap) ∧
    (AddRecentTrade sortSlice dataMap [t]).length = dataMap.length ∧
    TradeMap.lookup (AddRecentTrade sortSlice dataMap [t]) t.ID = some t := by
  have hmerge : mergeTrades dataMap [t] = TradeMap.assign dataMap t.ID t := rfl
  have hkeys : TradeMap.keys (TradeMap.assign dataMap t.ID t) = TradeMap.keys dataMap := by
    rw [TradeMap.keys_assignTrade, if_pos hid]
  have hlen : (TradeMap.assign dataMap t.ID t).length = dataMap.length := by
    rw [TradeMap.length_assign, if_pos hid]
  have hlook : TradeMap.lookup (TradeMap.assign dataMap t.ID t) t.ID = some t := by
    rw [TradeMap.lookup_assign, if_pos rfl]
  by_cases hsmall : dataMap.length < 10000
  · have hres : AddRecentTrade sortSlice dataMap [t] = TradeMap.assign dataMap t.ID t := by
      unfold AddRecentTrade
      simp only [hmerge, hlen, hsmall, if_true]
    rw [hres, hkeys, hlen]
    exact ⟨fun _ => Iff.rfl, rfl, hlook⟩
  · have hfull : 10000 ≤ (mergeTrades dataMap [t]).length := by rw [hmerge, hlen]; omega
    have hM : TradeMap.WF (mergeTrades dataMap [t]) := wf_mergeTrades [t] dataMap hwf
    have hc := AddRecentTrade_compact sortSlice hs dataMap [t] hwf hfull
    obtain ⟨hperm, _, _, _⟩ := hs (TradeMap.values (mergeTrades dataMap [t]))
    generalize hS : sortSlice newestFirst (TradeMap.values (mergeTrades dataMap [t])) = S
      at hc hperm
    have hlenS : S.length = dataMap.length := by
      rw [hperm.length_eq]
      simp only [TradeMap.values, List.length_map]
      rw [hmerge, hlen]
    have htake : S.take 10000 = S := List.take_of_length_le (by omega)
    rw [htake] at hc
    have hk : TradeMap.keys (S.map (fun t => (t.ID, t))) = S.map (fun t => t.ID) := by
      simp only [TradeMap.keys, List.map_map]
      rfl
    have hidsperm : (S.map (fun t => t.ID)).Perm (TradeMap.keys dataMap) := by
      have := hperm.map (fun t => t.ID)
      rw [TradeMap.ids_values _ hM, hmerge, hkeys] at this
      exact this
    rw [hc]
    refine ⟨?_, ?_, ?_⟩
    · intro k
      rw [hk]
      exact hidsperm.mem_iff
    · rw [List.length_map, hlenS]
    · apply TradeMap.lookup_of_mem
      · rw [hk]
        exact hidsperm.nodup_iff.mpr hwf.1
      · have ht : t ∈ S := by
          apply hperm.mem_iff.mpr
          rw [hmerge]
          simp only [TradeMap.values, List.mem_map]
          have hpair : (t.ID, t) ∈ TradeMap.assign dataMap t.ID t := by
            have h1 : t.ID ∈ TradeMap.keys (TradeMap.assign dataMap t.ID t) := by
              rw [hkeys]; exact hid
            simp only [TradeMap.keys, List.mem_map] at h1
            obtain ⟨kv, hkv, hkk⟩ := h1
            have hv : TradeMap.lookup (TradeMap.assign dataMap t.ID t) kv.1 = some kv.2 :=
              TradeMap.lookup_of_mem _ (by rw [← hmerge]; exact hM.1) kv.1 kv.2 hkv
            rw [hkk, hlook] at hv
            have : kv = (t.ID, t) := Prod.ext hkk (Option.some.inj hv).symm
            rw [← this]
            exact hkv
          exact ⟨(t.ID, t), hpair, rfl⟩
        simp only [List.mem_map]
        exact ⟨t, ht, rfl⟩

/-- C17 (witness). A cache of three trades; the trade with id 2 arrives again with a
new time. -/
theorem addRecentTrade_overwrites_witness :
    IsSliceSort insertionSortSlice ∧
    TradeMap.WF [(1, sampleTrade 1 10), (2, sampleTrade 2 20), (3, sampleTrade 3 30)] ∧
    AddRecentTrade insertionSortSlice
      [(1, sampleTrade 1 10), (2, sampleTrade 2 20), (3, sampleTrade 3 30)] [sampleTrade 2 25] =
      [(1, sampleTrade 1 10), (2, sampleTrade 2 25), (3, sampleTrade 3 30)] ∧
    TradeMap.lookup (AddRecentTrade insertionSortSlice
      [(1, sampleTrade 1 10), (2, sampleTrade 2 20), (3, sampleTrade 3 30)] [sampleTrade 2 25])
      (sampleTrade 2 25).ID = some (sampleTrade 2 25) :=
  ⟨insertionSortSlice_isSliceSort, by decide, by decide,
    (addRecentTrade_overwrites insertionSortSlice insertionSortSlice_isSliceSort
      [(1, sampleTrade 1 10), (2, sampleTrade 2 20), (3, sampleTrade 3 30)] (sampleTrade 2 25)
      (by decide) (by decide) (by decide)).2.2⟩

end Tradeflow

namespace Tradeflow
open Binance

theorem window_spec (sortSlice : SliceSorter) (hs : IsSliceSort sortSlice) (dataMap : TradeMap)
    (now duration : Int) :
    (sortSlice oldestFirst (getRecentTradesByDuration sortSlice dataMap now duration)).Perm
        ((TradeMap.values dataMap).filter
          (fun t => t.Time ≥ (now - duration).tdiv Millisecond)) ∧
      (sortSlice oldestFirst (getRecentTradesByDuration sortSlice dataMap now duration)).Pairwise
        (fun a b => a.Time ≤ b.Time) := by
  constructor
  · exact (hs _).2.2.1.trans (hs _).1
  · exact (hs _).2.2.2

theorem values_nodup (m : TradeMap) (hwf : TradeMap.WF m) : (TradeMap.values m).Nodup := by
  have h := hwf.1
  rw [← TradeMap.ids_values m hwf] at h
  exact List.Nodup.of_map _ h

theorem perm_pair_sorted (r : List RecentTrade) (a b : RecentTrade) (hab : a.Time < b.Time)
    (hperm : r.Perm [a, b]) (hsorted : r.Pairwise (fun x y => x.Time ≤ y.Time)) : r = [a, b] := by
  have hlen := hperm.length_eq
  match r, hlen with
  | [x, y], _ =>
    have hx : x ∈ [a, b] := hperm.mem_iff.mp (by simp)
    have hy : y ∈ [a, b] := hperm.mem_iff.mp (by simp)
    have hxy : x.Time ≤ y.Time := by
      simp only [List.pairwise_cons, List.mem_cons, List.mem_singleton, forall_eq_or_imp] at hsorted
      simpa using hsorted.1
    have hnd : [x, y].Nodup := hperm.nodup_iff.mpr (by
      simp only [List.nodup_cons, List.mem_singleton, List.not_mem_nil, not_false_eq_true,
        List.nodup_nil, and_true]
      intro h; rw [h] at hab; omega)
    simp only [List.nodup_cons, List.mem_singleton, List.not_mem_nil, not_false_eq_true,
      List.nodup_nil, and_true] at hnd
    simp only [List.mem_cons, List.mem_singleton, List.not_mem_nil, or_false] at hx hy
    rcases hx with hx | hx <;> rcases hy with hy | hy
    · exact absurd (hx.trans hy.symm) hnd
    · rw [hx, hy]
    · rw [hx, hy] at hxy; omega
    · exact absurd (hx.trans hy.symm) hnd

/-- C18. For a `sort.Slice` that rearranges and orders, every cache and every current
time, each of the three window queries (5, 10 and 20 minutes) returns a
rearrangement of exactly the cached trades whose time is at least the cutoff
`(now - d) / time.Millisecond`, by non-decreasing time, and without repetition when
the cache is well formed; trades at `now - 6 min`, `now - 4 min`, `now - 1 min` give
the last two, in this order, for the 5-minute window. -/
theorem window_queries (sortSlice : SliceSorter) (hs : IsSliceSort sortSlice)
    (dataMap : TradeMap) (now : Int) :
    ((GetRecentTradesLast5Minutes sortSlice dataMap now).Perm
        ((TradeMap.values dataMap).filter
          (fun t => t.Time ≥ (now - 5 * Minute).tdiv Millisecond)) ∧
      (GetRecentTradesLast5Minutes sortSlice dataMap now).Pairwise (fun a b => a.Time ≤ b.Time)) ∧
    ((GetRecentTradesLast10Minutes sortSlice dataMap now).Perm
        ((TradeMap.values dataMap).filter
          (fun t => t.Time ≥ (now - 10 * Minute).tdiv Millisecond)) ∧
      (GetRecentTradesLast10Minutes sortSlice dataMap now).Pairwise
        (fun a b => a.Time ≤ b.Time)) ∧
    ((GetRecentTradesLast20Minutes sortSlice dataMap now).Perm
        ((TradeMap.values dataMap).filter
          (fun t => t.Time ≥ (now - 20 * Minute).tdiv Millisecond)) ∧
      (GetRecentTradesLast20Minutes sortSlice dataMap now).Pairwise
        (fun a b => a.Time ≤ b.Time)) ∧
    (TradeMap.WF dataMap →
      (GetRecentTradesLast5Minutes sortSlice dataMap now).Nodup ∧
      (GetRecentTradesLast10Minutes sortSlice dataMap now).Nodup ∧
      (GetRecentTradesLast20Minutes sortSlice dataMap now).Nodup) ∧
    (∀ T : Int,
      GetRecentTradesLast5Minutes sortSlice
        [(1, sampleTrade 1 (T - 360000)), (2, sampleTrade 2 (T - 240000)),
          (3, sampleTrade 3 (T - 60000))] (T * 1000000) =
        [sampleTrade 2 (T - 240000), sampleTrade 3 (T - 60000)]) := by
  have h5 := window_spec sortSlice hs dataMap now (5 * Minute)
  have h10 := window_spec sortSlice hs dataMap now (10 * Minute)
  have h20 := window_spec sortSlice hs dataMap now (20 * Minute)
  refine ⟨h5, h10, h20, ?_, ?_⟩
  · intro hwf
    have hv := (values_nodup dataMap hwf)
    exact ⟨h5.1.nodup_iff.mpr (hv.filter _), h10.1.nodup_iff.mpr (hv.filter _),
      h20.1.nodup_iff.mpr (hv.filter _)⟩
  · intro T
    have h := window_spec sortSlice hs
      [(1, sampleTrade 1 (T - 360000)), (2, sampleTrade 2 (T - 240000)),
        (3, sampleTrade 3 (T - 60000))] (T * 1000000) (5 * Minute)
    have hcut : (T * 1000000 - 5 * Minute).tdiv Millisecond = T - 300000 := by
      have : T * 1000000 - 5 * Minute = (T - 300000) * Millisecond := by
        unfold Minute Millisecond; ring
      rw [this]
      exact Int.mul_tdiv_cancel _ (by unfold Millisecond; decide)
    have hfilter : (TradeMap.values [(1, sampleTrade 1 (T - 360000)),
        (2, sampleTrade 2 (T - 240000)), (3, sampleTrade 3 (T - 60000))]).filter
        (fun t => t.Time ≥ (T * 1000000 - 5 * Minute).tdiv Millisecond) =
        [sampleTrade 2 (T - 240000), sampleTrade 3 (T - 60000)] := by
      rw [hcut]
      have e1 : ¬ (T - 360000 ≥ T - 300000) := by omega
      have e2 : T - 240000 ≥ T - 300000 := by omega
      have e3 : T - 60000 ≥ T - 300000 := by omega
      simp [TradeMap.values, List.filter, sampleTrade, e1, e2, e3]
    rw [hfilter] at h
    exact perm_pair_sorted _ _ _ (by simp [sampleTrade]) h.1 h.2

/-- C18 (witness). The three trades of the example in another iteration order, at
`now = 1700000000000` ms, with insertion sort. -/
theorem window_queries_witness :
    IsSliceSort insertionSortSlice ∧
    GetRecentTradesLast5Minutes insertionSortSlice
      [(3, sampleTrade 3 (1700000000000 - 60000)), (1, sampleTrade 1 (1700000000000 - 360000)),
        (2, sampleTrade 2 (1700000000000 - 240000))] 1700000000000000000 =
      [sampleTrade 2 (1700000000000 - 240000), sampleTrade 3 (1700000000000 - 60000)] ∧
    (GetRecentTradesLast5Minutes insertionSortSlice
      [(3, sampleTrade 3 (1700000000000 - 60000)), (1, sampleTrade 1 (1700000000000 - 360000)),
        (2, sampleTrade 2 (1700000000000 - 240000))] 1700000000000000000).Pairwise
      (fun a b => a.Time ≤ b.Time) :=
  ⟨insertionSortSlice_isSliceSort, by decide,
    (window_queries insertionSortSlice insertionSortSlice_isSliceSort
      [(3, sampleTrade 3 (1700000000000 - 60000)), (1, sampleTrade 1 (1700000000000 - 360000)),
        (2, sampleTrade 2 (1700000000000 - 240000))] 1700000000000000000).1.2⟩

end Tradeflow

namespace Binance

/-- C13 (amended). A call of `Wait` whose refill step leaves the limiter `r0`: if `r0`
holds a token, the call consumes exactly one and does not sleep; if `r0` holds none,
the call sleeps the interval, sets the bucket to its capacity and consumes nothing,
so `rateLimit` tokens remain after it, not `rateLimit - 1`. -/
theorem wait_consumes_unless_exhausted (r r0 : RequestRateLimit) (now afterSleep : Int)
    (hre : refill r now = some r0) (hb : r0.tokens ≤ 2 ^ 63) :
    (0 < r0.tokens →
      Wait r now afterSleep = some ({ r0 with tokens := r0.tokens - 1 }, none)) ∧
    (r0.tokens ≤ 0 →
      Wait r now afterSleep =
        some ({ r0 with tokens := r0.rateLimit, lastTime := afterSleep },
          some (wrap64 (r0.interval * Millisecond)))) := by
  constructor
  · intro hpos
    unfold Wait
    rw [hre]
    have h : ¬ r0.tokens ≤ 0 := by omega
    simp only [h, if_false]
    rw [wrap64_of_fits (by omega) (by omega)]
  · intro hz
    unfold Wait
    rw [hre]
    simp only [hz, if_true]

/-- C13 (witness). Capacity 5, interval 1000 ms, bucket empty, no time elapsed: the
call sleeps 1000 ms and 5 tokens remain. -/
theorem wait_consumes_unless_exhausted_witness :
    refill { rateLimit := 5, interval := 1000, tokens := 0, lastTime := 0 } 0 =
      some { rateLimit := 5, interval := 1000, tokens := 0, lastTime := 0 } ∧
    Wait { rateLimit := 5, interval := 1000, tokens := 0, lastTime := 0 } 0 1000000000 =
      some ({ rateLimit := 5, interval := 1000, tokens := 5, lastTime := 1000000000 },
        some 1000000000) :=
  ⟨by decide,
    ((wait_consumes_unless_exhausted
      { rateLimit := 5, interval := 1000, tokens := 0, lastTime := 0 }
      { rateLimit := 5, interval := 1000, tokens := 0, lastTime := 0 } 0 1000000000
      (by decide) (by decide)).2 (by decide)).trans (by decide)⟩

end Binance

namespace Task

theorem GetPositionInfo_nil (parseFloat : String → Option F64) (clock : Nat → Int) :
    GetPositionInfo parseFloat clock [] =
      { HasLong := false, HasShort := false, LongAmt := F64.zero, ShortAmt := F64.zero,
        NetAmt := F64.zero, IsDualSide := true, Duration := 0, UnRealizedProfit := "" } := rfl

/-- C19 (the code on partial failures). Whatever the other eleven fetches return, a
call of `GetMarketData` whose mark-price fetch failed panics, and so does a call
whose ticker fetch failed; when both succeeded the call returns the snapshot in
which every pointer field is the fetched value or nil and every slice field the
fetched slice or nil. -/
theorem getMarketData_partial_failure (parseFloat : String → Option F64) (clock : Nat → Int)
    (f : Fetches) (e : String) (t : FuturesTicker) (mp : MarkPrice) :
    GetMarketData parseFloat clock none { f with markPrice := .failed e } = .panicked ∧
    GetMarketData parseFloat clock none { f with markPrice := .ok mp, ticker := .failed e } =
      .panicked ∧
    GetMarketData parseFloat clock none { f with markPrice := .ok mp, ticker := .ok t } =
      .returned
        { Ticker := some t, Klines3m := f.klines.slice, Klines1m := [],
          OrderBook := f.depth.ptr, BookTicker := f.bookTicker.ptr,
          Positions := f.positions.slice, Account := f.account.ptr,
          MarkPrice := mp.MarkPrice, FundingRate := f.fundingRate.ptr,
          OpenInterest := f.openInterest.ptr, OrderHistory := f.orderHistory.slice,
          OpenOrders := f.openOrders.slice, MarkPriceDetail := some mp,
          FundingRateHistorys := f.fundingRateHistory.slice,
          PositionInfo := GetPositionInfo parseFloat clock f.positions.slice } :=
  ⟨rfl, rfl, rfl⟩

/-- The sample fetches, all successful, give a snapshot holding every fetched value. -/
theorem getMarketData_sample :
    ∃ data, GetMarketData sampleParseFloat sampleClock none sampleFetches = .returned data ∧
      data.Ticker = some sampleTicker ∧ data.MarkPrice = "2510.00" ∧
      data.PositionInfo.HasLong = true ∧ data.PositionInfo.HasShort = false :=
  ⟨_, rfl, by decide⟩

/-- C20 (the code on a fetch error). An iteration of a running poller (stop channel
`c` open) whose position fetch returned an error closes the stop channel, resets it
to nil, calls `setOffSystem` once, which sets `offSystem`, and ends the loop. -/
theorem pollIteration_fetch_error_disarms (parseFloat : String → Option F64)
    (clock recordClock : Nat → Int) (g : Globals) (c : Nat) (e : String)
    (hrun : g.positionStopChan = some c) (hopen : c ∉ g.closed) :
    pollIteration parseFloat clock recordClock g (.failed e) =
      ({ g with closed := c :: g.closed, positionStopChan := none, offSystem := true,
                setOffSystemCalls := g.setOffSystemCalls + 1 }, .returned) := by
  unfold pollIteration
  simp only [Fetch.slice, GetPositionInfo_nil, Bool.not_false, Bool.and_self, if_true, hrun,
    hopen, if_false, setOffSystem, Bool.or_self, Bool.false_eq_true]

/-- C20 (witness). The sample poller, running on channel 0 with `offSystem` unset:
after a fetch that failed with a timeout the channel is closed, the poller stopped
and `offSystem` set. -/
theorem pollIteration_fetch_error_disarms_witness :
    sampleGlobals.positionStopChan = some 0 ∧ sampleGlobals.offSystem = false ∧
    pollIteration sampleParseFloat sampleClock sampleClock sampleGlobals
        (.failed "context deadline exceeded") =
      ({ positionQueue := [{ list := [] }, { list := [] }], positionStopChan := none,
         closed := [0], made := 1, offSystem := true, setOffSystemCalls := 1 }, .returned) :=
  ⟨rfl, rfl,
    (pollIteration_fetch_error_disarms sampleParseFloat sampleClock sampleClock sampleGlobals 0
      "context deadline exceeded" rfl (by decide)).trans (by decide)⟩

end Task

namespace Binance

/-! ## Splitting and decoding -/

/-- Two lists that agree up to the first occurrence of a separator agree on both
sides of it. -/
theorem split_at_first {α : Type} (c : α) :
    ∀ (a b r s : List α), c ∉ a → c ∉ b → a ++ c :: r = b ++ c :: s → a = b ∧ r = s := by
  intro a
  induction a with
  | nil =>
    intro b r s _ hb h
    cases b with
    | nil => simpa using h
    | cons y b' =>
      simp only [List.nil_append, List.cons_append, List.cons.injEq] at h
      exact absurd (by rw [← h.1]; exact List.mem_cons_self _ _) hb
  | cons x a' ih =>
    intro b r s ha hb h
    cases b with
    | nil =>
      simp only [List.nil_append, List.cons_append, List.cons.injEq] at h
      exact absurd (by rw [h.1]; exact List.mem_cons_self _ _) ha
    | cons y b' =>
      simp only [List.cons_append, List.cons.injEq] at h
      have ha' : c ∉ a' := fun hm => ha (List.mem_cons_of_mem _ hm)
      have hb' : c ∉ b' := fun hm => hb (List.mem_cons_of_mem _ hm)
      obtain ⟨h1, h2⟩ := ih b' r s ha' hb' h.2
      exact ⟨by rw [h.1, h1], h2⟩

/-- Two lists that agree from the last occurrence of a separator on agree on both
sides of it. -/
theorem split_at_last {α : Type} (c : α) (a b r s : List α) (hr : c ∉ r) (hs : c ∉ s)
    (h : a ++ c :: r = b ++ c :: s) : a = b ∧ r = s := by
  have h' := congrArg List.reverse h
  simp only [List.reverse_append, List.reverse_cons, List.append_assoc, List.singleton_append]
    at h'
  obtain ⟨h1, h2⟩ := split_at_first c r.reverse s.reverse a.reverse b.reverse
    (by simpa using hr) (by simpa using hs) h'
  exact ⟨List.reverse_injective h2, List.reverse_injective h1⟩

/-- A code whose words can be read off the front of a text (the first symbol gives the
length of the word, the word gives the letter) is injective on texts. -/
theorem flatMap_injective_of_code {α β : Type} (f : α → List β) (P : α → Prop)
    (width : β → Nat) (val : List β → α)
    (hne : ∀ a, P a → f a ≠ [])
    (hwidth : ∀ a, P a → ∀ x ∈ (f a).head?, width x = (f a).length)
    (hval : ∀ a, P a → val (f a) = a) :
    ∀ l1 l2 : List α, (∀ a ∈ l1, P a) → (∀ a ∈ l2, P a) →
      l1.flatMap f = l2.flatMap f → l1 = l2 := by
  have hcode : ∀ a b, P a → P b → ∀ r s, f a ++ r = f b ++ s → a = b ∧ r = s := by
    intro a b ha hb r s h
    have hla : (f a).length = (f b).length := by
      cases hfa : f a with
      | nil => exact absurd hfa (hne a ha)
      | cons x ta =>
        cases hfb : f b with
        | nil => exact absurd hfb (hne b hb)
        | cons y tb =>
          rw [hfa, hfb] at h
          simp only [List.cons_append, List.cons.injEq] at h
          have h1 := hwidth a ha x (by rw [hfa]; rfl)
          have h2 := hwidth b hb y (by rw [hfb]; rfl)
          rw [hfa] at h1
          rw [hfb] at h2
          rw [← h1, ← h2, h.1]
    obtain ⟨h1, h2⟩ := List.append_inj h hla
    refine ⟨?_, h2⟩
    rw [← hval a ha, ← hval b hb, h1]
  intro l1
  induction l1 with
  | nil =>
    intro l2 _ h2 h
    cases l2 with
    | nil => rfl
    | cons b t =>
      simp only [List.flatMap_nil, List.flatMap_cons] at h
      have : f b = [] := (List.append_eq_nil.mp h.symm).1
      exact absurd this (hne b (h2 b (List.mem_cons_self _ _)))
  | cons a t ih =>
    intro l2 h1 h2 h
    cases l2 with
    | nil =>
      simp only [List.flatMap_nil, List.flatMap_cons] at h
      have : f a = [] := (List.append_eq_nil.mp h).1
      exact absurd this (hne a (h1 a (List.mem_cons_self _ _)))
    | cons b t' =>
      simp only [List.flatMap_cons] at h
      obtain ⟨hab, hrest⟩ := hcode a b (h1 a (List.mem_cons_self _ _))
        (h2 b (List.mem_cons_self _ _)) _ _ h
      rw [hab, ih t' (fun x hx => h1 x (List.mem_cons_of_mem _ hx))
        (fun x hx => h2 x (List.mem_cons_of_mem _ hx)) hrest]

/-! ## UTF-8 -/

theorem byte_forall (p : UInt8 → Prop) (h : ∀ n, n < 256 → p (UInt8.ofNat n)) (x : UInt8) : p x := by
  have := h x.toNat (UInt8.toNat_lt_size x)
  have e : UInt8.ofNat x.toNat = x := by
    cases x with
    | mk bv =>
      simp [UInt8.ofNat, UInt8.toNat]
  rw [e] at this
  exact this

theorem shr_toNat (v : UInt32) (k : Nat) (hk : k < 32) :
    (v >>> (UInt32.ofNat k)).toNat = v.toNat / 2 ^ k := by
  show (v.toBitVec >>> ((UInt32.ofNat k).mod 32).toBitVec.toNat).toNat = _
  rw [BitVec.toNat_ushiftRight, Nat.shiftRight_eq_div_pow]
  have : ((UInt32.ofNat k).mod 32).toBitVec.toNat = k := by
    show ((UInt32.ofNat k).toBitVec % (32 : UInt32).toBitVec).toNat = k
    rw [BitVec.toNat_umod]
    show (k % 2 ^ 32) % 32 = k
    omega
  rw [this]
  rfl

theorem toUInt8_toNat (v : UInt32) : v.toUInt8.toNat = v.toNat % 256 := by
  show (v.toNat % 2 ^ 8) = v.toNat % 256
  rfl

theorem utf8_lead2 (x : UInt8) : (x &&& 0x1f ||| 0xc0).toNat = 192 + x.toNat % 32 := by
  revert x
  apply byte_forall
  decide

theorem utf8_lead3 (x : UInt8) : (x &&& 0x0f ||| 0xe0).toNat = 224 + x.toNat % 16 := by
  revert x
  apply byte_forall
  decide

theorem utf8_lead4 (x : UInt8) : (x &&& 0x07 ||| 0xf0).toNat = 240 + x.toNat % 8 := by
  revert x
  apply byte_forall
  decide

theorem utf8_cont (x : UInt8) : (x &&& 0x3f ||| 0x80).toNat = 128 + x.toNat % 64 := by
  revert x
  apply byte_forall
  decide

theorem utf8_nat (c : Char) :
    (String.utf8EncodeChar c).map UInt8.toNat =
      if c.toNat ≤ 127 then [c.toNat]
      else if c.toNat ≤ 2047 then [192 + c.toNat / 64 % 32, 128 + c.toNat % 64]
      else if c.toNat ≤ 65535 then
        [224 + c.toNat / 4096 % 16, 128 + c.toNat / 64 % 64, 128 + c.toNat % 64]
      else [240 + c.toNat / 262144 % 8, 128 + c.toNat / 4096 % 64, 128 + c.toNat / 64 % 64,
        128 + c.toNat % 64] := by
  have h6 : (c.val >>> 6).toNat = c.val.toNat / 2 ^ 6 := shr_toNat c.val 6 (by decide)
  have h12 : (c.val >>> 12).toNat = c.val.toNat / 2 ^ 12 := shr_toNat c.val 12 (by decide)
  have h18 : (c.val >>> 18).toNat = c.val.toNat / 2 ^ 18 := shr_toNat c.val 18 (by decide)
  have e1 : (c.val ≤ 0x7f) ↔ c.toNat ≤ 127 := Iff.rfl
  have e2 : (c.val ≤ 0x7ff) ↔ c.toNat ≤ 2047 := Iff.rfl
  have e3 : (c.val ≤ 0xffff) ↔ c.toNat ≤ 65535 := Iff.rfl
  unfold String.utf8EncodeChar
  simp only [e1, e2, e3]
  have hv : c.val.toNat = c.toNat := rfl
  split
  · simp only [List.map_cons, List.map_nil, toUInt8_toNat, hv]
    congr 1
    omega
  · split
    · simp only [List.map_cons, List.map_nil, utf8_lead2, utf8_cont, toUInt8_toNat, h6, hv]
      congr 1
      · omega
      · congr 1; omega
    · split
      · simp only [List.map_cons, List.map_nil, utf8_lead3, utf8_cont, toUInt8_toNat, h6, h12, hv]
        congr 1
        · omega
        · congr 1
          · omega
          · congr 1; omega
      · simp only [List.map_cons, List.map_nil, utf8_lead4, utf8_cont, toUInt8_toNat, h6, h12, h18, hv]
        congr 1
        · omega
        · congr 1
          · omega
          · congr 1
            · omega
            · congr 1; omega

end Binance

namespace Binance

/-- The bytes of one character. -/
theorem utf8Bytes_eq (s : String) :
    utf8Bytes s = s.toList.flatMap (fun ch => (String.utf8EncodeChar ch).map UInt8.toNat) := rfl

theorem char_toNat_lt (c : Char) : c.toNat < 1114112 := by
  have h := c.valid
  show c.val.toNat < 1114112
  rcases h with h | h
  · have : c.val.toNat < 55296 := h
    omega
  · exact h.2

theorem utf8Bytes_lt (s : String) : ∀ b ∈ utf8Bytes s, b < 256 := by
  intro b hb
  rw [utf8Bytes_eq, List.mem_flatMap] at hb
  obtain ⟨c, _, hb⟩ := hb
  rw [List.mem_map] at hb
  obtain ⟨x, _, hx⟩ := hb
  rw [← hx]
  exact UInt8.toNat_lt_size x

theorem utf8_cases (c : Char) :
    (c.toNat ≤ 127 ∧ (String.utf8EncodeChar c).map UInt8.toNat = [c.toNat]) ∨
    (127 < c.toNat ∧ c.toNat ≤ 2047 ∧
      (String.utf8EncodeChar c).map UInt8.toNat = [192 + c.toNat / 64 % 32, 128 + c.toNat % 64]) ∨
    (2047 < c.toNat ∧ c.toNat ≤ 65535 ∧
      (String.utf8EncodeChar c).map UInt8.toNat =
        [224 + c.toNat / 4096 % 16, 128 + c.toNat / 64 % 64, 128 + c.toNat % 64]) ∨
    (65535 < c.toNat ∧ c.toNat < 1114112 ∧
      (String.utf8EncodeChar c).map UInt8.toNat =
        [240 + c.toNat / 262144 % 8, 128 + c.toNat / 4096 % 64, 128 + c.toNat / 64 % 64,
          128 + c.toNat % 64]) := by
  have hc := char_toNat_lt c
  rw [utf8_nat]
  by_cases h1 : c.toNat ≤ 127
  · exact Or.inl ⟨h1, by rw [if_pos h1]⟩
  · by_cases h2 : c.toNat ≤ 2047
    · exact Or.inr (Or.inl ⟨by omega, h2, by rw [if_neg h1, if_pos h2]⟩)
    · by_cases h3 : c.toNat ≤ 65535
      · exact Or.inr (Or.inr (Or.inl ⟨by omega, h3, by rw [if_neg h1, if_neg h2, if_pos h3]⟩))
      · exact Or.inr (Or.inr (Or.inr ⟨by omega, hc, by rw [if_neg h1, if_neg h2, if_neg h3]⟩))

/-- The bytes of a string determine the string. -/
theorem utf8Bytes_injective (s1 s2 : String) (h : utf8Bytes s1 = utf8Bytes s2) : s1 = s2 := by
  have hl : s1.toList = s2.toList := by
    refine flatMap_injective_of_code
      (fun ch => (String.utf8EncodeChar ch).map UInt8.toNat) (fun _ => True)
      (fun b => if b < 128 then 1 else if b < 224 then 2 else if b < 240 then 3 else 4)
      (fun w => Char.ofNat (match w with
        | [a] => a
        | [a, b] => (a - 192) * 64 + (b - 128)
        | [a, b, c] => (a - 224) * 4096 + (b - 128) * 64 + (c - 128)
        | [a, b, c, d] => (a - 240) * 262144 + (b - 128) * 4096 + (c - 128) * 64 + (d - 128)
        | _ => 0))
      ?_ ?_ ?_ s1.toList s2.toList (fun _ _ => trivial) (fun _ _ => trivial) h
    · intro c _
      rcases utf8_cases c with ⟨_, he⟩ | ⟨_, _, he⟩ | ⟨_, _, he⟩ | ⟨_, _, he⟩ <;>
        simp only [he] <;> exact List.cons_ne_nil _ _
    · intro c _ x hx
      rcases utf8_cases c with ⟨h1, he⟩ | ⟨h1, h2, he⟩ | ⟨h1, h2, he⟩ | ⟨h1, h2, he⟩
      · simp only [he, List.head?_cons, Option.mem_def, Option.some.injEq] at hx ⊢
        subst hx
        rw [if_pos (by omega)]
        rfl
      · simp only [he, List.head?_cons, Option.mem_def, Option.some.injEq] at hx ⊢
        subst hx
        rw [if_neg (by omega), if_pos (by omega)]
        rfl
      · simp only [he, List.head?_cons, Option.mem_def, Option.some.injEq] at hx ⊢
        subst hx
        rw [if_neg (by omega), if_neg (by omega), if_pos (by omega)]
        rfl
      · simp only [he, List.head?_cons, Option.mem_def, Option.some.injEq] at hx ⊢
        subst hx
        rw [if_neg (by omega), if_neg (by omega), if_neg (by omega)]
        rfl
    · intro c _
      have hof : ∀ n, n = c.toNat → Char.ofNat n = c := by
        intro n hn
        rw [hn]
        exact Char.ofNat_toNat c
      rcases utf8_cases c with ⟨h1, he⟩ | ⟨h1, h2, he⟩ | ⟨h1, h2, he⟩ | ⟨h1, h2, he⟩
      · simp only [he]
        exact hof _ rfl
      · simp only [he]
        apply hof
        omega
      · simp only [he]
        apply hof
        omega
      · simp only [he]
        apply hof
        omega
  calc s1 = String.mk s1.toList := rfl
    _ = String.mk s2.toList := by rw [hl]
    _ = s2 := rfl

end Binance

namespace Binance

/-! ## Percent-encoding -/

theorem escapeByte_code : ∀ a, a < 256 →
    escapeByte a ≠ [] ∧
    (escapeByte a).head?.map (fun ch => if ch = '%' then 3 else 1) =
      some (escapeByte a).length ∧
    (match escapeByte a with
      | [_, h, l] =>
        (if h.toNat ≥ 65 then h.toNat - 55 else h.toNat - 48) * 16 +
          (if l.toNat ≥ 65 then l.toNat - 55 else l.toNat - 48)
      | [c] => if c = '+' then 32 else c.toNat
      | _ => 0) = a ∧
    '&' ∉ escapeByte a ∧ '=' ∉ escapeByte a := by
  decide

/-- The escaped form of a byte string determines the byte string. -/
theorem escape_injective (l1 l2 : List Nat) (h1 : ∀ b ∈ l1, b < 256) (h2 : ∀ b ∈ l2, b < 256)
    (h : l1.flatMap escapeByte = l2.flatMap escapeByte) : l1 = l2 := by
  refine flatMap_injective_of_code escapeByte (fun a => a < 256)
    (fun ch => if ch = '%' then 3 else 1)
    (fun w => match w with
      | [_, h, l] =>
        (if h.toNat ≥ 65 then h.toNat - 55 else h.toNat - 48) * 16 +
          (if l.toNat ≥ 65 then l.toNat - 55 else l.toNat - 48)
      | [c] => if c = '+' then 32 else c.toNat
      | _ => 0)
    ?_ ?_ ?_ l1 l2 h1 h2 h
  · intro a ha
    exact (escapeByte_code a ha).1
  · intro a ha x hx
    have hh := (escapeByte_code a ha).2.1
    rw [Option.mem_def] at hx
    rw [hx] at hh
    simpa using hh
  · intro a ha
    exact (escapeByte_code a ha).2.2.1

/-- The library function `url.QueryEscape` is injective. -/
theorem QueryEscape_injective (v1 v2 : String) (h : QueryEscape v1 = QueryEscape v2) :
    v1 = v2 := by
  unfold QueryEscape at h
  have hl : (utf8Bytes v1).flatMap escapeByte = (utf8Bytes v2).flatMap escapeByte :=
    congrArg String.data h
  exact utf8Bytes_injective v1 v2
    (escape_injective _ _ (utf8Bytes_lt v1) (utf8Bytes_lt v2) hl)

/-- The output of `url.QueryEscape` contains neither `&` nor `=`. -/
theorem QueryEscape_chars (v : String) :
    '&' ∉ (QueryEscape v).toList ∧ '=' ∉ (QueryEscape v).toList := by
  have hmem : ∀ ch, ch ∈ (QueryEscape v).toList → ∃ b, b < 256 ∧ ch ∈ escapeByte b := by
    intro ch hch
    have hch' : ch ∈ (utf8Bytes v).flatMap escapeByte := hch
    rw [List.mem_flatMap] at hch'
    obtain ⟨b, hb, hc⟩ := hch'
    exact ⟨b, utf8Bytes_lt v b hb, hc⟩
  constructor
  · intro hin
    obtain ⟨b, hb, hc⟩ := hmem _ hin
    exact (escapeByte_code b hb).2.2.2.1 hc
  · intro hin
    obtain ⟨b, hb, hc⟩ := hmem _ hin
    exact (escapeByte_code b hb).2.2.2.2 hc

end Binance

namespace Binance

/-! ## The canonical string determines the visible values -/

theorem toList_append (s t : String) : (s ++ t).toList = s.toList ++ t.toList := rfl

theorem eq_of_toList_eq (s t : String) (h : s.toList = t.toList) : s = t := by
  calc s = String.mk s.toList := rfl
    _ = String.mk t.toList := by rw [h]
    _ = t := rfl

/-- The characters of a non-empty join. -/
theorem Join_cons_cons (a b : String) (t : List String) :
    (Join (a :: b :: t) "&").toList = a.toList ++ '&' :: (Join (b :: t) "&").toList := by
  show (a ++ "&" ++ Join (b :: t) "&").toList = _
  rw [toList_append, toList_append]
  simp

/-- Joining with `&` is injective on lists of non-empty parts without `&`. -/
theorem Join_injective : ∀ (l1 l2 : List String),
    (∀ p ∈ l1, p ≠ "" ∧ '&' ∉ p.toList) → (∀ p ∈ l2, p ≠ "" ∧ '&' ∉ p.toList) →
    Join l1 "&" = Join l2 "&" → l1 = l2 := by
  have hsingle : ∀ (a b : String) (t : List String), '&' ∉ a.toList →
      Join [a] "&" = Join (b :: (t.head?.getD "") :: t.tail) "&" → False := by
    intro a b t ha h
    have h' := congrArg String.toList h
    rw [Join_cons_cons] at h'
    apply ha
    show '&' ∈ (Join [a] "&").toList
    rw [h']
    simp
  intro l1
  induction l1 with
  | nil =>
    intro l2 _ h2 h
    cases l2 with
    | nil => rfl
    | cons b t =>
      exact absurd h.symm
        (Join_ne_empty (b :: t) "&" b (List.mem_cons_self _ _) (h2 b (List.mem_cons_self _ _)).1)
  | cons a t ih =>
    intro l2 h1 h2 h
    cases l2 with
    | nil =>
      exact absurd h
        (Join_ne_empty (a :: t) "&" a (List.mem_cons_self _ _) (h1 a (List.mem_cons_self _ _)).1)
    | cons b t' =>
      cases t with
      | nil =>
        cases t' with
        | nil =>
          have : a = b := h
          rw [this]
        | cons b' t3 =>
          exact (hsingle a b (b' :: t3) (h1 a (List.mem_cons_self _ _)).2 h).elim
      | cons a' t2 =>
        cases t' with
        | nil =>
          exact (hsingle b a (a' :: t2) (h2 b (List.mem_cons_self _ _)).2 h.symm).elim
        | cons b' t3 =>
          have h' := congrArg String.toList h
          rw [Join_cons_cons, Join_cons_cons] at h'
          obtain ⟨hab, hrest⟩ := split_at_first '&' _ _ _ _
            (h1 a (List.mem_cons_self _ _)).2 (h2 b (List.mem_cons_self _ _)).2 h'
          have hab' : a = b := eq_of_toList_eq a b hab
          have hrest' : Join (a' :: t2) "&" = Join (b' :: t3) "&" := eq_of_toList_eq _ _ hrest
          rw [hab', ih (b' :: t3) (fun p hp => h1 p (List.mem_cons_of_mem _ hp))
            (fun p hp => h2 p (List.mem_cons_of_mem _ hp)) hrest']

/-- The characters of a `key=value` part. -/
theorem part_toList (k v : String) :
    (k ++ "=" ++ QueryEscape v).toList = k.toList ++ '=' :: (QueryEscape v).toList := by
  rw [toList_append, toList_append]
  simp

/-- Two `key=value` parts that are equal have the same key and the same value. -/
theorem part_injective (k1 k2 v1 v2 : String)
    (h : k1 ++ "=" ++ QueryEscape v1 = k2 ++ "=" ++ QueryEscape v2) : k1 = k2 ∧ v1 = v2 := by
  have h' := congrArg String.toList h
  rw [part_toList, part_toList] at h'
  obtain ⟨hk, hv⟩ := split_at_last '=' _ _ _ _ (QueryEscape_chars v1).2 (QueryEscape_chars v2).2 h'
  exact ⟨eq_of_toList_eq _ _ hk, QueryEscape_injective v1 v2 (eq_of_toList_eq _ _ hv)⟩

theorem mem_parts (m : GoMap) (ks : List String) (p : String)
    (hp : p ∈ ks.filterMap (queryPart m)) :
    ∃ k, k ∈ ks ∧ GoMap.index m k ≠ "" ∧ p = k ++ "=" ++ QueryEscape (GoMap.index m k) := by
  rw [List.mem_filterMap] at hp
  obtain ⟨k, hk, hq⟩ := hp
  unfold queryPart at hq
  by_cases hv : GoMap.index m k ≠ ""
  · rw [if_pos hv] at hq
    exact ⟨k, hk, hv, (Option.some.inj hq).symm⟩
  · rw [if_neg hv] at hq
    cases hq

/-- Over one list of distinct keys, equal part lists mean equal values at every key. -/
theorem parts_injective (m1 m2 : GoMap) : ∀ (ks : List String), ks.Nodup →
    ks.filterMap (queryPart m1) = ks.filterMap (queryPart m2) →
    ∀ k ∈ ks, GoMap.index m1 k = GoMap.index m2 k := by
  have hskip : ∀ (ma mb : GoMap) (k : String) (rest : List String), k ∉ rest →
      GoMap.index ma k ≠ "" →
      (k ++ "=" ++ QueryEscape (GoMap.index ma k)) :: rest.filterMap (queryPart ma) =
        rest.filterMap (queryPart mb) → False := by
    intro ma mb k rest hk _ h
    have hin : (k ++ "=" ++ QueryEscape (GoMap.index ma k)) ∈ rest.filterMap (queryPart mb) := by
      rw [← h]
      exact List.mem_cons_self _ _
    obtain ⟨k', hk', _, heq⟩ := mem_parts mb rest _ hin
    have := (part_injective _ _ _ _ heq).1
    exact hk (this ▸ hk')
  intro ks
  induction ks with
  | nil => intro _ _ k hk; cases hk
  | cons k rest ih =>
    intro hnd h
    have hk : k ∉ rest := (List.nodup_cons.mp hnd).1
    have hnd' : rest.Nodup := (List.nodup_cons.mp hnd).2
    simp only [List.filterMap_cons] at h
    by_cases hv1 : GoMap.index m1 k ≠ "" <;> by_cases hv2 : GoMap.index m2 k ≠ ""
    · simp only [queryPart, if_pos hv1, if_pos hv2, List.cons.injEq] at h
      have hv := (part_injective _ _ _ _ h.1).2
      intro k' hk'
      rcases List.mem_cons.mp hk' with hk' | hk'
      · rw [hk']; exact hv
      · exact ih hnd' h.2 k' hk'
    · simp only [queryPart, if_pos hv1, if_neg hv2] at h
      exact (hskip m1 m2 k rest hk hv1 h).elim
    · simp only [queryPart, if_neg hv1, if_pos hv2] at h
      exact (hskip m2 m1 k rest hk hv2 h.symm).elim
    · simp only [queryPart, if_neg hv1, if_neg hv2] at h
      intro k' hk'
      rcases List.mem_cons.mp hk' with hk' | hk'
      · rw [hk']
        rw [not_not] at hv1 hv2
        rw [hv1, hv2]
      · exact ih hnd' h k' hk'

end Binance

namespace Binance

theorem parts_wellformed (m : GoMap) (ks : List String) (hamp : ∀ k ∈ ks, '&' ∉ k.toList) :
    ∀ p ∈ ks.filterMap (queryPart m), p ≠ "" ∧ '&' ∉ p.toList := by
  intro p hp
  obtain ⟨k, hk, _, heq⟩ := mem_parts m ks p hp
  have hl : p.toList = k.toList ++ '=' :: (QueryEscape (GoMap.index m k)).toList := by
    rw [heq, part_toList]
  constructor
  · intro h
    rw [h] at hl
    have : ([] : List Char) = k.toList ++ '=' :: (QueryEscape (GoMap.index m k)).toList := hl
    simp at this
  · rw [hl]
    intro hin
    rcases List.mem_append.mp hin with hin | hin
    · exact hamp k hk hin
    · rcases List.mem_cons.mp hin with hin | hin
      · exact absurd hin (by decide)
      · exact (QueryEscape_chars _).1 hin

/-- Two maps with distinct keys and the same key set, no key of which contains `&`: if
they differ in the value of a key that does not start with an underscore, their
canonical query strings differ, and these strings are what `sign` hands to
HMAC-SHA256 under a non-empty secret. -/
theorem buildQueryString_injective_visible (m1 m2 : GoMap) (hwf1 : GoMap.WF m1)
    (hwf2 : GoMap.WF m2) (hkeys : ∀ k, k ∈ GoMap.keys m1 ↔ k ∈ GoMap.keys m2)
    (hamp : ∀ k ∈ GoMap.keys m1, '&' ∉ k.toList) (k : String)
    (hvis : HasPrefix k "_" = false) (hdiff : GoMap.index m1 k ≠ GoMap.index m2 k) :
    buildQueryString m1 ≠ buildQueryString m2 ∧
    ∀ (hmacSha256Hex : String → String → String) (c : ClientConfig), c.SecretKey ≠ "" →
      sign hmacSha256Hex c (buildQueryString m1) =
        hmacSha256Hex c.SecretKey (buildQueryString m1) ∧
      sign hmacSha256Hex c (buildQueryString m2) =
        hmacSha256Hex c.SecretKey (buildQueryString m2) := by
  constructor
  · intro heq
    rw [buildQueryString_eq, buildQueryString_eq, ← sorted_keys_congr m1 m2 hwf1 hwf2 hkeys] at heq
    have hks : ∀ k' ∈ sortStrings ((GoMap.keys m1).filter (fun k => ! (HasPrefix k "_"))),
        '&' ∉ k'.toList := by
      intro k' hk'
      exact hamp k' ((mem_sorted_keys m1 k').mp hk').1
    have hparts := Join_injective _ _ (parts_wellformed m1 _ hks) (parts_wellformed m2 _ hks) heq
    have hnd : (sortStrings ((GoMap.keys m1).filter (fun k => ! (HasPrefix k "_")))).Nodup :=
      (sortStrings_perm _).nodup_iff.mpr (List.Nodup.filter _ hwf1)
    have hmem : k ∈ GoMap.keys m1 := by
      by_contra hno
      have hno2 : k ∉ GoMap.keys m2 := fun h => hno ((hkeys k).mpr h)
      exact hdiff (by rw [GoMap.index_of_not_mem m1 k hno, GoMap.index_of_not_mem m2 k hno2])
    exact hdiff (parts_injective m1 m2 _ hnd hparts k ((mem_sorted_keys m1 k).mpr ⟨hmem, hvis⟩))
  · intro hmacSha256Hex c hc
    unfold sign
    simp only [if_neg hc, and_self]

/-- Maps that the package never builds can share a canonical query string: two maps
that differ in the value stored under `_auth_added` only, and two maps with a key
that contains `&`. -/
theorem buildQueryString_collisions_elsewhere :
    (GoMap.WF [("symbol", "ETHUSDT"), ("_auth_added", "true")] ∧
      GoMap.WF [("symbol", "ETHUSDT"), ("_auth_added", "false")] ∧
      GoMap.keys [("symbol", "ETHUSDT"), ("_auth_added", "true")] =
        GoMap.keys [("symbol", "ETHUSDT"), ("_auth_added", "false")] ∧
      GoMap.index [("symbol", "ETHUSDT"), ("_auth_added", "true")] "_auth_added" ≠
        GoMap.index [("symbol", "ETHUSDT"), ("_auth_added", "false")] "_auth_added" ∧
      buildQueryString [("symbol", "ETHUSDT"), ("_auth_added", "true")] =
        buildQueryString [("symbol", "ETHUSDT"), ("_auth_added", "false")] ∧
      sign sampleHmac (sampleConfig 0 0 1 5000)
          (buildQueryString [("symbol", "ETHUSDT"), ("_auth_added", "true")]) =
        sign sampleHmac (sampleConfig 0 0 1 5000)
          (buildQueryString [("symbol", "ETHUSDT"), ("_auth_added", "false")])) ∧
    (GoMap.WF [("a", "1"), ("a=1&b", ""), ("b", "2")] ∧
      GoMap.WF [("a", ""), ("a=1&b", "2"), ("b", "")] ∧
      GoMap.keys [("a", "1"), ("a=1&b", ""), ("b", "2")] =
        GoMap.keys [("a", ""), ("a=1&b", "2"), ("b", "")] ∧
      GoMap.index [("a", "1"), ("a=1&b", ""), ("b", "2")] "a" ≠
        GoMap.index [("a", ""), ("a=1&b", "2"), ("b", "")] "a" ∧
      buildQueryString [("a", "1"), ("a=1&b", ""), ("b", "2")] = "a=1&b=2" ∧
      buildQueryString [("a", ""), ("a=1&b", "2"), ("b", "")] = "a=1&b=2") := by
  decide

end Binance

set_option maxRecDepth 100000

namespace Binance
open ErrorCode

/-! ## Construction-time validation -/

theorem validateClientConfig_code (config : ClientConfig) (err : Error)
    (h : validateClientConfig config = some err) : err.Code = ErrCodeInvalidRequest := by
  unfold validateClientConfig at h
  split at h
  · cases h; rfl
  · split at h
    · cases h; rfl
    · split at h
      · cases h; rfl
      · split at h
        · cases h; rfl
        · split at h
          · cases h; rfl
          · cases h

theorem validateClientConfig_isSome (config : ClientConfig) :
    (validateClientConfig config).isSome = true ↔
      (config.APIKey = "" ∨ config.SecretKey = "" ∨ config.Timeout ≤ 0 ∨
        config.RecvWindow < 0 ∨ config.RecvWindow > 60000 ∨ config.MaxRetries < 0) := by
  unfold validateClientConfig
  by_cases h1 : config.APIKey = ""
  · simp [h1]
  · by_cases h2 : config.SecretKey = ""
    · simp [h1, h2]
    · by_cases h3 : config.Timeout ≤ 0
      · simp [h1, h2, h3]
      · by_cases h4 : config.RecvWindow < 0 ∨ config.RecvWindow > 60000
        · rw [if_neg h1, if_neg h2, if_neg h3, if_pos h4]
          simp only [Option.isSome_some, true_iff]
          rcases h4 with h4 | h4
          · exact Or.inr (Or.inr (Or.inr (Or.inl h4)))
          · exact Or.inr (Or.inr (Or.inr (Or.inr (Or.inl h4))))
        · by_cases h5 : config.MaxRetries < 0
          · rw [if_neg h1, if_neg h2, if_neg h3, if_neg h4, if_pos h5]
            simp only [Option.isSome_some, true_iff]
            exact Or.inr (Or.inr (Or.inr (Or.inr (Or.inr h5))))
          · rw [if_neg h1, if_neg h2, if_neg h3, if_neg h4, if_neg h5]
            simp only [Option.isSome_none, Bool.false_eq_true, false_iff]
            rw [not_or] at h4
            intro h
            rcases h with h | h | h | h | h | h
            · exact h1 h
            · exact h2 h
            · exact h3 h
            · exact h4.1 h
            · exact h4.2 h
            · exact h5 h

/-- C26. The constructor `NewFuturesClientFromClientConfig` returns an error and no
client exactly when APIKey is empty, or SecretKey is empty, or Timeout <= 0, or
RecvWindow is outside [0, 60000], or MaxRetries < 0; the error then has kind
InvalidRequest; every other configuration yields the client with this configuration
whose limiter starts with `tokens = RateLimitRateLimit`. -/
theorem newFuturesClient_validation (config : ClientConfig) (now : Int) :
    ((∃ err, NewFuturesClientFromClientConfig config now = .failed err) ↔
      (config.APIKey = "" ∨ config.SecretKey = "" ∨ config.Timeout ≤ 0 ∨
        config.RecvWindow < 0 ∨ config.RecvWindow > 60000 ∨ config.MaxRetries < 0)) ∧
    (∀ err, NewFuturesClientFromClientConfig config now = .failed err →
      err.Code = ErrCodeInvalidRequest) ∧
    (¬ (config.APIKey = "" ∨ config.SecretKey = "" ∨ config.Timeout ≤ 0 ∨
        config.RecvWindow < 0 ∨ config.RecvWindow > 60000 ∨ config.MaxRetries < 0) →
      NewFuturesClientFromClientConfig config now =
        .built { clientConfig := config,
                 rateLimit := { rateLimit := config.RateLimitRateLimit,
                                interval := config.RateLimitInterval,
                                tokens := config.RateLimitRateLimit, lastTime := now } }) := by
  have hiff := validateClientConfig_isSome config
  unfold NewFuturesClientFromClientConfig
  cases hv : validateClientConfig config with
  | none =>
    rw [hv] at hiff
    simp only [Option.isSome_none, Bool.false_eq_true, false_iff] at hiff
    refine ⟨⟨fun ⟨err, h⟩ => (by cases h), fun h => absurd h hiff⟩, fun err h => (by cases h),
      fun _ => rfl⟩
  | some e =>
    rw [hv] at hiff
    simp only [Option.isSome_some, true_iff] at hiff
    refine ⟨⟨fun _ => hiff, fun _ => ⟨e, rfl⟩⟩, ?_, fun h => absurd hiff h⟩
    intro err h
    have : e = err := by injection h
    rw [← this]
    exact validateClientConfig_code config e hv

/-- C26 (witness). The sample configuration is accepted and its limiter starts with
1200 tokens; the same configuration with `RecvWindow = 60001` is refused. -/
theorem newFuturesClient_validation_witness :
    (∃ client, NewFuturesClientFromClientConfig (sampleConfig 2 1000 2 5000) 0 = .built client ∧
      client.rateLimit.tokens = 1200) ∧
    (∃ err, NewFuturesClientFromClientConfig (sampleConfig 2 1000 2 60001) 0 = .failed err) :=
  ⟨⟨_, (newFuturesClient_validation (sampleConfig 2 1000 2 5000) 0).2.2 (by decide), rfl⟩,
    (newFuturesClient_validation (sampleConfig 2 1000 2 60001) 0).1.mpr (by decide)⟩

end Binance

namespace Binance
open ErrorCode

/-! ## Payload before status -/

theorem classifyResponse_2xx (env : Env) (statusCode : Int) (body : String)
    (h2xx : 200 ≤ statusCode ∧ statusCode < 300) :
    classifyResponse env statusCode body = .ok body ↔
      ¬ ∃ code msg, env.unmarshalAPIError body = some (code, msg) ∧ code ≠ 0 := by
  have hs : ¬ (statusCode < 200 ∨ statusCode ≥ 300) := by omega
  unfold classifyResponse
  cases hu : env.unmarshalAPIError body with
  | none => simp [hs]
  | some p =>
    obtain ⟨code, msg⟩ := p
    by_cases hc : code = 0
    · subst hc
      simp [hs]
    · simp [hc]

theorem doRequest_response (env : Env) (c : ClientConfig) (method endpoint : String)
    (params : Option GoMap) (needAuth : Bool) (w : World) (statusCode : Int) (body : String)
    (hwait : Wait w.rateLimit (env.now w.nowCount) (env.now (w.nowCount + 1)) ≠ none)
    (hnew : ∀ m u, env.newRequestError m u = none)
    (hrt : ∀ k req, env.roundTrip k req = .response statusCode body) :
    (doRequest env c method endpoint params needAuth w).1 = classifyResponse env statusCode body := by
  unfold doRequest
  cases hW : Wait w.rateLimit (env.now w.nowCount) (env.now (w.nowCount + 1)) with
  | none => exact absurd hW hwait
  | some p =>
    obtain ⟨rl, slept⟩ := p
    simp only [hnew, hrt]

/-- C28. A request that is sent and answered with an HTTP status 2xx and the body
`body`: `doRequest` returns `(body, nil)` if and only if `json.Unmarshal` of the
body into an `APIError` does not succeed with a non-zero `code`; when it does
succeed with a non-zero code, `doRequest` returns the error converted from the
payload, whatever the status. For the code 200 that error has kind Unknown, which
is not one of the kinds that end the retry loop. -/
theorem doRequest_payload_precedence (env : Env) (c : ClientConfig) (method endpoint : String)
    (params : Option GoMap) (needAuth : Bool) (w : World) (statusCode : Int) (body : String)
    (hwait : Wait w.rateLimit (env.now w.nowCount) (env.now (w.nowCount + 1)) ≠ none)
    (hnew : ∀ m u, env.newRequestError m u = none)
    (hrt : ∀ k req, env.roundTrip k req = .response statusCode body)
    (h2xx : 200 ≤ statusCode ∧ statusCode < 300) :
    ((doRequest env c method endpoint params needAuth w).1 = .ok body ↔
      ¬ ∃ code msg, env.unmarshalAPIError body = some (code, msg) ∧ code ≠ 0) ∧
    (∀ code msg, env.unmarshalAPIError body = some (code, msg) → code ≠ 0 →
      (doRequest env c method endpoint params needAuth w).1 =
        .fail (.binance (ConvertAPIError { Code := code, Message := msg, Raw := "" }))) ∧
    (∀ msg raw, (ConvertAPIError { Code := 200, Message := msg, Raw := raw }).Code =
        ErrCodeUnknown ∧
      noRetry (.binance (ConvertAPIError { Code := 200, Message := msg, Raw := raw })) = false) := by
  rw [doRequest_response env c method endpoint params needAuth w statusCode body hwait hnew hrt]
  refine ⟨classifyResponse_2xx env statusCode body h2xx, ?_, ?_⟩
  · intro code msg hu hc
    exact (classifyResponse_api_error env statusCode body code msg hu hc).1
  · intro msg raw
    exact ⟨rfl, rfl⟩

/-- C28 (witness). A `POST /fapi/v1/marginType` answered with status 200 and the
body `code 200, msg success`: the attempt fails with kind Unknown, and with
`MaxRetries = 1` the request is sent a second time after the delay. -/
theorem doRequest_payload_precedence_witness :
    (doRequest (sampleEnv (some (200, "success"))
        (fun _ => .response 200 "\x7b\"code\":200,\"msg\":\"success\"\x7d"))
      (sampleConfig 1 1000 2 5000) "POST" "/fapi/v1/marginType"
      (some [("symbol", "ETHUSDT"), ("marginType", "ISOLATED")]) true sampleWorld).1 =
      .fail (.binance (NewError ErrCodeUnknown "未知API错误" "success" "")) ∧
    (retryRequest (sampleEnv (some (200, "success"))
        (fun _ => .response 200 "\x7b\"code\":200,\"msg\":\"success\"\x7d"))
      (sampleConfig 1 1000 2 5000) "POST" "/fapi/v1/marginType"
      (some [("symbol", "ETHUSDT"), ("marginType", "ISOLATED")]) true sampleWorld).trace =
      [.attempt (.fail (.binance (NewError ErrCodeUnknown "未知API错误" "success" ""))),
       .sleep (1000 * Millisecond),
       .attempt (.fail (.binance (NewError ErrCodeUnknown "未知API错误" "success" "")))] :=
  ⟨(doRequest_payload_precedence (sampleEnv (some (200, "success"))
        (fun _ => .response 200 "\x7b\"code\":200,\"msg\":\"success\"\x7d"))
      (sampleConfig 1 1000 2 5000) "POST" "/fapi/v1/marginType"
      (some [("symbol", "ETHUSDT"), ("marginType", "ISOLATED")]) true sampleWorld 200
      "\x7b\"code\":200,\"msg\":\"success\"\x7d" (by decide) (fun _ _ => rfl) (fun _ _ => rfl)
      (by decide)).2.1 200 "success" rfl (by decide),
    by decide⟩

/-! ## No division by zero -/

theorem tdiv_millisecond_nonneg (d : Int) (h : 0 ≤ d) : 0 ≤ d.tdiv Millisecond :=
  Int.tdiv_nonneg h (by unfold Millisecond; decide)

theorem refill_isSome (r : RequestRateLimit) (now : Int) (hnow : r.lastTime ≤ now) :
    ∃ r0, refill r now = some r0 := by
  have he := tdiv_millisecond_nonneg (now - r.lastTime) (by omega)
  unfold refill
  simp only
  split
  · exact ⟨_, rfl⟩
  · split
    · omega
    · split
      · exact ⟨_, rfl⟩
      · exact ⟨_, rfl⟩

/-- C29. A call of `Wait` entered at a clock reading not earlier than `lastTime`,
whatever the limiter (interval zero or negative included): the division by
`interval` is reached only when `interval > 0`, and the call returns without a
panic. -/
theorem wait_division_safe (r : RequestRateLimit) (now afterSleep : Int)
    (hnow : r.lastTime ≤ now) :
    (reachesDivision r now = true → 0 < r.interval) ∧
    ∃ r1 slept, Wait r now afterSleep = some (r1, slept) := by
  have he := tdiv_millisecond_nonneg (now - r.lastTime) (by omega)
  constructor
  · intro h
    unfold reachesDivision at h
    simp only [Bool.not_eq_true', decide_eq_false_iff_not] at h
    omega
  · obtain ⟨r0, hr⟩ := refill_isSome r now hnow
    unfold Wait
    rw [hr]
    simp only
    split
    · exact ⟨_, _, rfl⟩
    · exact ⟨_, _, rfl⟩

/-- C29 (witness). A limiter with interval 0 and an empty bucket, called with no time
elapsed: the division is not reached and the call returns (it sleeps 0 ns); with
interval 1000 and half a second elapsed the division is reached. -/
theorem wait_division_safe_witness :
    reachesDivision { rateLimit := 5, interval := 0, tokens := 0, lastTime := 0 } 0 = false ∧
    (∃ r1 slept,
      Wait { rateLimit := 5, interval := 0, tokens := 0, lastTime := 0 } 0 0 = some (r1, slept)) ∧
    reachesDivision { rateLimit := 5, interval := 1000, tokens := 0, lastTime := 0 } 500000000 =
      true :=
  ⟨by decide,
    (wait_division_safe { rateLimit := 5, interval := 0, tokens := 0, lastTime := 0 } 0 0
      (by decide)).2,
    by decide⟩

end Binance

namespace Binance
open ErrorCode

/-! ## Callers sharing a limiter -/

/-- A call of `Wait` is its two halves run one after the other. -/
theorem Wait_eq_check_commit (r : RequestRateLimit) (now afterSleep : Int) :
    Wait r now afterSleep =
      match waitCheck r now with
      | none => none
      | some (r0, exhausted) => some (waitCommit r0 exhausted afterSleep) := by
  unfold Wait waitCheck waitCommit
  cases refill r now with
  | none => rfl
  | some r0 =>
    simp only
    by_cases h : r0.tokens ≤ 0
    · simp [h]
    · simp [h]

/-- C27 (the code under two callers). A call of `Wait` is the test of lines 57-76
followed by the update of lines 77-83, with no lock around them. With one token in
the bucket and two callers whose tests both run before either update, both calls
return without sleeping and the bucket is left with -1 tokens; when the calls run
one after the other the second one sleeps the interval. -/
theorem wait_unlocked_admits_two :
    (∀ (r : RequestRateLimit) (now afterSleep : Int),
      Wait r now afterSleep =
        match waitCheck r now with
        | none => none
        | some (r0, exhausted) => some (waitCommit r0 exhausted afterSleep)) ∧
    runWait { limiter := { rateLimit := 1, interval := 1000, tokens := 1, lastTime := 0 },
              pending := [], returned := [] }
        [.check 0 0, .check 1 0, .commit 0 0, .commit 1 0] =
      some { limiter := { rateLimit := 1, interval := 1000, tokens := -1, lastTime := 0 },
             pending := [], returned := [(0, none), (1, none)] } ∧
    runWait { limiter := { rateLimit := 1, interval := 1000, tokens := 1, lastTime := 0 },
              pending := [], returned := [] }
        [.check 0 0, .commit 0 0, .check 1 0, .commit 1 1000000000] =
      some { limiter := { rateLimit := 1, interval := 1000, tokens := 1, lastTime := 1000000000 },
             pending := [], returned := [(0, none), (1, some (1000 * Millisecond))] } :=
  ⟨Wait_eq_check_commit, by decide, by decide⟩

end Binance

namespace Task

/-! ## The two position checks -/

theorem F64.key_neg (a : F64) : (F64.neg a).key = -a.key := by
  unfold F64.neg F64.key
  cases a.sign <;> simp

theorem F64.isNaN_neg (a : F64) : (F64.neg a).isNaN = a.isNaN := rfl

theorem F64.lt_zero_iff (a : F64) : F64.lt a F64.zero = true ↔ a.isNaN = false ∧ a.key < 0 := by
  have hz : F64.zero.key = 0 := by decide
  have hzn : F64.zero.isNaN = false := by decide
  unfold F64.lt
  rw [hz, hzn]
  cases a.isNaN <;> simp

theorem F64.gt_zero_iff (a : F64) : F64.gt a F64.zero = true ↔ a.isNaN = false ∧ 0 < a.key := by
  have hz : F64.zero.key = 0 := by decide
  have hzn : F64.zero.isNaN = false := by decide
  unfold F64.gt F64.lt
  rw [hz, hzn]
  cases a.isNaN <;> simp

/-- The magnitude of an amount is positive exactly when the amount is a number other
than zero. -/
theorem F64.gt_abs_zero (a : F64) :
    F64.gt (if F64.lt a F64.zero then F64.neg a else a) F64.zero = true ↔
      a.isNaN = false ∧ a.key ≠ 0 := by
  by_cases hlt : F64.lt a F64.zero = true
  · rw [if_pos hlt, F64.gt_zero_iff, F64.isNaN_neg, F64.key_neg]
    have := (F64.lt_zero_iff a).mp hlt
    constructor
    · rintro ⟨h1, _⟩
      exact ⟨h1, by omega⟩
    · rintro ⟨h1, _⟩
      exact ⟨h1, by omega⟩
  · rw [if_neg hlt, F64.gt_zero_iff]
    have hn := mt (F64.lt_zero_iff a).mpr hlt
    constructor
    · rintro ⟨h1, h2⟩
      exact ⟨h1, by omega⟩
    · rintro ⟨h1, h2⟩
      refine ⟨h1, ?_⟩
      by_contra hc
      exact hn ⟨h1, by omega⟩

theorem F64.ne_zero_iff (a : F64) :
    F64.ne a F64.zero = true ↔ a.isNaN = true ∨ a.key ≠ 0 := by
  have hz : F64.zero.key = 0 := by decide
  have hzn : F64.zero.isNaN = false := by decide
  unfold F64.ne
  rw [hz, hzn]
  cases a.isNaN <;> simp

/-- The flags after one step of the loop of `GetPositionInfo`. -/
theorem positionStep_flags (parseFloat : String → Option F64) (clock : Nat → Int)
    (info : PositionInfo) (i : Nat) (pos : Position) :
    ((positionStep parseFloat clock info i pos).HasLong = true ↔
      info.HasLong = true ∨ (pos.PositionSide = PositionSideLong ∧
        ∃ a, parseFloat pos.PositionAmt = some a ∧ a.isNaN = false ∧ a.key ≠ 0)) ∧
    ((positionStep parseFloat clock info i pos).HasShort = true ↔
      info.HasShort = true ∨ (pos.PositionSide = PositionSideShort ∧
        ∃ a, parseFloat pos.PositionAmt = some a ∧ a.isNaN = false ∧ a.key ≠ 0)) := by
  have hne : PositionSideLong ≠ PositionSideShort := by decide
  unfold positionStep
  cases hp : parseFloat pos.PositionAmt with
  | none => simp
  | some a =>
    have hg := F64.gt_abs_zero a
    simp only [Option.some.injEq, exists_eq_left']
    by_cases hgt : F64.gt (if F64.lt a F64.zero then F64.neg a else a) F64.zero = true
    · have hk := hg.mp hgt
      by_cases hs : pos.PositionSide = PositionSideLong
      · have hs2 : ¬ pos.PositionSide = PositionSideShort := fun h => hne (hs.symm.trans h)
        simp only [hgt, hs, and_self, if_true, hne, false_and, if_false, hk, ne_eq,
          not_false_eq_true, or_true, or_false]
      · by_cases hs2 : pos.PositionSide = PositionSideShort
        · have hne2 : ¬ PositionSideShort = PositionSideLong := fun h => hne h.symm
          simp only [hgt, hs, false_and, if_false, hs2, and_self, if_true, hk, ne_eq,
            not_false_eq_true, or_true, or_false, hne2, and_true]
        · simp only [hgt, hs, false_and, if_false, hs2, if_true, or_false, and_self]
    · have hk : ¬ (a.isNaN = false ∧ a.key ≠ 0) := fun h => hgt (hg.mpr h)
      simp only [hgt, and_false, if_false, Bool.false_eq_true, hk, or_false, and_self]

end Task

namespace Task

/-- The flags after the loop of `GetPositionInfo`. -/
theorem positionLoop_flags (parseFloat : String → Option F64) (clock : Nat → Int) :
    ∀ (l : List Position) (i : Nat) (info : PositionInfo),
    ((positionLoop parseFloat clock i info l).HasLong = true ↔
      info.HasLong = true ∨ ∃ pos ∈ l, pos.PositionSide = PositionSideLong ∧
        ∃ a, parseFloat pos.PositionAmt = some a ∧ a.isNaN = false ∧ a.key ≠ 0) ∧
    ((positionLoop parseFloat clock i info l).HasShort = true ↔
      info.HasShort = true ∨ ∃ pos ∈ l, pos.PositionSide = PositionSideShort ∧
        ∃ a, parseFloat pos.PositionAmt = some a ∧ a.isNaN = false ∧ a.key ≠ 0) := by
  intro l
  induction l with
  | nil => intro i info; simp [positionLoop]
  | cons pos rest ih =>
    intro i info
    have hstep := positionStep_flags parseFloat clock info i pos
    have hrest := ih (i + 1) (positionStep parseFloat clock info i pos)
    have hex : ∀ (P : Position → Prop), (∃ p ∈ pos :: rest, P p) ↔ (P pos ∨ ∃ p ∈ rest, P p) := by
      intro P
      simp only [List.mem_cons, exists_eq_or_imp]
    constructor
    · show (positionLoop parseFloat clock (i + 1) (positionStep parseFloat clock info i pos)
        rest).HasLong = true ↔ _
      rw [hex]
      exact hrest.1.trans ((or_congr_left hstep.1).trans (or_assoc))
    · show (positionLoop parseFloat clock (i + 1) (positionStep parseFloat clock info i pos)
        rest).HasShort = true ↔ _
      rw [hex]
      exact hrest.2.trans ((or_congr_left hstep.2).trans (or_assoc))

theorem getPositionInfo_flags (parseFloat : String → Option F64) (clock : Nat → Int)
    (positions : List Position) :
    ((GetPositionInfo parseFloat clock positions).HasLong = true ↔
      ∃ pos ∈ positions, pos.PositionSide = PositionSideLong ∧
        ∃ a, parseFloat pos.PositionAmt = some a ∧ a.isNaN = false ∧ a.key ≠ 0) ∧
    ((GetPositionInfo parseFloat clock positions).HasShort = true ↔
      ∃ pos ∈ positions, pos.PositionSide = PositionSideShort ∧
        ∃ a, parseFloat pos.PositionAmt = some a ∧ a.isNaN = false ∧ a.key ≠ 0) := by
  unfold GetPositionInfo
  have h := positionLoop_flags parseFloat clock positions 0
    { HasLong := false, HasShort := false, LongAmt := F64.zero, ShortAmt := F64.zero,
      NetAmt := F64.zero, IsDualSide := true, Duration := 0, UnRealizedProfit := "" }
  simpa using h

theorem hasRealPosition_iff (parseFloat : String → Option F64) (positions : List Position) :
    HasRealPosition parseFloat positions = true ↔
      ∃ pos ∈ positions, ∃ a, parseFloat pos.PositionAmt = some a ∧
        (a.isNaN = true ∨ a.key ≠ 0) := by
  induction positions with
  | nil => simp [HasRealPosition]
  | cons pos rest ih =>
    simp only [HasRealPosition, List.mem_cons, exists_eq_or_imp]
    cases hp : parseFloat pos.PositionAmt with
    | none => simp [ih]
    | some a =>
      simp only [Option.some.injEq, exists_eq_left']
      by_cases hne : F64.ne a F64.zero = true
      · simp only [hne, if_true, true_iff]
        exact Or.inl ((F64.ne_zero_iff a).mp hne)
      · have hk := mt (F64.ne_zero_iff a).mpr hne
        simp only [hne, Bool.false_eq_true, if_false, ih, hk, false_or]

/-- C30 (amended). For every list of positions, `GetPositionInfo` reporting a long or
a short position implies that `HasRealPosition` is true; the converse, and with it
the equivalence, holds for lists in which every position has side LONG or SHORT and
no amount parses to NaN. -/
theorem position_checks_agree (parseFloat : String → Option F64) (clock : Nat → Int)
    (positions : List Position) :
    (((GetPositionInfo parseFloat clock positions).HasLong = true ∨
        (GetPositionInfo parseFloat clock positions).HasShort = true) →
      HasRealPosition parseFloat positions = true) ∧
    ((∀ pos ∈ positions,
        pos.PositionSide = PositionSideLong ∨ pos.PositionSide = PositionSideShort) →
      (∀ pos ∈ positions, ∀ a, parseFloat pos.PositionAmt = some a → a.isNaN = false) →
      (HasRealPosition parseFloat positions = true ↔
        ((GetPositionInfo parseFloat clock positions).HasLong = true ∨
          (GetPositionInfo parseFloat clock positions).HasShort = true))) := by
  have hflags := getPositionInfo_flags parseFloat clock positions
  have hreal := hasRealPosition_iff parseFloat positions
  have hfwd : ((GetPositionInfo parseFloat clock positions).HasLong = true ∨
        (GetPositionInfo parseFloat clock positions).HasShort = true) →
      HasRealPosition parseFloat positions = true := by
    intro h
    rw [hreal]
    rcases h with h | h
    · obtain ⟨pos, hm, _, a, ha, _, hk⟩ := hflags.1.mp h
      exact ⟨pos, hm, a, ha, Or.inr hk⟩
    · obtain ⟨pos, hm, _, a, ha, _, hk⟩ := hflags.2.mp h
      exact ⟨pos, hm, a, ha, Or.inr hk⟩
  refine ⟨hfwd, fun hside hnan => ⟨?_, hfwd⟩⟩
  intro h
  obtain ⟨pos, hm, a, ha, hk⟩ := hreal.mp h
  have hn := hnan pos hm a ha
  have hk' : a.key ≠ 0 := by
    rcases hk with hk | hk
    · rw [hn] at hk; cases hk
    · exact hk
  rcases hside pos hm with hs | hs
  · exact Or.inl (hflags.1.mpr ⟨pos, hm, hs, a, ha, hn, hk'⟩)
  · exact Or.inr (hflags.2.mpr ⟨pos, hm, hs, a, ha, hn, hk'⟩)

/-- C30 (witness). One short position of -0.5: both checks report a position. -/
theorem position_checks_agree_witness :
    HasRealPosition sampleParseFloat [samplePosition "SHORT" "-0.5"] = true ∧
    (GetPositionInfo sampleParseFloat sampleClock [samplePosition "SHORT" "-0.5"]).HasShort =
      true ∧
    (HasRealPosition sampleParseFloat [samplePosition "SHORT" "-0.5"] = true ↔
      ((GetPositionInfo sampleParseFloat sampleClock [samplePosition "SHORT" "-0.5"]).HasLong =
          true ∨
        (GetPositionInfo sampleParseFloat sampleClock [samplePosition "SHORT" "-0.5"]).HasShort =
          true)) :=
  ⟨by decide, by decide,
    (position_checks_agree sampleParseFloat sampleClock [samplePosition "SHORT" "-0.5"]).2
      (by decide) (by decide)⟩

/-- C30 (counterexample). A position of 0.5 with side BOTH, as an account in one-way
mode holds it: `HasRealPosition` is true while `GetPositionInfo` reports neither a
long nor a short position; the same for a LONG position whose amount is the text
NaN. -/
theorem position_checks_disagree :
    (HasRealPosition sampleParseFloat [samplePosition "BOTH" "0.5"] = true ∧
      (GetPositionInfo sampleParseFloat sampleClock [samplePosition "BOTH" "0.5"]).HasLong =
        false ∧
      (GetPositionInfo sampleParseFloat sampleClock [samplePosition "BOTH" "0.5"]).HasShort =
        false) ∧
    (HasRealPosition sampleParseFloat [samplePosition "LONG" "NaN"] = true ∧
      (GetPositionInfo sampleParseFloat sampleClock [samplePosition "LONG" "NaN"]).HasLong =
        false ∧
      (GetPositionInfo sampleParseFloat sampleClock [samplePosition "LONG" "NaN"]).HasShort =
        false) := by
  decide

end Task

namespace Task

/-! ## One iteration of the polling loop -/

/-- The iteration that finds no position, in a running poller. -/
theorem pollIteration_no_position (parseFloat : String → Option F64)
    (clock recordClock : Nat → Int) (g : Globals) (c : Nat) (fetch : Fetch (List Position))
    (hrun : g.positionStopChan = some c) (hopen : c ∉ g.closed)
    (hlong : (GetPositionInfo parseFloat clock fetch.slice).HasLong = false)
    (hshort : (GetPositionInfo parseFloat clock fetch.slice).HasShort = false) :
    pollIteration parseFloat clock recordClock g fetch =
      ({ g with closed := c :: g.closed, positionStopChan := none, offSystem := true,
                setOffSystemCalls := g.setOffSystemCalls + 1 }, .returned) := by
  unfold pollIteration
  simp only [hlong, hshort, Bool.not_false, Bool.and_self, if_true, hrun, hopen, if_false,
    setOffSystem, Bool.or_self, Bool.false_eq_true]

/-- The iteration that finds a position. -/
theorem pollIteration_position (parseFloat : String → Option F64)
    (clock recordClock : Nat → Int) (g : Globals) (fetch : Fetch (List Position))
    (hpos : (GetPositionInfo parseFloat clock fetch.slice).HasLong = true ∨
      (GetPositionInfo parseFloat clock fetch.slice).HasShort = true) :
    pollIteration parseFloat clock recordClock g fetch =
      ({ g with positionQueue :=
          if (g.positionQueue ++ [PositionCache.mk (withTimes recordClock 0 fetch.slice)]).length > 15
          then (g.positionQueue ++ [PositionCache.mk (withTimes recordClock 0 fetch.slice)]).drop 1
          else g.positionQueue ++ [PositionCache.mk (withTimes recordClock 0 fetch.slice)] },
        .atSelect) := by
  unfold pollIteration
  have h : (!(GetPositionInfo parseFloat clock fetch.slice).HasLong &&
      !(GetPositionInfo parseFloat clock fetch.slice).HasShort) = false := by
    rcases hpos with h | h <;> simp [h]
  simp only [h, Bool.false_eq_true, if_false]

/-- What an iteration does to the history, whatever it finds. -/
theorem pollIteration_queue (parseFloat : String → Option F64)
    (clock recordClock : Nat → Int) (g : Globals) (fetch : Fetch (List Position)) :
    ((pollIteration parseFloat clock recordClock g fetch).2 = .atSelect ∧
      (pollIteration parseFloat clock recordClock g fetch).1.positionQueue =
        (if (g.positionQueue ++ [PositionCache.mk (withTimes recordClock 0 fetch.slice)]).length > 15
          then (g.positionQueue ++ [PositionCache.mk (withTimes recordClock 0 fetch.slice)]).drop 1
          else g.positionQueue ++ [PositionCache.mk (withTimes recordClock 0 fetch.slice)])) ∨
    ((pollIteration parseFloat clock recordClock g fetch).2 ≠ .atSelect ∧
      (pollIteration parseFloat clock recordClock g fetch).1.positionQueue = g.positionQueue) := by
  by_cases hpos : (GetPositionInfo parseFloat clock fetch.slice).HasLong = true ∨
      (GetPositionInfo parseFloat clock fetch.slice).HasShort = true
  · left
    rw [pollIteration_position parseFloat clock recordClock g fetch hpos]
    exact ⟨rfl, rfl⟩
  · right
    rw [not_or] at hpos
    have hl : (GetPositionInfo parseFloat clock fetch.slice).HasLong = false := by
      simpa using hpos.1
    have hs : (GetPositionInfo parseFloat clock fetch.slice).HasShort = false := by
      simpa using hpos.2
    unfold pollIteration
    simp only [hl, hs, Bool.not_false, Bool.and_self, if_true]
    cases g.positionStopChan with
    | none => refine ⟨?_, ?_⟩ <;> simp
    | some c =>
      by_cases hc : c ∈ g.closed
      · refine ⟨?_, ?_⟩ <;> simp [hc]
      · refine ⟨?_, ?_⟩ <;> simp [hc, setOffSystem, hl, hs]

theorem loops_get_set (loops : List LoopPc) (i : Nat) (pc pc1 : LoopPc)
    (h : loops.get? i = some pc) : (loops.set i pc1).get? i = some pc1 := by
  have hi : i < loops.length := by
    by_contra hc
    rw [List.get?_eq_none.mpr (by omega)] at h
    cases h
  simp [List.get?_eq_getElem?, List.getElem?_set, hi]

/-- In a running poller (stop channel `c` open), the iteration of loop `i` whose
positions show no long and no short position closes the stop channel and resets it
to nil, leaves the history as it is, calls `setOffSystem` once, after which
`offSystem` is set, and makes the goroutine return: no further step of that loop,
in particular no fetch, is possible. -/
theorem poller_no_position_running (parseFloat : String → Option F64) (p : Poller) (i : Nat)
    (input : IterationInput) (c : Nat) (hlive : p.crashed = false)
    (hloop : p.loops.get? i = some .fetching)
    (hrun : p.globals.positionStopChan = some c) (hopen : c ∉ p.globals.closed)
    (hlong : (GetPositionInfo parseFloat input.clock input.fetch.slice).HasLong = false)
    (hshort : (GetPositionInfo parseFloat input.clock input.fetch.slice).HasShort = false) :
    ∃ p1, Poller.step parseFloat p (.fetched i input) = some p1 ∧
      p1.globals = { p.globals with closed := c :: p.globals.closed, positionStopChan := none,
                                    offSystem := true,
                                    setOffSystemCalls := p.globals.setOffSystemCalls + 1 } ∧
      p1.globals.positionQueue = p.globals.positionQueue ∧
      p1.loops = p.loops.set i .returned ∧ p1.crashed = false ∧
      (∀ input2, Poller.step parseFloat p1 (.fetched i input2) = none) ∧
      Poller.step parseFloat p1 (.enterSelect i) = none ∧
      Poller.step parseFloat p1 (.stopCase i) = none ∧
      Poller.step parseFloat p1 (.tickCase i) = none := by
  have hit := pollIteration_no_position parseFloat input.clock input.recordClock p.globals c
    input.fetch hrun hopen hlong hshort
  have hget := loops_get_set p.loops i .fetching .returned hloop
  refine ⟨Poller.mk (Globals.mk p.globals.positionQueue none (c :: p.globals.closed)
      p.globals.made true (p.globals.setOffSystemCalls + 1)) (p.loops.set i .returned) p.crashed,
    ?_, rfl, rfl, rfl, hlive, ?_, ?_, ?_, ?_⟩
  · simp only [Poller.step, hlive, Bool.false_eq_true, if_false, hloop, if_true, hit]
  · intro input2
    simp only [Poller.step, hlive, Bool.false_eq_true, if_false, hget, Option.some.injEq,
      reduceCtorEq]
  · simp only [Poller.step, hlive, Bool.false_eq_true, if_false, hget, Option.some.injEq,
      reduceCtorEq]
  · simp only [Poller.step, hlive, Bool.false_eq_true, if_false, hget]
  · simp only [Poller.step, hlive, Bool.false_eq_true, if_false, hget]

/-! ## The history -/

theorem lastN_of_le {α : Type} (n : Nat) (l : List α) (h : l.length ≤ n) : lastN n l = l := by
  unfold lastN
  rw [Nat.sub_eq_zero_of_le h]
  rfl

theorem length_lastN {α : Type} (n : Nat) (l : List α) : (lastN n l).length ≤ n := by
  unfold lastN
  rw [List.length_drop]
  omega

/-- Appending to the last `n` elements and cutting again is cutting once. -/
theorem lastN_append_singleton {α : Type} (n : Nat) (hn : 1 ≤ n) (l : List α) (x : α) :
    lastN n (lastN n l ++ [x]) = lastN n (l ++ [x]) := by
  by_cases h : l.length ≤ n
  · rw [lastN_of_le n l h]
  · unfold lastN
    simp only [List.length_append, List.length_drop, List.length_singleton]
    rw [List.drop_append_of_le_length (by rw [List.length_drop]; omega),
      List.drop_append_of_le_length (by omega), List.drop_drop]
    congr 2
    omega

/-- The step of the history in an iteration that appends. -/
theorem queue_step (q : List PositionCache) (s : PositionCache) (h : q.length ≤ 15) :
    (if (q ++ [s]).length > 15 then (q ++ [s]).drop 1 else q ++ [s]) = lastN 15 (q ++ [s]) := by
  unfold lastN
  simp only [List.length_append, List.length_singleton]
  by_cases h16 : q.length + 1 > 15
  · rw [if_pos h16]
    congr 1
    omega
  · rw [if_neg h16]
    have : q.length + 1 - 15 = 0 := by omega
    rw [this]
    rfl

theorem pollRun_queue (parseFloat : String → Option F64) :
    ∀ (inputs : List IterationInput) (g : Globals), g.positionQueue.length ≤ 15 →
      (pollRun parseFloat g inputs).1.positionQueue.length ≤ 15 ∧
      ((pollRun parseFloat g inputs).2 = .atSelect →
        (pollRun parseFloat g inputs).1.positionQueue =
          lastN 15 (g.positionQueue ++ inputs.map snapshotOf)) := by
  intro inputs
  induction inputs with
  | nil =>
    intro g hg
    refine ⟨hg, fun _ => ?_⟩
    simp only [pollRun, List.map_nil, List.append_nil]
    exact (lastN_of_le 15 _ hg).symm
  | cons input rest ih =>
    intro g hg
    have hq := pollIteration_queue parseFloat input.clock input.recordClock g input.fetch
    cases hit : pollIteration parseFloat input.clock input.recordClock g input.fetch with
    | mk g1 next =>
      rw [hit] at hq
      simp only at hq
      rcases hq with ⟨hnext, hqueue⟩ | ⟨hnext, hqueue⟩
      · subst hnext
        rw [queue_step _ _ hg] at hqueue
        have hg1 : g1.positionQueue.length ≤ 15 := by
          rw [hqueue]
          exact length_lastN 15 _
        have hrun : pollRun parseFloat g (input :: rest) = pollRun parseFloat g1 rest := by
          simp only [pollRun, hit]
        rw [hrun]
        refine ⟨(ih g1 hg1).1, fun h => ?_⟩
        rw [(ih g1 hg1).2 h, hqueue]
        have hsnap : PositionCache.mk (withTimes input.recordClock 0 input.fetch.slice) =
            snapshotOf input := rfl
        rw [hsnap, List.map_cons]
        have hgen : ∀ (m : List PositionCache) (a : List PositionCache),
            lastN 15 (lastN 15 a ++ m) = lastN 15 (a ++ m) := by
          intro m
          induction m using List.reverseRecOn with
          | nil =>
            intro a
            simp only [List.append_nil]
            exact lastN_of_le 15 _ (length_lastN 15 a)
          | append_singleton m x ihm =>
            intro a
            rw [← List.append_assoc, ← List.append_assoc,
              ← lastN_append_singleton 15 (by decide) (lastN 15 a ++ m) x, ihm a,
              lastN_append_singleton 15 (by decide)]
        rw [hgen, List.append_assoc]
        rfl
      · have hrun : pollRun parseFloat g (input :: rest) = (g1, next) := by
          simp only [pollRun, hit]
        rw [hrun]
        refine ⟨by rw [hqueue]; exact hg, fun h => absurd h hnext⟩

end Task

namespace Task

theorem pollIteration_queue_le (parseFloat : String → Option F64)
    (clock recordClock : Nat → Int) (g : Globals) (fetch : Fetch (List Position))
    (hg : g.positionQueue.length ≤ 15) :
    (pollIteration parseFloat clock recordClock g fetch).1.positionQueue.length ≤ 15 := by
  rcases pollIteration_queue parseFloat clock recordClock g fetch with ⟨_, h⟩ | ⟨_, h⟩
  · rw [h, queue_step _ _ hg]
    exact length_lastN 15 _
  · rw [h]
    exact hg

theorem step_queue_le (parseFloat : String → Option F64) (p p1 : Poller) (e : PollerEvent)
    (hp : p.globals.positionQueue.length ≤ 15) (h : Poller.step parseFloat p e = some p1) :
    p1.globals.positionQueue.length ≤ 15 := by
  cases e with
  | start =>
    simp only [Poller.step] at h
    split at h
    · cases h
    · cases h
      unfold StartFetchPosition
      cases p.globals.positionStopChan with
      | none => simp
      | some c => exact hp
  | close =>
    simp only [Poller.step] at h
    split at h
    · cases h
    · cases hc : CloseFetchPosition p.globals with
      | none =>
        rw [hc] at h
        cases h
        exact hp
      | some g =>
        rw [hc] at h
        cases h
        unfold CloseFetchPosition at hc
        cases hch : p.globals.positionStopChan with
        | none =>
          rw [hch] at hc
          cases hc
          simp
        | some c =>
          rw [hch] at hc
          simp only at hc
          split at hc
          · cases hc
          · cases hc
            simp
  | fetched i input =>
    have hq := pollIteration_queue_le parseFloat input.clock input.recordClock p.globals
      input.fetch hp
    simp only [Poller.step] at h
    split at h
    · cases h
    · split at h
      · cases hit : pollIteration parseFloat input.clock input.recordClock p.globals
          input.fetch with
        | mk g next =>
          rw [hit] at h hq
          cases next <;> (simp only at h; cases h; exact hq)
      · cases h
  | enterSelect i =>
    simp only [Poller.step] at h
    split at h
    · cases h
    · split at h
      · cases h; exact hp
      · cases h
  | stopCase i =>
    simp only [Poller.step] at h
    split at h
    · cases h
    · split at h
      · split at h
        · cases h; exact hp
        · cases h
      · cases h
  | tickCase i =>
    simp only [Poller.step] at h
    split at h
    · cases h
    · split at h
      · cases h; exact hp
      · cases h

theorem run_queue_le (parseFloat : String → Option F64) :
    ∀ (events : List PollerEvent) (p p1 : Poller), p.globals.positionQueue.length ≤ 15 →
      Poller.run parseFloat p events = some p1 → p1.globals.positionQueue.length ≤ 15 := by
  intro events
  induction events with
  | nil =>
    intro p p1 hp h
    simp only [Poller.run, Option.some.injEq] at h
    rw [← h]
    exact hp
  | cons e rest ih =>
    intro p p1 hp h
    simp only [Poller.run] at h
    cases hs : Poller.step parseFloat p e with
    | none => rw [hs] at h; cases h
    | some p2 =>
      rw [hs] at h
      exact ih p2 p1 (step_queue_le parseFloat p p2 e hp hs) h

/-- C22. From package variables whose history holds at most 15 snapshots, after any
number of iterations of the polling loop the history holds at most 15 snapshots,
and when every iteration appended (reached the `select`) it holds the last 15 of
the earlier history followed by the snapshots of the iterations, in the order of
the iterations: with a 16th snapshot the oldest one goes. The bound also holds in
every state that starts, stops and loop steps reach from the start of the program. -/
theorem positionQueue_bounded (parseFloat : String → Option F64) (g : Globals)
    (inputs : List IterationInput) (hg : g.positionQueue.length ≤ 15) :
    (pollRun parseFloat g inputs).1.positionQueue.length ≤ 15 ∧
    ((pollRun parseFloat g inputs).2 = .atSelect →
      (pollRun parseFloat g inputs).1.positionQueue =
        lastN 15 (g.positionQueue ++ inputs.map snapshotOf)) ∧
    (∀ (events : List PollerEvent) (p : Poller),
      Poller.run parseFloat Poller.init events = some p →
        p.globals.positionQueue.length ≤ 15) :=
  ⟨(pollRun_queue parseFloat inputs g hg).1, (pollRun_queue parseFloat inputs g hg).2,
    fun events p h => run_queue_le parseFloat events Poller.init p (by decide) h⟩

/-- C22 (witness). Seventeen iterations after a start, the `k`-th of which records its
position at time `k`: the history holds the snapshots of iterations 2 to 16, oldest
first. -/
theorem positionQueue_bounded_witness :
    (pollRun sampleParseFloat (StartFetchPosition Poller.init.globals).1
        ((List.range 17).map (fun k =>
          { fetch := .ok [samplePosition "LONG" "0.5"], clock := sampleClock,
            recordClock := fun _ => (k : Int) }))).2 = .atSelect ∧
    (pollRun sampleParseFloat (StartFetchPosition Poller.init.globals).1
        ((List.range 17).map (fun k =>
          { fetch := .ok [samplePosition "LONG" "0.5"], clock := sampleClock,
            recordClock := fun _ => (k : Int) }))).1.positionQueue =
      ((List.range 17).drop 2).map (fun k =>
        { list := [{ Position := samplePosition "LONG" "0.5", recordTime := (k : Int) }] }) :=
  ⟨by decide,
    ((positionQueue_bounded sampleParseFloat (StartFetchPosition Poller.init.globals).1
      ((List.range 17).map (fun k =>
          { fetch := .ok [samplePosition "LONG" "0.5"], clock := sampleClock,
            recordClock := fun _ => (k : Int) })) (by decide)).2.1 (by decide)).trans
      (by decide)⟩

end Task

namespace Task

/-! ## Start, stop and the loop -/

/-- C23 (the code when the stop arrives during a fetch). After a start, a call of
`CloseFetchPosition` made while loop 0 is in `client.GetPositions` clears the
history and sets the stop channel to nil. If the fetch then returns a position, the
loop appends its snapshot and enters the `select` with the nil channel: the stop
case can never be taken, and with the timer the loop starts the next fetch. If the
fetch returns no position, the loop panics on `close` of the nil channel. A call of
`CloseFetchPosition` made while the loop is in the `select` does make it return,
without a call of `setOffSystem`. -/
theorem close_during_fetch_is_missed :
    Poller.run sampleParseFloat Poller.init
        [.start, .close, .fetched 0 (sampleInput "LONG" "0.5"), .enterSelect 0] =
      some { globals := { positionQueue := [snapshotOf (sampleInput "LONG" "0.5")],
                          positionStopChan := none, closed := [0], made := 1,
                          offSystem := false, setOffSystemCalls := 0 },
             loops := [.selecting none], crashed := false } ∧
    Poller.run sampleParseFloat Poller.init
        [.start, .close, .fetched 0 (sampleInput "LONG" "0.5"), .enterSelect 0, .stopCase 0] =
      none ∧
    Poller.run sampleParseFloat Poller.init
        [.start, .close, .fetched 0 (sampleInput "LONG" "0.5"), .enterSelect 0, .tickCase 0] =
      some { globals := { positionQueue := [snapshotOf (sampleInput "LONG" "0.5")],
                          positionStopChan := none, closed := [0], made := 1,
                          offSystem := false, setOffSystemCalls := 0 },
             loops := [.fetching], crashed := false } ∧
    Poller.run sampleParseFloat Poller.init [.start, .close, .fetched 0 sampleEmptyInput] =
      some { globals := { positionQueue := [], positionStopChan := none, closed := [0],
                          made := 1, offSystem := false, setOffSystemCalls := 0 },
             loops := [.panicked], crashed := true } ∧
    Poller.run sampleParseFloat Poller.init
        [.start, .fetched 0 (sampleInput "LONG" "0.5"), .enterSelect 0, .close, .stopCase 0] =
      some { globals := { positionQueue := [], positionStopChan := none, closed := [0],
                          made := 1, offSystem := false, setOffSystemCalls := 0 },
             loops := [.returned], crashed := false } := by
  decide

/-- C24 (the code under start, stop, start). A call of `StartFetchPosition` while the
stop channel is non-nil changes nothing and starts no goroutine. But a stop that
arrives while loop 0 is in its fetch leaves that loop running, and the next start
adds loop 1: two loops are live, each of them appends its snapshot, enters the
`select` on the new channel and goes on to its next fetch. -/
theorem start_after_missed_close_two_loops :
    (∀ (parseFloat : String → Option F64) (p : Poller) (c : Nat),
      Poller.step parseFloat
          { p with globals := { p.globals with positionStopChan := some c }, crashed := false }
          .start =
        some { p with globals := { p.globals with positionStopChan := some c },
                      crashed := false }) ∧
    (∀ (g : Globals) (c : Nat),
      StartFetchPosition { g with positionStopChan := some c } =
        ({ g with positionStopChan := some c }, false)) ∧
    (Poller.run sampleParseFloat Poller.init [.start, .close, .start]).map
        (fun p => (p.loops, p.liveLoops)) = some ([.fetching, .fetching], 2) ∧
    (Poller.run sampleParseFloat Poller.init
        [.start, .close, .start, .fetched 0 (sampleInput "LONG" "0.5"),
          .fetched 1 (sampleInput "LONG" "0.5"), .enterSelect 0, .enterSelect 1,
          .tickCase 0, .tickCase 1]).map
        (fun p => (p.loops, p.liveLoops, p.globals.positionQueue.length, p.crashed)) =
      some ([.fetching, .fetching], 2, 2, false) :=
  ⟨fun _ _ _ => rfl, fun _ _ => rfl, by decide, by decide⟩

end Task

namespace Binance

/-! ## The maps the client builds -/

theorem requestKeys_visible : ∀ k ∈ requestKeys, HasPrefix k "_" = false ∧ '&' ∉ k.toList := by
  decide

theorem sentinel_not_requestKey : "_auth_added" ∉ requestKeys := by decide

theorem receivable_nil : Receivable [] := by decide

/-- Setting one of the request keys keeps a map among those the package builds. -/
theorem receivable_assign (m : GoMap) (k v : String) (h : Receivable m) (hk : k ∈ requestKeys) :
    Receivable (GoMap.assign m k v) := by
  refine ⟨GoMap.wf_assign m k v h.1, ?_⟩
  intro k' hk'
  rw [GoMap.mem_keys_assign] at hk'
  rcases hk' with hk' | hk'
  · exact Or.inl (hk' ▸ hk)
  · rcases h.2 k' hk' with h1 | ⟨h1, h2⟩
    · exact Or.inl h1
    · right
      refine ⟨h1, ?_⟩
      rw [GoMap.index_assign]
      have hne : ¬ k' = k := by
        intro e
        rw [h1] at e
        exact sentinel_not_requestKey (e ▸ hk)
      rw [if_neg hne]
      exact h2

/-- Setting the sentinel (line 220) keeps a map among those the package builds. -/
theorem receivable_assign_sentinel (m : GoMap) (h : Receivable m) :
    Receivable (GoMap.assign m "_auth_added" "true") := by
  refine ⟨GoMap.wf_assign m _ _ h.1, ?_⟩
  intro k' hk'
  rw [GoMap.mem_keys_assign] at hk'
  by_cases he : k' = "_auth_added"
  · right
    refine ⟨he, ?_⟩
    rw [GoMap.index_assign, if_pos he]
  · rcases hk' with hk' | hk'
    · exact absurd hk' he
    · rcases h.2 k' hk' with h1 | ⟨h1, _⟩
      · exact Or.inl h1
      · exact absurd h1 he

/-- Copying one such map into another (the loops of lines 197 and 223) gives such a
map. -/
theorem receivable_copyInto (dst src : GoMap) (hd : Receivable dst) (hs : Receivable src) :
    Receivable (GoMap.copyInto dst src) := by
  refine ⟨GoMap.wf_copyInto src dst hd.1, ?_⟩
  intro k hk
  rw [GoMap.mem_keys_copyInto] at hk
  rw [GoMap.index_copyInto src dst k hs.1]
  by_cases hsrc : k ∈ GoMap.keys src
  · rw [if_pos hsrc]
    exact hs.2 k hsrc
  · rw [if_neg hsrc]
    rcases hk with hk | hk
    · exact hd.2 k hk
    · exact absurd hk hsrc

/-- The map whose canonical string `addAuthParams` signs is such a map. -/
theorem receivable_authParamsUnsigned (c : ClientConfig) (now : Int) (params : GoMap)
    (h : Receivable params) : Receivable (authParamsUnsigned c now params) := by
  have h0 : Receivable (GoMap.copyInto [] params) := receivable_copyInto [] params receivable_nil h
  unfold authParamsUnsigned
  simp only
  split <;> split <;>
    repeat (first
      | exact h0
      | exact receivable_assign _ _ _ (by assumption) (by decide)
      | apply receivable_assign _ _ _ _ (by decide))

/-- The caller's map after `addAuthParams` is such a map. -/
theorem receivable_addAuthParams (hmacSha256Hex : String → String → String) (c : ClientConfig)
    (now : Int) (params : GoMap) (h : Receivable params) :
    Receivable (addAuthParams hmacSha256Hex c now params) := by
  unfold addAuthParams
  split
  · exact h
  · apply receivable_copyInto params _ h
    unfold signedParams
    simp only
    apply receivable_assign_sentinel
    split
    · exact receivable_assign _ _ _ (receivable_authParamsUnsigned c now params h) (by decide)
    · exact receivable_authParamsUnsigned c now params h

/-- C11. For any two parameter maps as the client builds them that have the same key
set and differ in the value of at least one key, the canonical query strings differ;
under a non-empty secret these strings are what `sign` hands to HMAC-SHA256, so the
two signatures are computed over different payloads. -/
theorem buildQueryString_separates_values (m1 m2 : GoMap) (h1 : Receivable m1)
    (h2 : Receivable m2) (hkeys : ∀ k, k ∈ GoMap.keys m1 ↔ k ∈ GoMap.keys m2) (k : String)
    (hdiff : GoMap.index m1 k ≠ GoMap.index m2 k) :
    buildQueryString m1 ≠ buildQueryString m2 ∧
    ∀ (hmacSha256Hex : String → String → String) (c : ClientConfig), c.SecretKey ≠ "" →
      sign hmacSha256Hex c (buildQueryString m1) =
        hmacSha256Hex c.SecretKey (buildQueryString m1) ∧
      sign hmacSha256Hex c (buildQueryString m2) =
        hmacSha256Hex c.SecretKey (buildQueryString m2) := by
  have hmem : k ∈ GoMap.keys m1 := by
    by_contra hno
    have hno2 : k ∉ GoMap.keys m2 := fun h => hno ((hkeys k).mpr h)
    exact hdiff (by rw [GoMap.index_of_not_mem m1 k hno, GoMap.index_of_not_mem m2 k hno2])
  have hamp : ∀ k' ∈ GoMap.keys m1, '&' ∉ k'.toList := by
    intro k' hk'
    rcases h1.2 k' hk' with hr | ⟨hs, _⟩
    · exact (requestKeys_visible k' hr).2
    · rw [hs]
      decide
  have hvis : HasPrefix k "_" = false := by
    rcases h1.2 k hmem with hr | ⟨hs, hv1⟩
    · exact (requestKeys_visible k hr).1
    · exfalso
      rcases h2.2 k ((hkeys k).mp hmem) with hr | ⟨_, hv2⟩
      · rw [hs] at hr
        exact sentinel_not_requestKey hr
      · exact hdiff (hv1.trans hv2.symm)
  exact buildQueryString_injective_visible m1 m2 h1.1 h2.1 hkeys hamp k hvis hdiff

/-- C11 (witness). Two signed orders, each the map after `addAuthParams` with the
sentinel set, that differ in the quantity only: the canonical strings differ. -/
theorem buildQueryString_separates_values_witness :
    Receivable [("symbol", "ETHUSDT"), ("quantity", "0.5"), ("timestamp", "1700000000000"),
      ("signature", "ab12"), ("_auth_added", "true")] ∧
    Receivable [("quantity", "1.5"), ("symbol", "ETHUSDT"), ("timestamp", "1700000000000"),
      ("signature", "ab12"), ("_auth_added", "true")] ∧
    buildQueryString [("symbol", "ETHUSDT"), ("quantity", "0.5"), ("timestamp", "1700000000000"),
        ("signature", "ab12"), ("_auth_added", "true")] ≠
      buildQueryString [("quantity", "1.5"), ("symbol", "ETHUSDT"),
        ("timestamp", "1700000000000"), ("signature", "ab12"), ("_auth_added", "true")] :=
  ⟨by decide, by decide,
    (buildQueryString_separates_values
      [("symbol", "ETHUSDT"), ("quantity", "0.5"), ("timestamp", "1700000000000"),
        ("signature", "ab12"), ("_auth_added", "true")]
      [("quantity", "1.5"), ("symbol", "ETHUSDT"), ("timestamp", "1700000000000"),
        ("signature", "ab12"), ("_auth_added", "true")]
      (by decide) (by decide) (by intro k; simp [GoMap.keys]; tauto) "quantity"
      (by decide)).1⟩

end Binance

namespace Task

/-- The iteration that finds no position when the stop channel is nil: `close` panics
before `setOffSystem` is reached. -/
theorem pollIteration_no_position_nil (parseFloat : String → Option F64)
    (clock recordClock : Nat → Int) (g : Globals) (fetch : Fetch (List Position))
    (hnil : g.positionStopChan = none)
    (hlong : (GetPositionInfo parseFloat clock fetch.slice).HasLong = false)
    (hshort : (GetPositionInfo parseFloat clock fetch.slice).HasShort = false) :
    pollIteration parseFloat clock recordClock g fetch = (g, .panicked) := by
  unfold pollIteration
  simp only [hlong, hshort, Bool.not_false, Bool.and_self, if_true, hnil]

/-- C21 (the code on a no-position iteration). An iteration of loop `i` whose fetched
positions show no long and no short position does what is claimed when the stop
channel is non-nil and open: it closes the channel and resets it to nil, leaves the
history as it is, calls `setOffSystem` once, after which `offSystem` is set, and
returns, so that no further step of that loop is possible. When the stop channel is
nil, as it is after a `CloseFetchPosition` that arrived during the fetch, the
iteration panics on `close` of the nil channel: the package variables are unchanged,
`setOffSystem` is not called, and the program has crashed. -/
theorem poller_no_position_outcome (parseFloat : String → Option F64) (p : Poller) (i : Nat)
    (input : IterationInput) (hlive : p.crashed = false)
    (hloop : p.loops.get? i = some .fetching)
    (hlong : (GetPositionInfo parseFloat input.clock input.fetch.slice).HasLong = false)
    (hshort : (GetPositionInfo parseFloat input.clock input.fetch.slice).HasShort = false) :
    (∀ c, p.globals.positionStopChan = some c → c ∉ p.globals.closed →
      ∃ p1, Poller.step parseFloat p (.fetched i input) = some p1 ∧
        p1.globals = { p.globals with closed := c :: p.globals.closed, positionStopChan := none,
                                      offSystem := true,
                                      setOffSystemCalls := p.globals.setOffSystemCalls + 1 } ∧
        p1.globals.positionQueue = p.globals.positionQueue ∧
        p1.loops = p.loops.set i .returned ∧ p1.crashed = false ∧
        (∀ input2, Poller.step parseFloat p1 (.fetched i input2) = none) ∧
        Poller.step parseFloat p1 (.enterSelect i) = none ∧
        Poller.step parseFloat p1 (.stopCase i) = none ∧
        Poller.step parseFloat p1 (.tickCase i) = none) ∧
    (p.globals.positionStopChan = none →
      Poller.step parseFloat p (.fetched i input) =
        some { globals := p.globals, loops := p.loops.set i .panicked, crashed := true }) := by
  constructor
  · intro c hrun hopen
    exact poller_no_position_running parseFloat p i input c hlive hloop hrun hopen hlong hshort
  · intro hnil
    have hit := pollIteration_no_position_nil parseFloat input.clock input.recordClock p.globals
      input.fetch hnil hlong hshort
    simp only [Poller.step, hlive, Bool.false_eq_true, if_false, hloop, if_true, hit]

/-- C21 (witness). After a start and a `CloseFetchPosition` that arrives while loop 0
is in its fetch, the stop channel is nil; the fetch returns an empty list and the
iteration panics, with no call of `setOffSystem` and `offSystem` still unset. -/
theorem poller_no_position_outcome_witness :
    Poller.run sampleParseFloat Poller.init [.start, .close] =
      some { globals := { positionQueue := [], positionStopChan := none, closed := [0],
                          made := 1, offSystem := false, setOffSystemCalls := 0 },
             loops := [.fetching], crashed := false } ∧
    Poller.step sampleParseFloat
        { globals := { positionQueue := [], positionStopChan := none, closed := [0],
                       made := 1, offSystem := false, setOffSystemCalls := 0 },
          loops := [.fetching], crashed := false }
        (.fetched 0 sampleEmptyInput) =
      some { globals := { positionQueue := [], positionStopChan := none, closed := [0],
                          made := 1, offSystem := false, setOffSystemCalls := 0 },
             loops := [.panicked], crashed := true } :=
  ⟨by decide,
    (poller_no_position_outcome sampleParseFloat
      { globals := { positionQueue := [], positionStopChan := none, closed := [0],
                     made := 1, offSystem := false, setOffSystemCalls := 0 },
        loops := [.fetching], crashed := false } 0 sampleEmptyInput rfl rfl
      (by decide) (by decide)).2 rfl⟩

end Task
